import Mathlib

/-!
# genoDEL: haplotype-resolved genotyping of deletions

A shallow embedding of `src/genoDEL.cpp` (10X deletion genotyper) and a
verification of its specification.

Conventions of the embedding.

* Machine integers are `Int`/`Nat` with explicit wrap-around (`wrapI32`,
  `wrapU32`, `toSizeT`, `% 4294967296`) at the places where the C++ code
  stores into a fixed-width variable.
* `std::vector<uint32_t>` is `List Nat`.  An access `v[i]` outside the vector
  is undefined behaviour in C++; every function that can perform such an
  access (or an integer division by zero, or a failing allocation) returns an
  `Option`, and `none` stands for "the execution has left defined behaviour".
* `double` values are rationals extended by `+inf`, `-inf` and `NaN` (`F64`);
  every conversion and quotient is rounded to binary64 (round to nearest,
  ties to even, gradual underflow, overflow to infinity) by `roundF64`.
* The stream of alignment records delivered by `sam_itr_next` is a
  `List Bam1`.
-/

namespace GenoDEL

/-! ## Machine arithmetic -/

/-- Value of an integer once stored in an `int32_t` (two's complement). -/
def wrapI32 (x : Int) : Int := (x + 2147483648) % 4294967296 - 2147483648

/-- Value of an integer once stored in a `uint32_t`. -/
def wrapU32 (x : Int) : Nat := (x % 4294967296).toNat

/-- Value of an integer once converted to a 64-bit `std::size_t`. -/
def toSizeT (x : Int) : Nat := (x % 18446744073709551616).toNat

/-- The `double` values of the model: a rational (zero carries no sign),
`+inf`, `-inf` or `NaN`. -/
inductive F64 where
  | fin (q : ℚ)
  | inf
  | ninf
  | nan
deriving DecidableEq

/-- Comparison `a < b` of two doubles; every comparison with `NaN` is false. -/
def F64.lt : F64 → F64 → Bool
  | .fin a, .fin b => decide (a < b)
  | .fin _, .inf => true
  | .ninf, .fin _ => true
  | .ninf, .inf => true
  | _, _ => false

/-- Comparison `a <= b` of two doubles; every comparison with `NaN` is false. -/
def F64.le : F64 → F64 → Bool
  | .fin a, .fin b => decide (a ≤ b)
  | .fin _, .inf => true
  | .ninf, .fin _ => true
  | .ninf, .inf => true
  | .inf, .inf => true
  | .ninf, .ninf => true
  | _, _ => false

/-- Rounding of a rational to the nearest integer, a tie going to the even
neighbour. -/
def rne (x : ℚ) : Int :=
  if x - ⌊x⌋ < 1 / 2 then ⌊x⌋
  else if 1 / 2 < x - ⌊x⌋ then ⌊x⌋ + 1
  else if ⌊x⌋ % 2 = 0 then ⌊x⌋ else ⌊x⌋ + 1

/-- Number of halvings that bring `n` below 2, at most `fuel` of them. -/
def halvings : Nat → Nat → Nat
  | 0, _ => 0
  | fuel + 1, n => if 2 ≤ n then halvings fuel (n / 2) + 1 else 0

/-- Position of the highest set bit of `n`: `2^(log2n n) <= n < 2^(log2n n + 1)`
for `n >= 1`. -/
def log2n (n : Nat) : Nat := halvings n n

/-- Binary exponent of a positive rational `a`: the integer `e` with
`2^e <= a < 2^(e+1)`. -/
def binExp (a : ℚ) : Int :=
  if a < (2 : ℚ) ^ ((log2n a.num.toNat : Int) - (log2n a.den : Int)) then
    (log2n a.num.toNat : Int) - (log2n a.den : Int) - 1
  else (log2n a.num.toNat : Int) - (log2n a.den : Int)

/-- Exponent of the unit in the last place of the binary64 numbers around the
positive rational `a`: 52 below the binary exponent, and -1074 in the
subnormal range. -/
def ulpExp (a : ℚ) : Int := max (binExp a) (-1022) - 52

/-- The positive rational `a` rounded to the nearest multiple of its unit in
the last place, ties to even (53 significant bits). -/
def roundMag (a : ℚ) : ℚ := (rne (a / (2 : ℚ) ^ ulpExp a) : ℚ) * (2 : ℚ) ^ ulpExp a

/-- IEEE 754 binary64 rounding (round to nearest, ties to even) of an exact
rational result; a magnitude that rounds to `2^1024` or more overflows. -/
def roundF64 (q : ℚ) : F64 :=
  if q = 0 then F64.fin 0
  else if 0 < q then
    (if (2 : ℚ) ^ (1024 : Int) ≤ roundMag q then F64.inf else F64.fin (roundMag q))
  else
    (if (2 : ℚ) ^ (1024 : Int) ≤ roundMag (-q) then F64.ninf else F64.fin (-roundMag (-q)))

/-- The conversion `(double) n` of an unsigned integer. -/
def F64.ofNat (n : Nat) : F64 := roundF64 (n : ℚ)

/-- The quotient `a / b` of two doubles.  Zero carries no sign in the model
and a zero divisor counts as `+0`: the divisors of the program are the
constants 15 and 5 and a converted `std::size_t`. -/
def F64.div : F64 → F64 → F64
  | .nan, _ => F64.nan
  | _, .nan => F64.nan
  | .fin a, .fin b =>
    if b = 0 then (if a = 0 then F64.nan else if 0 < a then F64.inf else F64.ninf)
    else roundF64 (a / b)
  | .fin _, _ => F64.fin 0
  | .inf, .fin b => if 0 ≤ b then F64.inf else F64.ninf
  | .ninf, .fin b => if 0 ≤ b then F64.ninf else F64.inf
  | _, _ => F64.nan

/-- The quotient `(double) a / (double) b` of two `std::size_t` values. -/
def covDiv (a b : Nat) : F64 := F64.div (F64.ofNat a) (F64.ofNat b)

/-- A finite, non-negative double. -/
def F64.finiteNonneg : F64 → Prop
  | .fin q => 0 ≤ q
  | _ => False

/-! ## Data model -/

/-- Program options (`struct Config`): `readlen`, `bprefine`, `srsupport` are
`uint32_t`, `coverage` is a `double`. -/
structure Config where
  readlen : Nat
  bprefine : Nat
  srsupport : Nat
  coverage : F64

/-- CIGAR operation codes of htslib (`BAM_CMATCH` = 0, ..., `BAM_CBACK` = 9). -/
inductive CigarOp where
  | MATCH
  | INS
  | DEL
  | REF_SKIP
  | SOFT_CLIP
  | HARD_CLIP
  | PAD
  | EQUAL
  | DIFF
  | BACK
deriving DecidableEq, Repr

/-- The fields of a `bam1_t` alignment record read by the program.
`cigar` holds the `n_cigar` operations as (`bam_cigar_op`, `bam_cigar_oplen`)
pairs (an operation length is below `2^28`), `qual` the `l_qseq` base
qualities (`uint8_t`), `ps` the string the program reads from the `PS` tag and
`hp` the integer value of the `HP` tag, when the tags are present. -/
structure Bam1 where
  pos : Int
  flag : Nat
  cigar : List (CigarOp × Nat)
  qual : List Nat
  ps : Option String
  hp : Option Int

/-! ## splitPoint (lines 46-80) -/

/-- First loop of `splitPoint`: the number of soft-clip operations. -/
def numSoftClip : List (CigarOp × Nat) → Nat
  | [] => 0
  | c :: cs => if c.1 = CigarOp.SOFT_CLIP then numSoftClip cs + 1 else numSoftClip cs

/-- The loop `for (i = alen; i < alen + clipSize; ++i) qualSum += quality[i]`,
run for `n` more iterations from index `i` with the running `unsigned int`
sum `acc`. -/
def qualSumLoop (quality : List Nat) : Nat → Nat → Nat → Option Nat
  | 0, _, acc => some acc
  | n + 1, i, acc =>
    match quality[i]? with
    | none => none
    | some q => qualSumLoop quality n (i + 1) ((acc + q) % 4294967296)

/-- Local variables of the second loop of `splitPoint` together with the two
reference parameters `clipSize` and `split`. -/
structure SplitState where
  alen : Nat
  lastIns : Nat
  meanQuality : Nat
  clipSize : Int
  split : Int
deriving DecidableEq

/-- One iteration of the second loop of `splitPoint` (lines 66-77). -/
def splitStep (rec : Bam1) (st : SplitState) (c : CigarOp × Nat) : Option SplitState :=
  match c.1 with
  | CigarOp.MATCH =>
    some { st with alen := (st.alen + (c.2 + st.lastIns)) % 4294967296, lastIns := 0 }
  | CigarOp.INS => some { st with lastIns := c.2 }
  | CigarOp.SOFT_CLIP =>
    match qualSumLoop rec.qual (wrapU32 (st.alen + c.2) - st.alen) st.alen 0 with
    | none => none
    | some qualSum =>
      if c.2 = 0 then none
      else some { st with clipSize := c.2, split := wrapI32 (rec.pos + st.alen),
                          meanQuality := qualSum / c.2 }
  | _ => some st

/-- The second loop of `splitPoint` over the remaining operations. -/
def splitLoop (rec : Bam1) : List (CigarOp × Nat) → SplitState → Option SplitState
  | [], st => some st
  | c :: cs, st =>
    match splitStep rec st c with
    | none => none
    | some st1 => splitLoop rec cs st1

/-- The call `splitPoint(rec, clipSize, split, qualCut)`: the returned flag and the
values of the reference parameters `clipSize` and `split` on return. -/
def splitPoint (rec : Bam1) (clipSize split : Int) (qualCut : Nat) : Option (Bool × Int × Int) :=
  if numSoftClip rec.cigar ≠ 1 then some (false, clipSize, split)
  else
    match splitLoop rec rec.cigar
        { alen := 0, lastIns := 0, meanQuality := 0, clipSize := clipSize, split := split } with
    | none => none
    | some st => some (decide (st.meanQuality ≥ qualCut), st.clipSize, st.split)

/-! ## addBpCounts (lines 83-96) -/

/-- The statement `++v[i]` on a vector of `uint32_t`. -/
def vecIncr (v : List Nat) (i : Nat) : Option (List Nat) :=
  match v[i]? with
  | none => none
  | some x => some (v.set i ((x + 1) % 4294967296))

/-- The inner loop of `addBpCounts` over one match operation, with `k` more
iterations to run: the reference cursor and the depth vector afterwards. -/
def matchLoop (regionStart regionEnd : Int) : Nat → Int → List Nat → Option (Int × List Nat)
  | 0, bpPos, bp => some (bpPos, bp)
  | k + 1, bpPos, bp =>
    if regionStart ≤ bpPos ∧ bpPos < regionEnd then
      match vecIncr bp (toSizeT (wrapI32 (bpPos - regionStart))) with
      | none => none
      | some bp1 => matchLoop regionStart regionEnd k (wrapI32 (bpPos + 1)) bp1
    else matchLoop regionStart regionEnd k (wrapI32 (bpPos + 1)) bp

/-- The loop of `addBpCounts` over the CIGAR operations. -/
def bpLoop (regionStart regionEnd : Int) : List (CigarOp × Nat) → Int → List Nat → Option (List Nat)
  | [], _, bp => some bp
  | c :: cs, bpPos, bp =>
    if c.1 = CigarOp.MATCH then
      match matchLoop regionStart regionEnd c.2 bpPos bp with
      | none => none
      | some (bpPos1, bp1) => bpLoop regionStart regionEnd cs bpPos1 bp1
    else if c.1 = CigarOp.REF_SKIP ∨ c.1 = CigarOp.DEL then
      bpLoop regionStart regionEnd cs (wrapI32 (bpPos + c.2)) bp
    else bpLoop regionStart regionEnd cs bpPos bp

/-- The call `addBpCounts(rec, regionStart, regionEnd, bp)`: the depth vector on
return. -/
def addBpCounts (rec : Bam1) (regionStart regionEnd : Int) (bp : List Nat) : Option (List Nat) :=
  if rec.pos ≥ regionEnd then some bp
  else bpLoop regionStart regionEnd rec.cigar rec.pos bp

/-! ## The read scan of `main` (lines 216-262) -/

/-- Search for the largest `k` with `10^(k+1) <= m`, starting from `k`. -/
def log10Aux (m : Nat) : Nat → Nat → Nat
  | 0, k => k
  | f + 1, k => if 10 ^ (k + 1) ≤ m then log10Aux m f (k + 1) else k

/-- The value `(int) (log10(n) * 10)` for `n >= 1`, that is the integer part
of ten times the decimal logarithm of `n`: the largest `k` with
`10^k <= n^10`. -/
def log10x10 (n : Nat) : Int := log10Aux (n ^ 10) (10 * n) 0

/-- The variables the read scan updates: the four evidence vectors, the
phase-block identifier and the two flags. -/
structure Evidence where
  sppH1 : List Nat
  sppH2 : List Nat
  bpH1 : List Nat
  bpH2 : List Nat
  uniquePS : String
  psSet : Bool
  singlePhasedBlock : Bool
deriving DecidableEq

/-- The flag test of line 220: `BAM_FSECONDARY | BAM_FQCFAIL | BAM_FDUP |
BAM_FSUPPLEMENTARY | BAM_FUNMAP` = 256 + 512 + 1024 + 2048 + 4. -/
def flagExcluded (r : Bam1) : Bool := decide (r.flag &&& 3844 ≠ 0)

/-- Lines 239-260: a record that carries an `HP` tag of value `hap` adds its
depth and its split evidence to the vectors of its haplotype. -/
def addEvidence (regionStart regionEnd : Int) (r : Bam1) (hap : Int) (st : Evidence) :
    Option Evidence :=
  match addBpCounts r regionStart regionEnd (if hap = 1 then st.bpH1 else st.bpH2) with
  | none => none
  | some bp =>
    let st1 : Evidence := if hap = 1 then { st with bpH1 := bp } else { st with bpH2 := bp }
    match splitPoint r (-1) (-1) 20 with
    | none => none
    | some (ok, clipSize, split) =>
      if ok then
        if regionStart ≤ split ∧ split < regionEnd then
          if r.qual.length = 0 then none
          else if clipSize > log10x10 r.qual.length then
            if hap = 1 then
              match vecIncr st1.sppH1 (toSizeT (wrapI32 (split - regionStart))) with
              | none => none
              | some v => some { st1 with sppH1 := v }
            else
              match vecIncr st1.sppH2 (toSizeT (wrapI32 (split - regionStart))) with
              | none => none
              | some v => some { st1 with sppH2 := v }
          else some st1
        else some st1
      else some st1

/-- The `while (sam_itr_next(...) >= 0)` loop of lines 219-262 over the
records still to come; the `break` of line 232 ends the scan. -/
def collect (regionStart regionEnd : Int) : List Bam1 → Evidence → Option Evidence
  | [], st => some st
  | r :: rs, st =>
    if flagExcluded r then collect regionStart regionEnd rs st
    else if r.pos < regionStart then collect regionStart regionEnd rs st
    else
      match r.ps with
      | none => collect regionStart regionEnd rs st
      | some rPS =>
        if st.psSet ∧ rPS ≠ st.uniquePS then some { st with singlePhasedBlock := false }
        else
          let st1 : Evidence := if st.psSet then st else { st with psSet := true, uniquePS := rPS }
          match r.hp with
          | none => collect regionStart regionEnd rs st1
          | some hap =>
            match addEvidence regionStart regionEnd r hap st1 with
            | none => none
            | some st2 => collect regionStart regionEnd rs st2

/-! ## Breakpoint refinement and coverage (lines 266-311) -/

/-- The loops of lines 279-282 and 303-306, with `n` more iterations to run
from index `i`: both `std::size_t` depth sums. -/
def bpCountLoop (bpH1 bpH2 : List Nat) : Nat → Nat → Nat × Nat → Option (Nat × Nat)
  | 0, _, acc => some acc
  | n + 1, i, acc =>
    match bpH1[i]?, bpH2[i]? with
    | some x, some y =>
      bpCountLoop bpH1 bpH2 n (i + 1)
        ((acc.1 + x) % 18446744073709551616, (acc.2 + y) % 18446744073709551616)
    | _, _ => none

/-- The depth sums over the indices `svStart + 1 <= i < svEnd`. -/
def bpCounts (bpH1 bpH2 : List Nat) (svStart svEnd : Int) : Option (Nat × Nat) :=
  bpCountLoop bpH1 bpH2 (toSizeT svEnd - toSizeT (wrapI32 (svStart + 1)))
    (toSizeT (wrapI32 (svStart + 1))) (0, 0)

/-- The search loops of lines 286-291 and 293-298, with `n` more iterations to
run from index `i`: the current best offset and its split count `sC`. -/
def searchLoop (spp : List Nat) : Nat → Nat → Int × Nat → Option (Int × Nat)
  | 0, _, best => some best
  | n + 1, i, best =>
    match spp[i]? with
    | none => none
    | some x =>
      if x > best.2 then searchLoop spp n (i + 1) (wrapI32 i, x)
      else searchLoop spp n (i + 1) best

/-- The four bounds `svstartbeg`, `svstartend`, `svendbeg`, `svendend` of the
two search windows after lines 268-276, from `p = rec->pos - regionStart`
and `q = (*svend) - regionStart`. -/
def searchWindows (bprefine : Nat) (p q : Int) : Int × Int × Int × Int :=
  let svstartbeg := max 0 (wrapI32 (p - wrapI32 bprefine))
  let svstartend := wrapI32 (p + bprefine)
  let svendbeg := wrapI32 (q - bprefine)
  let svendend := wrapI32 (q + bprefine)
  if svstartend > svendbeg then
    let mid := Int.tdiv (wrapI32 (svendbeg + svstartend)) 2
    (svstartbeg, wrapI32 (mid - 1), mid, svendend)
  else (svstartbeg, svstartend, svendbeg, svendend)

/-- Lines 278-298: the refined breakpoint offsets `(svStart, svEnd)`. -/
def refine (bprefine : Nat) (ev : Evidence) (svStart svEnd : Int) : Option (Int × Int) :=
  let w := searchWindows bprefine svStart svEnd
  match bpCounts ev.bpH1 ev.bpH2 svStart svEnd with
  | none => none
  | some (bpCountH1, bpCountH2) =>
    let spp := if bpCountH1 > bpCountH2 then ev.sppH2 else ev.sppH1
    match spp[toSizeT svStart]? with
    | none => none
    | some sC =>
      match searchLoop spp (toSizeT w.2.1 - toSizeT w.1) (toSizeT w.1) (svStart, sC) with
      | none => none
      | some (svStart1, _) =>
        match spp[toSizeT svEnd]? with
        | none => none
        | some sC1 =>
          match searchLoop spp (toSizeT w.2.2.2 - toSizeT w.2.2.1) (toSizeT w.2.2.1)
              (svEnd, sC1) with
          | none => none
          | some (svEnd1, _) => some (svStart1, svEnd1)

/-! ## Genotype call (lines 317-346) -/

/-- The decision of lines 318-346: the genotype string `gtstr` and the code
`gtcalled`. -/
def callGenotype (coverage : F64) (srsupport : Nat) (uniquePS : String) (covH1 covH2 : F64)
    (srH1 srH2 : Nat) : String × Int :=
  let low := F64.div coverage (F64.fin 15)
  let high := F64.div coverage (F64.fin 5)
  if uniquePS ≠ "None" then
    if covH1.lt low then
      if covH2.lt low then
        if srH1 ≥ srsupport ∧ srH2 ≥ srsupport then ("1|1", 2) else ("None", -1)
      else
        if srH1 ≥ srsupport ∧ high.lt covH2 then ("1|0", 1) else ("None", -1)
    else
      if covH2.lt low then
        if high.lt covH1 ∧ srH2 ≥ srsupport then ("0|1", 1) else ("None", -1)
      else
        if high.lt covH1 ∧ high.lt covH2 then ("0|0", 0) else ("None", -1)
  else ("None", -1)

/-! ## One variant (lines 182-347) -/

/-- The evidence columns of an output row: `uniquePS`, `srH1`, `covH1`,
`srH2`, `covH2`, `gtstr`, `gtcalled`. -/
structure Row where
  uniquePS : String
  srH1 : Nat
  covH1 : F64
  srH2 : Nat
  covH2 : F64
  gtstr : String
  gtcalled : Int
deriving DecidableEq

/-- Breakpoints, depth sums and phase-block identifier after lines 266-307. -/
def refineStage (cfg : Config) (ev : Evidence) (svStart svEnd : Int) :
    Option (Int × Int × Nat × Nat × String) :=
  if ev.singlePhasedBlock then
    match refine cfg.bprefine ev svStart svEnd with
    | none => none
    | some (svStart1, svEnd1) =>
      match bpCounts ev.bpH1 ev.bpH2 svStart1 svEnd1 with
      | none => none
      | some (bpCountH1, bpCountH2) => some (svStart1, svEnd1, bpCountH1, bpCountH2, ev.uniquePS)
  else some (svStart, svEnd, 0, 0, "None")

/-- Lines 266-347 for the state `ev` left by the read scan and the initial
breakpoint offsets: the row written to the output. -/
def finishRow (cfg : Config) (ev : Evidence) (svStart svEnd : Int) : Option Row :=
  match refineStage cfg ev svStart svEnd with
  | none => none
  | some (svStart1, svEnd1, bpCountH1, bpCountH2, uniquePS) =>
    let svSize := toSizeT (wrapI32 (svEnd1 - svStart1))
    let covH1 := covDiv bpCountH1 svSize
    let covH2 := covDiv bpCountH2 svSize
    match ev.sppH1[toSizeT svStart1]?, ev.sppH1[toSizeT svEnd1]?,
          ev.sppH2[toSizeT svStart1]?, ev.sppH2[toSizeT svEnd1]? with
    | some a1, some b1, some a2, some b2 =>
      let srH1 := (a1 + b1) % 4294967296
      let srH2 := (a2 + b2) % 4294967296
      let gt := callGenotype cfg.coverage cfg.srsupport uniquePS covH1 covH2 srH1 srH2
      some { uniquePS := uniquePS, srH1 := srH1, covH1 := covH1, srH2 := srH2, covH2 := covH2,
             gtstr := gt.1, gtcalled := gt.2 }
    | _, _, _, _ => none

/-- Window start of line 191. -/
def regionStartOf (cfg : Config) (pos : Int) : Int :=
  max 0 (wrapI32 (pos - wrapI32 cfg.readlen))

/-- Window end of line 192. -/
def regionEndOf (cfg : Config) (svend : Int) : Int := wrapI32 (svend + cfg.readlen)

/-- Window size of line 193. -/
def regionSizeOf (cfg : Config) (pos svend : Int) : Int :=
  wrapI32 (regionEndOf cfg svend - regionStartOf cfg pos)

/-- The state before the first record is read (lines 183-218): four zeroed
vectors of `regionSize` entries. -/
def initEvidence (regionSize : Nat) : Evidence :=
  { sppH1 := List.replicate regionSize 0, sppH2 := List.replicate regionSize 0,
    bpH1 := List.replicate regionSize 0, bpH2 := List.replicate regionSize 0,
    uniquePS := "None", psSet := false, singlePhasedBlock := true }

/-- Lines 182-347 for a deletion at `rec->pos = pos` with `END = svend` that
passed the filters of lines 165-188, and the records `recs` delivered for its
window: the evidence columns of the emitted row.  A negative `regionSize`
makes `resize` fail. -/
def processRegion (cfg : Config) (pos svend : Int) (recs : List Bam1) : Option Row :=
  let regionStart := regionStartOf cfg pos
  let regionEnd := regionEndOf cfg svend
  let regionSize := regionSizeOf cfg pos svend
  if regionSize < 0 then none
  else
    match collect regionStart regionEnd recs (initEvidence regionSize.toNat) with
    | none => none
    | some ev => finishRow cfg ev (wrapI32 (pos - regionStart)) (wrapI32 (svend - regionStart))

/-! ## The variant loop of `main` (lines 162-188 and 347) -/

/-- The fields of a variant record read by the program: the chromosome name
`bcf_hdr_id2name(hdr, rec->rid)`, `rec->pos`, `rec->d.id`, the values `*svend`
and `svt` left by the `END` and `SVTYPE` annotations, and the two `GT` entries
`gt[sampleIndex*2]`, `gt[sampleIndex*2 + 1]` of the sample (`int32_t`). -/
structure Variant where
  chrom : String
  pos : Int
  id : String
  svend : Int
  svt : String
  gt0 : Int
  gt1 : Int

/-- The htslib macro `bcf_gt_allele(val)`, that is `((val) >> 1) - 1`. -/
def bcfGtAllele (val : Int) : Int := val / 2 - 1

/-- The htslib macro `bcf_gt_is_phased(val)`, that is `(val) & 1`. -/
def bcfGtIsPhased (val : Int) : Bool := decide (val % 2 = 1)

/-- Chromosome name of line 187: "chr" is put in front unless the name starts
with it. -/
def normChr (chrName : String) : String :=
  if chrName.take 3 ≠ "chr" then "chr" ++ chrName else chrName

/-- The genotype string `gtval` of lines 167-176. -/
def gtString (gt0 gt1 : Int) : String :=
  if bcfGtIsPhased gt1 then toString (bcfGtAllele gt0) ++ "|" ++ toString (bcfGtAllele gt1)
  else toString (bcfGtAllele gt0) ++ "/" ++ toString (bcfGtAllele gt1)

/-- A row of the output table (line 347): the columns copied from the variant
and the evidence columns. -/
structure OutputRow where
  chrom : String
  start : Int
  svend : Int
  id : String
  size : Int
  svtype : String
  haplotype : String
  genotype : Int
  evidence : Row
deriving DecidableEq

/-- Line 347 for the variant `v` and the evidence columns `row`. -/
def outputRow (v : Variant) (row : Row) : OutputRow :=
  { chrom := v.chrom, start := wrapI32 (v.pos + 1), svend := v.svend, id := v.id,
    size := wrapI32 (v.svend - v.pos), svtype := v.svt, haplotype := gtString v.gt0 v.gt1,
    genotype := wrapI32 (bcfGtAllele v.gt0 + bcfGtAllele v.gt1), evidence := row }

/-- One iteration of the loop of line 162 for the variant `v` and the records
`recs` delivered for its window: the rows written, none for a variant that is
skipped. -/
def processVariant (cfg : Config) (v : Variant) (recs : List Bam1) : Option (List OutputRow) :=
  if bcfGtAllele v.gt0 ≠ -1 ∧ bcfGtAllele v.gt1 ≠ -1 then
    if wrapI32 (bcfGtAllele v.gt0 + bcfGtAllele v.gt1) ≠ -1 then
      if v.svt = "DEL" then
        if normChr v.chrom = "chrX" ∨ normChr v.chrom = "chrY" then some []
        else
          match processRegion cfg v.pos v.svend recs with
          | none => none
          | some row => some [outputRow v row]
      else some []
    else some []
  else some []

/-! ## Auxiliary definitions used in the proofs -/

/-- The decision tree of `callGenotype` over the outcomes of its comparisons:
`a1`, `a2` are `covH1 < low`, `covH2 < low`; `b1`, `b2` are `covH1 > high`,
`covH2 > high`; `s1`, `s2` are `srH1 >= srsupport`, `srH2 >= srsupport`. -/
def decisionTree (a1 a2 b1 b2 s1 s2 : Bool) : String × Int :=
  if a1 then
    if a2 then (if s1 ∧ s2 then ("1|1", 2) else ("None", -1))
    else (if s1 ∧ b2 then ("1|0", 1) else ("None", -1))
  else
    if a2 then (if b1 ∧ s2 then ("0|1", 1) else ("None", -1))
    else (if b1 ∧ b2 then ("0|0", 0) else ("None", -1))


/-- The pair (`alen`, `lastIns`) after the second loop of `splitPoint` has run
over the operations `ops` from the pair given. -/
def runState : List (CigarOp × Nat) → Nat × Nat → Nat × Nat
  | [], s => s
  | c :: cs, s =>
    if c.1 = CigarOp.MATCH then runState cs ((s.1 + (c.2 + s.2)) % 4294967296, 0)
    else if c.1 = CigarOp.INS then runState cs (s.1, c.2)
    else runState cs s

/-- The running length `alen` of `splitPoint` after the operations `ops`. -/
def runningLen (ops : List (CigarOp × Nat)) : Nat := (runState ops (0, 0)).1

/-- Number of read bases consumed by a list of operations (SAM: match,
insertion, soft clip, sequence match and mismatch consume the query). -/
def queryLen : List (CigarOp × Nat) → Nat
  | [] => 0
  | c :: cs =>
    if c.1 = CigarOp.MATCH ∨ c.1 = CigarOp.INS ∨ c.1 = CigarOp.SOFT_CLIP ∨
        c.1 = CigarOp.EQUAL ∨ c.1 = CigarOp.DIFF then c.2 + queryLen cs
    else queryLen cs

/-- Number of reference bases consumed by a list of operations (SAM: match,
deletion, reference skip, sequence match and mismatch consume the reference). -/
def refLen : List (CigarOp × Nat) → Nat
  | [] => 0
  | c :: cs =>
    if c.1 = CigarOp.MATCH ∨ c.1 = CigarOp.DEL ∨ c.1 = CigarOp.REF_SKIP ∨
        c.1 = CigarOp.EQUAL ∨ c.1 = CigarOp.DIFF then c.2 + refLen cs
    else refLen cs

/-- Operations before the clip for which the running length of `splitPoint`
is the read offset of the clip: match operations, and insertions each
directly followed by a match operation. -/
def matchInsOnly : List (CigarOp × Nat) → Bool
  | [] => true
  | c :: cs =>
    if c.1 = CigarOp.MATCH then matchInsOnly cs
    else if c.1 = CigarOp.INS then
      match cs with
      | [] => false
      | d :: ds => decide (d.1 = CigarOp.MATCH) && matchInsOnly ds
    else false

/-- Sum of the entries `i, ..., i + n - 1` of a vector. -/
def sliceSum (v : List Nat) (i n : Nat) : Nat := ((v.drop i).take n).sum

/-- The state after line 229-237 for a record with phase tag `p` that does not
conflict: the identifier is adopted if none was set. -/
def adoptPS (st : Evidence) (p : String) : Evidence :=
  if st.psSet then st else { st with psSet := true, uniquePS := p }

/-- A record passes the filters of lines 220-221. -/
def passesFilters (regionStart : Int) (r : Bam1) : Prop :=
  flagExcluded r = false ∧ ¬ r.pos < regionStart

/-- A record as a BAM file stores it: the quality array is as long as the
operations say (below `2^31`), and no soft clip is empty. -/
def Bam1.wellFormed (r : Bam1) : Prop :=
  r.qual.length = queryLen r.cigar ∧ r.qual.length < 2147483648 ∧
  ∀ c ∈ r.cigar, c.1 = CigarOp.SOFT_CLIP → 1 ≤ c.2

/-- A record with flag 0 (primary, mapped, passing quality control), `n` base
qualities all equal to `q`, a phase tag and a haplotype tag. -/
def mkRead (pos : Int) (cigar : List (CigarOp × Nat)) (n q : Nat) (ps : String) (hp : Int) :
    Bam1 :=
  { pos := pos, flag := 0, cigar := cigar, qual := List.replicate n q, ps := some ps,
    hp := some hp }

instance (r : Bam1) : Decidable r.wellFormed := by
  unfold Bam1.wellFormed; infer_instance

/-- The options the program uses when none are given: read length 150,
refinement radius 25, minimum split support 2, expected coverage 30. -/
def defaultConfig : Config :=
  { readlen := 150, bprefine := 25, srsupport := 2, coverage := F64.fin 30 }

/-- Reference position `p` is covered by a match operation of `ops`, for a
reference cursor that starts at `cursor`, advances over match, deletion and
reference-skip operations and stays in place over every other operation. -/
def matchCovered : List (CigarOp × Nat) → Int → Int → Bool
  | [], _, _ => false
  | c :: cs, cursor, p =>
    if c.1 = CigarOp.MATCH then
      (decide (cursor ≤ p ∧ p < cursor + c.2)) || matchCovered cs (cursor + c.2) p
    else if c.1 = CigarOp.REF_SKIP ∨ c.1 = CigarOp.DEL then matchCovered cs (cursor + c.2) p
    else matchCovered cs cursor p

/-- Number of positions the reference cursor of `addBpCounts` advances over a
list of operations. -/
def cursorSpan : List (CigarOp × Nat) → Nat
  | [] => 0
  | c :: cs =>
    if c.1 = CigarOp.MATCH ∨ c.1 = CigarOp.REF_SKIP ∨ c.1 = CigarOp.DEL then c.2 + cursorSpan cs
    else cursorSpan cs

/-- Sum of the lengths of the match, insertion and soft-clip operations of a
list of operations. -/
def misLen : List (CigarOp × Nat) → Nat
  | [] => 0
  | c :: cs =>
    if c.1 = CigarOp.MATCH ∨ c.1 = CigarOp.INS ∨ c.1 = CigarOp.SOFT_CLIP then c.2 + misLen cs
    else misLen cs

/-- The split histogram chosen at lines 279-284: haplotype 2's when the depth
sum of haplotype 1 exceeds that of haplotype 2, haplotype 1's otherwise. -/
def chosenSpp (ev : Evidence) (svStart svEnd : Int) : Option (List Nat) :=
  match bpCounts ev.bpH1 ev.bpH2 svStart svEnd with
  | none => none
  | some (bpCountH1, bpCountH2) => some (if bpCountH1 > bpCountH2 then ev.sppH2 else ev.sppH1)

/-- Lines 285-298 for a given split histogram `spp`: the two searches. -/
def refineWith (bprefine : Nat) (spp : List Nat) (svStart svEnd : Int) : Option (Int × Int) :=
  let w := searchWindows bprefine svStart svEnd
  match spp[toSizeT svStart]? with
  | none => none
  | some sC =>
    match searchLoop spp (toSizeT w.2.1 - toSizeT w.1) (toSizeT w.1) (svStart, sC) with
    | none => none
    | some (svStart1, _) =>
      match spp[toSizeT svEnd]? with
      | none => none
      | some sC1 =>
        match searchLoop spp (toSizeT w.2.2.2 - toSizeT w.2.2.1) (toSizeT w.2.2.1)
            (svEnd, sC1) with
        | none => none
        | some (svEnd1, _) => some (svStart1, svEnd1)

/-- The offset `b1` is the outcome the specification asks of a search over the
window `lo <= j < hi` of the histogram `spp` from the original offset `b`: its
count is at least the count at `b` and at every window position; it is `b`
when no window position has a count above the count at `b`; otherwise it is
the smallest window position whose count is the largest of the window. -/
def firstMaxOrOriginal (spp : List Nat) (lo hi b b1 : Int) : Prop :=
  spp.getD b.toNat 0 ≤ spp.getD b1.toNat 0 ∧
  (∀ j : Int, lo ≤ j → j < hi → spp.getD j.toNat 0 ≤ spp.getD b1.toNat 0) ∧
  ((∀ j : Int, lo ≤ j → j < hi → spp.getD j.toNat 0 ≤ spp.getD b.toNat 0) → b1 = b) ∧
  ((∃ j : Int, lo ≤ j ∧ j < hi ∧ spp.getD b.toNat 0 < spp.getD j.toNat 0) →
    lo ≤ b1 ∧ b1 < hi ∧
    ∀ j : Int, lo ≤ j → j < b1 → spp.getD j.toNat 0 < spp.getD b1.toNat 0)

/-- Lines 244-259 for the depth vector `bp` and the split vector `spp` of the
haplotype the record is counted for: both vectors afterwards. -/
def contribute (regionStart regionEnd : Int) (r : Bam1) (bp spp : List Nat) :
    Option (List Nat × List Nat) :=
  match addBpCounts r regionStart regionEnd bp with
  | none => none
  | some bp1 =>
    match splitPoint r (-1) (-1) 20 with
    | none => none
    | some (ok, clipSize, split) =>
      if ok then
        if regionStart ≤ split ∧ split < regionEnd then
          if r.qual.length = 0 then none
          else if clipSize > log10x10 r.qual.length then
            match vecIncr spp (toSizeT (wrapI32 (split - regionStart))) with
            | none => none
            | some v => some (bp1, v)
          else some (bp1, spp)
        else some (bp1, spp)
      else some (bp1, spp)

/-- A `GT` entry as a BCF reader delivers it: an encoded allele (non-negative
`int32_t`) or one of the markers `bcf_int32_missing`, `bcf_int32_vector_end`. -/
def gtEncoded (val : Int) : Prop :=
  (0 ≤ val ∧ val < 2147483648) ∨ val = -2147483648 ∨ val = -2147483647

/-! ## Rounding to binary64 -/

theorem halvings_spec (fuel n : Nat) (hf : n ≤ fuel) (hn : 1 ≤ n) :
    2 ^ halvings fuel n ≤ n ∧ n < 2 ^ (halvings fuel n + 1) := by
  induction fuel generalizing n with
  | zero => omega
  | succ f ih =>
    unfold halvings
    by_cases h2 : 2 ≤ n
    · rw [if_pos h2]
      obtain ⟨a, b⟩ := ih (n / 2) (by omega) (by omega)
      rw [pow_succ, pow_succ]
      constructor <;> omega
    · rw [if_neg h2]
      simp only [pow_zero, zero_add, pow_one]
      omega

theorem log2n_spec (n : Nat) (hn : 1 ≤ n) : 2 ^ log2n n ≤ n ∧ n < 2 ^ (log2n n + 1) :=
  halvings_spec n n (le_refl n) hn

theorem binExp_spec (a : ℚ) (ha : 0 < a) :
    (2 : ℚ) ^ binExp a ≤ a ∧ a < (2 : ℚ) ^ (binExp a + 1) := by
  have hnum : 0 < a.num := Rat.num_pos.mpr ha
  have hden : 1 ≤ a.den := a.den_pos
  obtain ⟨n1, n2⟩ := log2n_spec a.num.toNat (by omega)
  obtain ⟨d1, d2⟩ := log2n_spec a.den hden
  have hq : a = (a.num.toNat : ℚ) / (a.den : ℚ) := by
    have h1 : ((a.num.toNat : Int) : ℚ) = (a.num : ℚ) := by
      rw [Int.toNat_of_nonneg hnum.le]
    have h2 : ((a.num.toNat : Int) : ℚ) = (a.num.toNat : ℚ) := by push_cast; rfl
    rw [← h2, h1]
    exact (Rat.num_div_den a).symm
  have hdpos : (0 : ℚ) < (a.den : ℚ) := by exact_mod_cast hden
  have N1 : (2 : ℚ) ^ (log2n a.num.toNat : Int) ≤ (a.num.toNat : ℚ) := by
    rw [zpow_natCast]; exact_mod_cast n1
  have N2 : (a.num.toNat : ℚ) < (2 : ℚ) ^ ((log2n a.num.toNat : Int) + 1) := by
    have : ((log2n a.num.toNat : Int) + 1) = ((log2n a.num.toNat + 1 : Nat) : Int) := by
      push_cast; rfl
    rw [this, zpow_natCast]; exact_mod_cast n2
  have D1 : (2 : ℚ) ^ (log2n a.den : Int) ≤ (a.den : ℚ) := by
    rw [zpow_natCast]; exact_mod_cast d1
  have D2 : (a.den : ℚ) < (2 : ℚ) ^ ((log2n a.den : Int) + 1) := by
    have : ((log2n a.den : Int) + 1) = ((log2n a.den + 1 : Nat) : Int) := by
      push_cast; rfl
    rw [this, zpow_natCast]; exact_mod_cast d2
  have h2 : (0 : ℚ) < 2 := by norm_num
  have h2ne : (2 : ℚ) ≠ 0 := by norm_num
  -- a lies between 2^(e0 - 1) and 2^(e0 + 1)
  have lo : (2 : ℚ) ^ ((log2n a.num.toNat : Int) - (log2n a.den : Int) - 1) ≤ a := by
    have e : (2 : ℚ) ^ ((log2n a.num.toNat : Int) - (log2n a.den : Int) - 1) =
        (2 : ℚ) ^ (log2n a.num.toNat : Int) / (2 : ℚ) ^ ((log2n a.den : Int) + 1) := by
      rw [← zpow_sub₀ h2ne]; congr 1; ring
    have k := div_le_div₀ (by positivity) N1 hdpos D2.le
    rw [← hq] at k
    rw [e]; exact k
  have hi : a < (2 : ℚ) ^ ((log2n a.num.toNat : Int) - (log2n a.den : Int) + 1) := by
    have e : (2 : ℚ) ^ ((log2n a.num.toNat : Int) - (log2n a.den : Int) + 1) =
        (2 : ℚ) ^ ((log2n a.num.toNat : Int) + 1) / (2 : ℚ) ^ (log2n a.den : Int) := by
      rw [← zpow_sub₀ h2ne]; congr 1; ring
    have k := div_lt_div₀ N2 D1 (by positivity) (by positivity)
    rw [← hq] at k
    rw [e]; exact k
  unfold binExp
  split_ifs with hc
  · refine ⟨lo, ?_⟩
    have : (log2n a.num.toNat : Int) - (log2n a.den : Int) - 1 + 1 =
        (log2n a.num.toNat : Int) - (log2n a.den : Int) := by ring
    rw [this]; exact hc
  · exact ⟨not_lt.mp hc, hi⟩

theorem binExp_le (a : ℚ) (ha : 0 < a) (j : Int) (h : a ≤ (2 : ℚ) ^ j) : binExp a ≤ j := by
  have h1 := (binExp_spec a ha).1
  have h2 : (2 : ℚ) ^ binExp a ≤ (2 : ℚ) ^ j := le_trans h1 h
  exact (zpow_le_zpow_iff_right₀ (by norm_num : (1 : ℚ) < 2)).mp h2

theorem binExp_mono (a b : ℚ) (ha : 0 < a) (hab : a ≤ b) : binExp a ≤ binExp b := by
  have h1 := (binExp_spec a ha).1
  have h2 := (binExp_spec b (lt_of_lt_of_le ha hab)).2
  have h3 : (2 : ℚ) ^ binExp a < (2 : ℚ) ^ (binExp b + 1) :=
    lt_of_le_of_lt h1 (lt_of_le_of_lt hab h2)
  have := (zpow_lt_zpow_iff_right₀ (by norm_num : (1 : ℚ) < 2)).mp h3
  omega

theorem rne_ge_floor (x : ℚ) : ⌊x⌋ ≤ rne x := by
  unfold rne; split_ifs <;> omega

theorem rne_le_floor_succ (x : ℚ) : rne x ≤ ⌊x⌋ + 1 := by
  unfold rne; split_ifs <;> omega

theorem rne_of_int (n : Int) : rne (n : ℚ) = n := by
  unfold rne
  simp

theorem rne_le_of_le (x : ℚ) (n : Int) (h : x ≤ (n : ℚ)) : rne x ≤ n := by
  rcases eq_or_lt_of_le h with e | l
  · rw [e, rne_of_int]
  · have : ⌊x⌋ < n := Int.floor_lt.mpr l
    have := rne_le_floor_succ x
    omega

theorem le_rne_of_le (x : ℚ) (n : Int) (h : (n : ℚ) ≤ x) : n ≤ rne x :=
  le_trans (Int.le_floor.mpr h) (rne_ge_floor x)

theorem rne_mono (x y : ℚ) (h : x ≤ y) : rne x ≤ rne y := by
  have hf : ⌊x⌋ ≤ ⌊y⌋ := Int.floor_mono h
  rcases eq_or_lt_of_le hf with e | l
  · unfold rne
    rw [← e]
    have hx : x - (⌊x⌋ : ℚ) ≤ y - (⌊x⌋ : ℚ) := by linarith
    split_ifs <;> first | omega | (exfalso; linarith)
  · have := rne_le_floor_succ x
    have := rne_ge_floor y
    omega
theorem pow_grid (j k : Int) (h : k ≤ j) :
    (2 : ℚ) ^ j = (((2 : Int) ^ (j - k).toNat : Int) : ℚ) * (2 : ℚ) ^ k := by
  have e : ((j - k).toNat : Int) = j - k := Int.toNat_of_nonneg (by omega)
  push_cast
  rw [← zpow_natCast, e, ← zpow_add₀ (by norm_num : (2 : ℚ) ≠ 0)]
  congr 1; ring

theorem ulpExp_le (a : ℚ) (ha : 0 < a) (j : Int) (hj : -1074 ≤ j) (h : a ≤ (2 : ℚ) ^ j) :
    ulpExp a ≤ j := by
  have := binExp_le a ha j h
  unfold ulpExp
  omega

theorem roundMag_le_pow (a : ℚ) (ha : 0 < a) (j : Int) (hj : -1074 ≤ j)
    (h : a ≤ (2 : ℚ) ^ j) : roundMag a ≤ (2 : ℚ) ^ j := by
  have hk := ulpExp_le a ha j hj h
  have e := pow_grid j (ulpExp a) hk
  have hp : (0 : ℚ) < (2 : ℚ) ^ ulpExp a := by positivity
  have hx : a / (2 : ℚ) ^ ulpExp a ≤ (((2 : Int) ^ (j - ulpExp a).toNat : Int) : ℚ) := by
    rw [div_le_iff₀ hp, ← e]; exact h
  have hr := rne_le_of_le _ _ hx
  have hr2 : (rne (a / (2 : ℚ) ^ ulpExp a) : ℚ) ≤ (((2 : Int) ^ (j - ulpExp a).toNat : Int) : ℚ) := by
    exact_mod_cast hr
  calc roundMag a = (rne (a / (2 : ℚ) ^ ulpExp a) : ℚ) * (2 : ℚ) ^ ulpExp a := rfl
    _ ≤ (((2 : Int) ^ (j - ulpExp a).toNat : Int) : ℚ) * (2 : ℚ) ^ ulpExp a :=
      mul_le_mul_of_nonneg_right hr2 hp.le
    _ = (2 : ℚ) ^ j := e.symm

theorem roundMag_ge_pow (a : ℚ) (j : Int) (hk : ulpExp a ≤ j)
    (h : (2 : ℚ) ^ j ≤ a) : (2 : ℚ) ^ j ≤ roundMag a := by
  have e := pow_grid j (ulpExp a) hk
  have hp : (0 : ℚ) < (2 : ℚ) ^ ulpExp a := by positivity
  have hx : (((2 : Int) ^ (j - ulpExp a).toNat : Int) : ℚ) ≤ a / (2 : ℚ) ^ ulpExp a := by
    rw [le_div_iff₀ hp, ← e]; exact h
  have hr := le_rne_of_le _ _ hx
  have hr2 : (((2 : Int) ^ (j - ulpExp a).toNat : Int) : ℚ) ≤ (rne (a / (2 : ℚ) ^ ulpExp a) : ℚ) := by
    exact_mod_cast hr
  calc (2 : ℚ) ^ j = (((2 : Int) ^ (j - ulpExp a).toNat : Int) : ℚ) * (2 : ℚ) ^ ulpExp a := e
    _ ≤ (rne (a / (2 : ℚ) ^ ulpExp a) : ℚ) * (2 : ℚ) ^ ulpExp a :=
      mul_le_mul_of_nonneg_right hr2 hp.le
    _ = roundMag a := rfl

theorem roundMag_nonneg (a : ℚ) (ha : 0 ≤ a) : 0 ≤ roundMag a := by
  have hp : (0 : ℚ) < (2 : ℚ) ^ ulpExp a := by positivity
  have hx : ((0 : Int) : ℚ) ≤ a / (2 : ℚ) ^ ulpExp a := by
    simp only [Int.cast_zero]; positivity
  have hr := le_rne_of_le _ _ hx
  have hr2 : (0 : ℚ) ≤ (rne (a / (2 : ℚ) ^ ulpExp a) : ℚ) := by exact_mod_cast hr
  unfold roundMag
  positivity

theorem roundMag_mono (a b : ℚ) (ha : 0 < a) (hab : a ≤ b) : roundMag a ≤ roundMag b := by
  have hb : 0 < b := lt_of_lt_of_le ha hab
  have he := binExp_mono a b ha hab
  by_cases hk : ulpExp a = ulpExp b
  · have hp : (0 : ℚ) < (2 : ℚ) ^ ulpExp b := by positivity
    have hx : a / (2 : ℚ) ^ ulpExp b ≤ b / (2 : ℚ) ^ ulpExp b :=
      div_le_div_of_nonneg_right hab hp.le
    have hr := rne_mono _ _ hx
    have hr2 : (rne (a / (2 : ℚ) ^ ulpExp b) : ℚ) ≤ (rne (b / (2 : ℚ) ^ ulpExp b) : ℚ) := by
      exact_mod_cast hr
    unfold roundMag
    rw [hk]
    exact mul_le_mul_of_nonneg_right hr2 hp.le
  · have hlt : max (binExp a) (-1022) + 1 ≤ binExp b := by
      unfold ulpExp at hk; omega
    have h1 : roundMag a ≤ (2 : ℚ) ^ (max (binExp a) (-1022) + 1) :=
      roundMag_le_pow a ha _ (by omega)
        (le_trans (binExp_spec a ha).2.le
          (zpow_le_zpow_right₀ (by norm_num) (by omega)))
    have h2 : (2 : ℚ) ^ binExp b ≤ roundMag b :=
      roundMag_ge_pow b (binExp b) (by unfold ulpExp; omega) (binExp_spec b hb).1
    have h3 : (2 : ℚ) ^ (max (binExp a) (-1022) + 1) ≤ (2 : ℚ) ^ binExp b :=
      zpow_le_zpow_right₀ (by norm_num) hlt
    linarith

theorem roundF64_nonneg (q : ℚ) (hq : 0 ≤ q) :
    roundF64 q = F64.inf ∨ ∃ r, roundF64 q = F64.fin r ∧ 0 ≤ r := by
  unfold roundF64
  split_ifs with h0 h1 h2
  · exact Or.inr ⟨0, rfl, le_refl 0⟩
  · exact Or.inl rfl
  · exact Or.inr ⟨_, rfl, roundMag_nonneg q hq⟩
  · exfalso; rcases eq_or_lt_of_le hq with e | l
    · exact h0 e.symm
    · exact h1 l
  · exfalso; rcases eq_or_lt_of_le hq with e | l
    · exact h0 e.symm
    · exact h1 l

theorem roundF64_le_pow (q : ℚ) (hq : 0 ≤ q) (j : Int) (hj : -1074 ≤ j) (hj2 : j < 1024)
    (h : q ≤ (2 : ℚ) ^ j) : ∃ r, roundF64 q = F64.fin r ∧ 0 ≤ r ∧ r ≤ (2 : ℚ) ^ j := by
  rcases eq_or_lt_of_le hq with e | l
  · refine ⟨0, ?_, le_refl 0, by positivity⟩
    rw [← e]; simp [roundF64]
  · have hm := roundMag_le_pow q l j hj h
    have hlt : (2 : ℚ) ^ j < (2 : ℚ) ^ (1024 : Int) :=
      zpow_lt_zpow_right₀ (by norm_num) hj2
    refine ⟨roundMag q, ?_, roundMag_nonneg q hq, hm⟩
    unfold roundF64
    rw [if_neg (ne_of_gt l), if_pos l, if_neg (by linarith)]

theorem roundF64_ge_one (q : ℚ) (h : 1 ≤ q) :
    roundF64 q = F64.inf ∨ ∃ r, roundF64 q = F64.fin r ∧ 1 ≤ r := by
  have hq : 0 < q := by linarith
  have he : 0 ≤ binExp q := by
    have h2 := (binExp_spec q hq).2
    have h3 : (2 : ℚ) ^ (0 : Int) < (2 : ℚ) ^ (binExp q + 1) := by
      simp only [zpow_zero]; linarith
    have := (zpow_lt_zpow_iff_right₀ (by norm_num : (1 : ℚ) < 2)).mp h3
    omega
  have hm : (2 : ℚ) ^ binExp q ≤ roundMag q :=
    roundMag_ge_pow q (binExp q) (by unfold ulpExp; omega) (binExp_spec q hq).1
  have h1 : (1 : ℚ) ≤ (2 : ℚ) ^ binExp q := one_le_zpow₀ (by norm_num) he
  unfold roundF64
  rw [if_neg (ne_of_gt hq), if_pos hq]
  split_ifs
  · exact Or.inl rfl
  · exact Or.inr ⟨_, rfl, le_trans h1 hm⟩

theorem roundF64_mono (a b : ℚ) (ha : 0 ≤ a) (hab : a ≤ b) :
    (roundF64 b).lt (roundF64 a) = false := by
  rcases eq_or_lt_of_le ha with e | l
  · have h0 : roundF64 a = F64.fin 0 := by rw [← e]; simp [roundF64]
    rw [h0]
    rcases roundF64_nonneg b (le_trans ha hab) with hb | ⟨r, hb, hr⟩
    · rw [hb]; rfl
    · rw [hb]; simp only [F64.lt, decide_eq_false_iff_not, not_lt]; exact hr
  · have lb : 0 < b := lt_of_lt_of_le l hab
    have hm := roundMag_mono a b l hab
    unfold roundF64
    rw [if_neg (ne_of_gt l), if_pos l, if_neg (ne_of_gt lb), if_pos lb]
    split_ifs with h1 h2 h2
    · rfl
    · rfl
    · exfalso; exact h1 (le_trans h2 hm)
    · simp only [F64.lt, decide_eq_false_iff_not, not_lt]; exact hm

theorem F64.lt_chain (x y z : F64) (h1 : x.lt y = true) (h2 : y.lt z = true) :
    x.lt z = true := by
  cases x <;> cases y <;> cases z <;>
    simp only [F64.lt, decide_eq_true_eq, Bool.false_eq_true] at h1 h2 ⊢
  exact lt_trans h1 h2
theorem F64.le_not_lt (x y : F64) (h : x.le y = true) : y.lt x = false := by
  cases x <;> cases y <;>
    simp only [F64.le, F64.lt, decide_eq_true_eq, decide_eq_false_iff_not, not_lt,
      Bool.false_eq_true] at h ⊢
  exact h

/-- The threshold `coverage / 15` is not above the threshold `coverage / 5`
for a positive expected coverage. -/
theorem thresholds_ordered (C : F64) (hC : (F64.fin 0).lt C = true) :
    (F64.div C (F64.fin 5)).lt (F64.div C (F64.fin 15)) = false := by
  cases C with
  | fin q =>
    simp only [F64.lt, decide_eq_true_eq] at hC
    have e15 : F64.div (F64.fin q) (F64.fin 15) = roundF64 (q / 15) := by
      simp [F64.div]
    have e5 : F64.div (F64.fin q) (F64.fin 5) = roundF64 (q / 5) := by
      simp [F64.div]
    rw [e15, e5]
    apply roundF64_mono
    · positivity
    · have : q / 15 = q / 5 / 3 := by ring
      rw [this]
      exact div_le_self (by positivity) (by norm_num)
  | inf => rfl
  | ninf => simp [F64.lt] at hC
  | nan => simp [F64.lt] at hC

theorem F64.lt_low_not_high (C : F64) (hC : (F64.fin 0).lt C = true) (x : F64)
    (h : x.lt (F64.div C (F64.fin 15)) = true) : (F64.div C (F64.fin 5)).lt x = false := by
  cases hx : (F64.div C (F64.fin 5)).lt x with
  | false => rfl
  | true =>
    have := F64.lt_chain _ _ _ hx h
    rw [thresholds_ordered C hC] at this
    exact absurd this (by decide)

theorem F64.ofNat_zero : F64.ofNat 0 = F64.fin 0 := by
  simp [F64.ofNat, roundF64]

theorem F64.ofNat_ge_one (b : Nat) (hb : b ≠ 0) :
    F64.ofNat b = F64.inf ∨ ∃ r, F64.ofNat b = F64.fin r ∧ 1 ≤ r := by
  apply roundF64_ge_one
  have : 1 ≤ b := by omega
  exact_mod_cast this

theorem covDiv_zero (b : Nat) : covDiv 0 b = if b = 0 then F64.nan else F64.fin 0 := by
  unfold covDiv
  rw [F64.ofNat_zero]
  by_cases hb : b = 0
  · rw [if_pos hb, hb, F64.ofNat_zero]
    simp [F64.div]
  · rw [if_neg hb]
    rcases F64.ofNat_ge_one b hb with h | ⟨r, h, hr⟩
    · rw [h]; rfl
    · rw [h]
      have : r ≠ 0 := by intro e; rw [e] at hr; norm_num at hr
      simp [F64.div, this, roundF64]

theorem covDiv_finiteNonneg (a b : Nat) (hb : b ≠ 0) (ha : a < 18446744073709551616) :
    (covDiv a b).finiteNonneg := by
  have haq : (a : ℚ) ≤ (2 : ℚ) ^ (64 : Int) := by
    have : (a : ℚ) ≤ ((18446744073709551616 : Nat) : ℚ) := by exact_mod_cast ha.le
    have e : (2 : ℚ) ^ (64 : Int) = ((18446744073709551616 : Nat) : ℚ) := by norm_num
    rw [e]; exact this
  obtain ⟨x, hx, x0, x1⟩ := roundF64_le_pow (a : ℚ) (by positivity) 64 (by norm_num)
    (by norm_num) haq
  unfold covDiv
  unfold F64.ofNat at *
  rw [hx]
  rcases F64.ofNat_ge_one b hb with h | ⟨r, h, hr⟩
  · unfold F64.ofNat at h
    rw [h]
    show (0 : ℚ) ≤ 0
    exact le_refl 0
  · unfold F64.ofNat at h
    rw [h]
    have hr0 : r ≠ 0 := by intro e; rw [e] at hr; norm_num at hr
    have e : F64.div (F64.fin x) (F64.fin r) = roundF64 (x / r) := by
      simp [F64.div, hr0]
    rw [e]
    have hq : x / r ≤ (2 : ℚ) ^ (64 : Int) :=
      le_trans (div_le_self x0 hr) x1
    obtain ⟨y, hy, y0, _⟩ := roundF64_le_pow (x / r) (by positivity) 64 (by norm_num)
      (by norm_num) hq
    rw [hy]
    exact y0

/-! ## The genotype call -/

theorem callGenotype_eq_tree (C : F64) (P : Nat) (ps : String) (covH1 covH2 : F64)
    (srH1 srH2 : Nat) (hps : ps ≠ "None") :
    callGenotype C P ps covH1 covH2 srH1 srH2 =
      decisionTree (covH1.lt (F64.div C (F64.fin 15))) (covH2.lt (F64.div C (F64.fin 15)))
        ((F64.div C (F64.fin 5)).lt covH1) ((F64.div C (F64.fin 5)).lt covH2)
        (decide (srH1 ≥ P)) (decide (srH2 ≥ P)) := by
  unfold callGenotype decisionTree
  simp only [hps, ne_eq, not_false_eq_true, if_true, decide_eq_true_eq]

theorem callGenotype_invalid (C : F64) (P : Nat) (covH1 covH2 : F64) (srH1 srH2 : Nat) :
    callGenotype C P "None" covH1 covH2 srH1 srH2 = ("None", -1) := by
  simp [callGenotype]

theorem decisionTree_cases (a1 a2 b1 b2 s1 s2 : Bool) :
    decisionTree a1 a2 b1 b2 s1 s2 = ("0|0", 0) ∨ decisionTree a1 a2 b1 b2 s1 s2 = ("1|0", 1) ∨
    decisionTree a1 a2 b1 b2 s1 s2 = ("0|1", 1) ∨ decisionTree a1 a2 b1 b2 s1 s2 = ("1|1", 2) ∨
    decisionTree a1 a2 b1 b2 s1 s2 = ("None", -1) := by
  revert a1 a2 b1 b2 s1 s2; decide

theorem decisionTree_homRef (a1 a2 b1 b2 s1 s2 : Bool) (k1 : a1 = true → b1 = false)
    (k2 : a2 = true → b2 = false) :
    decisionTree a1 a2 b1 b2 s1 s2 = ("0|0", 0) ↔ b1 = true ∧ b2 = true := by
  revert a1 a2 b1 b2 s1 s2; decide

theorem decisionTree_hap1 (a1 a2 b1 b2 s1 s2 : Bool) (k1 : a1 = true → b1 = false)
    (k2 : a2 = true → b2 = false) :
    decisionTree a1 a2 b1 b2 s1 s2 = ("1|0", 1) ↔ a1 = true ∧ b2 = true ∧ s1 = true := by
  revert a1 a2 b1 b2 s1 s2; decide

theorem decisionTree_hap2 (a1 a2 b1 b2 s1 s2 : Bool) (k1 : a1 = true → b1 = false)
    (k2 : a2 = true → b2 = false) :
    decisionTree a1 a2 b1 b2 s1 s2 = ("0|1", 1) ↔ b1 = true ∧ a2 = true ∧ s2 = true := by
  revert a1 a2 b1 b2 s1 s2; decide

theorem decisionTree_homDel (a1 a2 b1 b2 s1 s2 : Bool) :
    decisionTree a1 a2 b1 b2 s1 s2 = ("1|1", 2) ↔
      a1 = true ∧ a2 = true ∧ s1 = true ∧ s2 = true := by
  revert a1 a2 b1 b2 s1 s2; decide

theorem decisionTree_lowLow (s1 s2 : Bool) (b1 b2 : Bool) (h : ¬ (s1 = true ∧ s2 = true)) :
    decisionTree true true b1 b2 s1 s2 = ("None", -1) := by
  revert s1 s2 b1 b2; decide

theorem decisionTree_none (a1 a2 b1 b2 s1 s2 : Bool)
    (h : (a1 = false ∧ b1 = false) ∨ (a2 = false ∧ b2 = false)) :
    decisionTree a1 a2 b1 b2 s1 s2 = ("None", -1) := by
  revert a1 a2 b1 b2 s1 s2; decide

/-- C1. With a valid phase (identifier different from "None") and expected
coverage `C > 0`, the call is one of the five pairs ("0|0",0), ("1|0",1),
("0|1",1), ("1|1",2), ("None",-1); with `low` and `high` the doubles the
program computes as `C / 15` and `C / 5` and the comparisons those of doubles,
it is ("0|0",0) exactly when both coverages exceed `high`, ("1|0",1) exactly
when `covH1 < low`, `covH2 > high` and `srH1 >= P`, ("0|1",1) exactly when
`covH1 > high`, `covH2 < low` and `srH2 >= P`; a coverage equal to `low` or
`high` or between them gives the unresolved call. -/
theorem callGenotype_table (C : F64) (P : Nat) (ps : String) (covH1 covH2 : F64)
    (srH1 srH2 : Nat) (hC : (F64.fin 0).lt C = true) (hps : ps ≠ "None") :
    (callGenotype C P ps covH1 covH2 srH1 srH2 = ("0|0", 0) ∨
      callGenotype C P ps covH1 covH2 srH1 srH2 = ("1|0", 1) ∨
      callGenotype C P ps covH1 covH2 srH1 srH2 = ("0|1", 1) ∨
      callGenotype C P ps covH1 covH2 srH1 srH2 = ("1|1", 2) ∨
      callGenotype C P ps covH1 covH2 srH1 srH2 = ("None", -1)) ∧
    (callGenotype C P ps covH1 covH2 srH1 srH2 = ("0|0", 0) ↔
      (F64.div C (F64.fin 5)).lt covH1 = true ∧ (F64.div C (F64.fin 5)).lt covH2 = true) ∧
    (callGenotype C P ps covH1 covH2 srH1 srH2 = ("1|0", 1) ↔
      covH1.lt (F64.div C (F64.fin 15)) = true ∧ (F64.div C (F64.fin 5)).lt covH2 = true ∧
        srH1 ≥ P) ∧
    (callGenotype C P ps covH1 covH2 srH1 srH2 = ("0|1", 1) ↔
      (F64.div C (F64.fin 5)).lt covH1 = true ∧ covH2.lt (F64.div C (F64.fin 15)) = true ∧
        srH2 ≥ P) ∧
    (((F64.div C (F64.fin 15)).le covH1 = true ∧ covH1.le (F64.div C (F64.fin 5)) = true) ∨
      ((F64.div C (F64.fin 15)).le covH2 = true ∧ covH2.le (F64.div C (F64.fin 5)) = true) →
      callGenotype C P ps covH1 covH2 srH1 srH2 = ("None", -1)) := by
  have k1 := F64.lt_low_not_high C hC covH1
  have k2 := F64.lt_low_not_high C hC covH2
  rw [callGenotype_eq_tree C P ps covH1 covH2 srH1 srH2 hps]
  refine ⟨decisionTree_cases _ _ _ _ _ _, decisionTree_homRef _ _ _ _ _ _ k1 k2, ?_, ?_, ?_⟩
  · rw [decisionTree_hap1 _ _ _ _ _ _ k1 k2, decide_eq_true_eq]
  · rw [decisionTree_hap2 _ _ _ _ _ _ k1 k2, decide_eq_true_eq]
  · intro hq
    apply decisionTree_none
    rcases hq with ⟨h1, h2⟩ | ⟨h1, h2⟩
    · exact Or.inl ⟨F64.le_not_lt _ _ h1, F64.le_not_lt _ _ h2⟩
    · exact Or.inr ⟨F64.le_not_lt _ _ h1, F64.le_not_lt _ _ h2⟩

/-- Witness for C1.  The example of the specification with `C = 30` (low = 2,
high = 6) and `P = 2`: coverage (1, 8) with split support (3, 0) is called
heterozygous with haplotype 1 deleted.  With the option value 10.4 (stored as
the nearest double) and a depth sum 52 over 75 positions the coverage is the
double `low` itself, and the call is unresolved. -/
theorem callGenotype_table_witness :
    callGenotype (F64.fin 30) 2 "7" (F64.fin 1) (F64.fin 8) 3 0 = ("1|0", 1) ∧
    callGenotype (roundF64 (52 / 5)) 2 "7" (covDiv 52 75) (covDiv 800 75) 3 0 =
      ("None", -1) :=
  ⟨(callGenotype_table (F64.fin 30) 2 "7" (F64.fin 1) (F64.fin 8) 3 0 (by decide!)
      (by decide)).2.2.1.mpr ⟨by decide!, by decide!, by decide⟩,
   (callGenotype_table (roundF64 (52 / 5)) 2 "7" (covDiv 52 75) (covDiv 800 75) 3 0
      (by decide!) (by decide)).2.2.2.2 (Or.inl ⟨by decide!, by decide!⟩)⟩

/-- C2. With a valid phase and both coverages below the double `low` that the
program computes as `C / 15`, the call is ("1|1",2) exactly when `srH1 >= P`
and `srH2 >= P`, and it is ("None",-1) as soon as one split support is below
`P`; and whatever the coverages, the call ("1|1",2) is returned only when both
coverages are below `low`. -/
theorem callGenotype_homDel (C : F64) (P : Nat) (ps : String) (covH1 covH2 : F64)
    (srH1 srH2 : Nat) (hps : ps ≠ "None") :
    (covH1.lt (F64.div C (F64.fin 15)) = true → covH2.lt (F64.div C (F64.fin 15)) = true →
      (callGenotype C P ps covH1 covH2 srH1 srH2 = ("1|1", 2) ↔ srH1 ≥ P ∧ srH2 ≥ P) ∧
      (srH1 < P ∨ srH2 < P → callGenotype C P ps covH1 covH2 srH1 srH2 = ("None", -1))) ∧
    (callGenotype C P ps covH1 covH2 srH1 srH2 = ("1|1", 2) →
      covH1.lt (F64.div C (F64.fin 15)) = true ∧ covH2.lt (F64.div C (F64.fin 15)) = true) := by
  rw [callGenotype_eq_tree C P ps covH1 covH2 srH1 srH2 hps, decisionTree_homDel]
  refine ⟨?_, ?_⟩
  · intro h1 h2
    rw [h1, h2]
    refine ⟨?_, ?_⟩
    · simp
    · intro h
      apply decisionTree_lowLow
      simp only [decide_eq_true_eq, not_and_or, not_le]
      exact h
  · intro h
    exact ⟨h.1, h.2.1⟩

/-- Witness for C2.  With `C = 30`, `P = 2`, coverage (1, 1), split support
(1, 2) the call is unresolved.  With the option value 10.4 and depth sums 51
and 0 over 75 positions both coverages are below `low` (the double nearest to
52/75) and the split supports (2, 2) give the homozygous deletion. -/
theorem callGenotype_homDel_witness :
    "7" ≠ "None" ∧ callGenotype (F64.fin 30) 2 "7" (F64.fin 1) (F64.fin 1) 1 2 = ("None", -1) ∧
    callGenotype (roundF64 (52 / 5)) 2 "7" (covDiv 51 75) (covDiv 0 75) 2 2 = ("1|1", 2) :=
  ⟨by decide,
    ((callGenotype_homDel (F64.fin 30) 2 "7" (F64.fin 1) (F64.fin 1) 1 2 (by decide)).1
      (by decide!) (by decide!)).2 (Or.inl (by decide)),
    ((callGenotype_homDel (roundF64 (52 / 5)) 2 "7" (covDiv 51 75) (covDiv 0 75) 2 2
      (by decide)).1 (by decide!) (by decide!)).1.mpr ⟨by decide, by decide⟩⟩

/-! ## splitPoint -/

theorem numSoftClip_eq_countP (ops : List (CigarOp × Nat)) :
    numSoftClip ops = ops.countP (fun c => decide (c.1 = CigarOp.SOFT_CLIP)) := by
  induction ops with
  | nil => rfl
  | cons c cs ih =>
    by_cases h : c.1 = CigarOp.SOFT_CLIP
    · simp [numSoftClip, h, ih]
    · simp [numSoftClip, h, ih]

theorem numSoftClip_append (xs ys : List (CigarOp × Nat)) :
    numSoftClip (xs ++ ys) = numSoftClip xs + numSoftClip ys := by
  induction xs with
  | nil => simp [numSoftClip]
  | cons c cs ih =>
    by_cases h : c.1 = CigarOp.SOFT_CLIP
    · simp [numSoftClip, h, ih]; omega
    · simp [numSoftClip, h, ih]

theorem splitPoint_of_not_single (rec : Bam1) (clipSize split : Int) (qualCut : Nat)
    (h : numSoftClip rec.cigar ≠ 1) :
    splitPoint rec clipSize split qualCut = some (false, clipSize, split) := by
  simp [splitPoint, h]

theorem sliceSum_zero (v : List Nat) (i : Nat) : sliceSum v i 0 = 0 := by
  simp [sliceSum]

theorem sliceSum_succ (v : List Nat) (i n : Nat) (h : i < v.length) :
    sliceSum v i (n + 1) = v[i] + sliceSum v (i + 1) n := by
  unfold sliceSum
  rw [List.drop_eq_getElem_cons h]
  simp only [List.take_succ_cons, List.sum_cons]

theorem qualSumLoop_eq (quality : List Nat) (n i acc : Nat) (h : i + n ≤ quality.length)
    (hacc : acc < 4294967296) :
    qualSumLoop quality n i acc = some ((acc + sliceSum quality i n) % 4294967296) := by
  induction n generalizing i acc with
  | zero =>
    simp only [qualSumLoop, sliceSum_zero, Nat.add_zero]
    rw [Nat.mod_eq_of_lt hacc]
  | succ n ih =>
    have hi : i < quality.length := by omega
    simp only [qualSumLoop, List.getElem?_eq_getElem hi]
    rw [ih (i + 1) _ (by omega) (Nat.mod_lt _ (by norm_num)), sliceSum_succ quality i n hi]
    congr 1
    omega

theorem qualSumLoop_none (quality : List Nat) (n i acc : Nat) (h : quality.length < i + n)
    (hn : 0 < n) : qualSumLoop quality n i acc = none := by
  induction n generalizing i acc with
  | zero => omega
  | succ n ih =>
    by_cases hi : i < quality.length
    · simp only [qualSumLoop, List.getElem?_eq_getElem hi]
      exact ih (i + 1) _ (by omega) (by omega)
    · simp only [qualSumLoop, List.getElem?_eq_none (by omega : quality.length ≤ i)]

theorem runState_bound (ops : List (CigarOp × Nat)) (s : Nat × Nat) :
    (runState ops s).1 + (runState ops s).2 ≤ s.1 + s.2 + queryLen ops := by
  induction ops generalizing s with
  | nil => simp [runState, queryLen]
  | cons c cs ih =>
    obtain ⟨op, n⟩ := c
    cases op <;> simp only [runState, queryLen] <;> simp <;>
      first
      | (refine le_trans (ih _) ?_; simp; omega)
      | (refine le_trans (ih _) ?_; omega)

theorem queryLen_append (xs ys : List (CigarOp × Nat)) :
    queryLen (xs ++ ys) = queryLen xs + queryLen ys := by
  induction xs with
  | nil => simp [queryLen]
  | cons c cs ih =>
    show queryLen (c :: (cs ++ ys)) = queryLen (c :: cs) + queryLen ys
    simp only [queryLen]
    rw [ih]
    split_ifs <;> omega

/-- State of the `splitPoint` loop after operations without a soft clip. -/
theorem splitLoop_noClip (rec : Bam1) (ops : List (CigarOp × Nat)) (st : SplitState)
    (h : numSoftClip ops = 0) :
    splitLoop rec ops st =
      some { st with alen := (runState ops (st.alen, st.lastIns)).1,
                     lastIns := (runState ops (st.alen, st.lastIns)).2 } := by
  induction ops generalizing st with
  | nil => simp [splitLoop, runState]
  | cons c cs ih =>
    obtain ⟨op, n⟩ := c
    have hcs : numSoftClip cs = 0 := by
      simp only [numSoftClip] at h
      split_ifs at h
      exact h
    cases op <;> simp only [numSoftClip] at h <;> simp at h <;>
      simp [splitLoop, splitStep, runState, ih _ hcs]

theorem splitLoop_append (rec : Bam1) (xs ys : List (CigarOp × Nat)) (st : SplitState) :
    splitLoop rec (xs ++ ys) st =
      match splitLoop rec xs st with
      | none => none
      | some st1 => splitLoop rec ys st1 := by
  induction xs generalizing st with
  | nil => simp [splitLoop]
  | cons c cs ih =>
    simp only [List.cons_append, splitLoop]
    cases splitStep rec st c with
    | none => rfl
    | some st1 => exact ih st1


theorem splitLoop_single (rec : Bam1) (pre post : List (CigarOp × Nat)) (n : Nat)
    (st : SplitState) (hpre : numSoftClip pre = 0) (hpost : numSoftClip post = 0) :
    splitLoop rec (pre ++ (CigarOp.SOFT_CLIP, n) :: post) st =
      match qualSumLoop rec.qual
          (wrapU32 ((runState pre (st.alen, st.lastIns)).1 + n) -
            (runState pre (st.alen, st.lastIns)).1)
          (runState pre (st.alen, st.lastIns)).1 0 with
      | none => none
      | some qualSum =>
        if n = 0 then none
        else some
          { alen := (runState post (runState pre (st.alen, st.lastIns))).1,
            lastIns := (runState post (runState pre (st.alen, st.lastIns))).2,
            meanQuality := qualSum / n,
            clipSize := n,
            split := wrapI32 (rec.pos + (runState pre (st.alen, st.lastIns)).1) } := by
  rw [splitLoop_append, splitLoop_noClip rec pre st hpre]
  simp only [splitLoop, splitStep]
  cases qualSumLoop rec.qual
      (wrapU32 ((runState pre (st.alen, st.lastIns)).1 + n) -
        (runState pre (st.alen, st.lastIns)).1)
      (runState pre (st.alen, st.lastIns)).1 0 with
  | none => rfl
  | some qs =>
    by_cases hn : n = 0
    · simp [hn]
    · simp only [hn, if_false]
      rw [splitLoop_noClip rec post _ hpost]


theorem wrapI32_of_range (x : Int) (h1 : -2147483648 ≤ x) (h2 : x < 2147483648) :
    wrapI32 x = x := by
  unfold wrapI32; omega

theorem wrapU32_of_range (x : Nat) (h : x < 4294967296) : wrapU32 (x : Int) = x := by
  unfold wrapU32; omega

theorem toSizeT_of_range (x : Int) (h1 : 0 ≤ x) (h2 : x < 18446744073709551616) :
    toSizeT x = x.toNat := by
  unfold toSizeT; omega

theorem runState_noIndel (ops : List (CigarOp × Nat)) (a : Nat)
    (h : ∀ c ∈ ops, c.1 ≠ CigarOp.INS ∧ c.1 ≠ CigarOp.DEL ∧ c.1 ≠ CigarOp.REF_SKIP ∧
      c.1 ≠ CigarOp.EQUAL ∧ c.1 ≠ CigarOp.DIFF)
    (hb : a + refLen ops < 4294967296) :
    runState ops (a, 0) = (a + refLen ops, 0) := by
  induction ops generalizing a with
  | nil => simp [runState, refLen]
  | cons c cs ih =>
    obtain ⟨op, n⟩ := c
    have hc := h (op, n) (List.mem_cons_self _ _)
    have hcs : ∀ c ∈ cs, c.1 ≠ CigarOp.INS ∧ c.1 ≠ CigarOp.DEL ∧ c.1 ≠ CigarOp.REF_SKIP ∧
        c.1 ≠ CigarOp.EQUAL ∧ c.1 ≠ CigarOp.DIFF := fun c hc => h c (List.mem_cons_of_mem _ hc)
    cases op <;> simp at hc <;> simp only [refLen] at hb <;> simp at hb <;>
      simp only [runState, refLen] <;> simp
    · rw [Nat.mod_eq_of_lt (by omega), ih (a + n) hcs (by omega)]
      simp; omega
    · exact ih a hcs hb
    · exact ih a hcs hb
    · exact ih a hcs hb
    · exact ih a hcs hb

theorem runState_matchInsOnly_aux (ops : List (CigarOp × Nat)) :
    (∀ a, matchInsOnly ops = true → a + queryLen ops < 4294967296 →
      runState ops (a, 0) = (a + queryLen ops, 0)) ∧
    (∀ c a, matchInsOnly (c :: ops) = true → a + queryLen (c :: ops) < 4294967296 →
      runState (c :: ops) (a, 0) = (a + queryLen (c :: ops), 0)) := by
  induction ops with
  | nil =>
    refine ⟨fun a _ _ => by simp [runState, queryLen], ?_⟩
    rintro ⟨op, n⟩ a h hb
    cases op <;> simp [matchInsOnly] at h
    simp only [queryLen] at hb
    simp at hb
    simp only [runState, queryLen]
    simp
    exact hb
  | cons d ds ih =>
    refine ⟨fun a h hb => ih.2 d a h hb, ?_⟩
    rintro ⟨op, n⟩ a h hb
    cases op <;> simp [matchInsOnly] at h
    · -- match
      have hb1 : a + (n + queryLen (d :: ds)) < 4294967296 := by
        have : queryLen ((CigarOp.MATCH, n) :: d :: ds) = n + queryLen (d :: ds) := by
          simp [queryLen]
        omega
      have e := ih.2 d (a + n) h (by omega)
      have : queryLen ((CigarOp.MATCH, n) :: d :: ds) = n + queryLen (d :: ds) := by
        simp [queryLen]
      rw [this]
      show runState (d :: ds) ((a + (n + 0)) % 4294967296, 0) = _
      rw [Nat.add_zero, Nat.mod_eq_of_lt (by omega), e]
      simp; omega
    · -- insertion directly followed by a match
      obtain ⟨dop, m⟩ := d
      obtain ⟨hd, hds⟩ := h
      simp only at hd
      subst hd
      have hq : queryLen ((CigarOp.INS, n) :: (CigarOp.MATCH, m) :: ds) = n + (m + queryLen ds) := by
        simp [queryLen]
      rw [hq] at hb ⊢
      show runState ds ((a + (m + n)) % 4294967296, 0) = _
      rw [Nat.mod_eq_of_lt (by omega), ih.1 (a + (m + n)) hds (by omega)]
      simp; omega

theorem runningLen_matchInsOnly (ops : List (CigarOp × Nat)) (h : matchInsOnly ops = true)
    (hb : queryLen ops < 4294967296) : runningLen ops = queryLen ops := by
  unfold runningLen
  rw [(runState_matchInsOnly_aux ops).1 0 h (by omega)]
  simp

theorem runningLen_noIndel (ops : List (CigarOp × Nat))
    (h : ∀ c ∈ ops, c.1 ≠ CigarOp.INS ∧ c.1 ≠ CigarOp.DEL ∧ c.1 ≠ CigarOp.REF_SKIP ∧
      c.1 ≠ CigarOp.EQUAL ∧ c.1 ≠ CigarOp.DIFF)
    (hb : refLen ops < 4294967296) : runningLen ops = refLen ops := by
  unfold runningLen
  rw [runState_noIndel ops 0 h (by omega)]
  simp

theorem runningLen_le_queryLen (ops : List (CigarOp × Nat)) : runningLen ops ≤ queryLen ops := by
  have := runState_bound ops (0, 0)
  unfold runningLen
  simp only [Nat.zero_add] at this
  omega


theorem numSoftClip_single (pre post : List (CigarOp × Nat)) (n : Nat)
    (hpre : numSoftClip pre = 0) (hpost : numSoftClip post = 0) :
    numSoftClip (pre ++ (CigarOp.SOFT_CLIP, n) :: post) = 1 := by
  rw [numSoftClip_append]
  simp [numSoftClip, hpre, hpost]

theorem queryLen_single (pre post : List (CigarOp × Nat)) (n : Nat) :
    queryLen (pre ++ (CigarOp.SOFT_CLIP, n) :: post) = queryLen pre + (n + queryLen post) := by
  rw [queryLen_append]
  simp [queryLen]

/-- Value of `splitPoint` on a record with a single soft clip of length `n >= 1`
whose quality array is as long as its operations say. -/
theorem splitPoint_single (rec : Bam1) (pre post : List (CigarOp × Nat)) (n : Nat)
    (clipSize split : Int) (qualCut : Nat)
    (hc : rec.cigar = pre ++ (CigarOp.SOFT_CLIP, n) :: post)
    (hpre : numSoftClip pre = 0) (hpost : numSoftClip post = 0) (hn : 1 ≤ n)
    (hq : rec.qual.length = queryLen rec.cigar) (hl : rec.qual.length < 2147483648) :
    splitPoint rec clipSize split qualCut =
      some (decide (qualCut ≤ (sliceSum rec.qual (runningLen pre) n % 4294967296) / n),
        (n : Int), wrapI32 (rec.pos + runningLen pre)) := by
  have h1 : numSoftClip rec.cigar = 1 := by rw [hc]; exact numSoftClip_single pre post n hpre hpost
  have hle := runningLen_le_queryLen pre
  have hql : queryLen rec.cigar = queryLen pre + (n + queryLen post) := by
    rw [hc]; exact queryLen_single pre post n
  have hfuel : wrapU32 ((runningLen pre : Int) + (n : Int)) - runningLen pre = n := by
    have : ((runningLen pre : Int) + (n : Int)) = ((runningLen pre + n : Nat) : Int) := by
      push_cast; rfl
    rw [this, wrapU32_of_range _ (by omega)]
    omega
  have hn0 : n ≠ 0 := by omega
  unfold splitPoint
  simp only [h1, ne_eq, not_true_eq_false, if_false]
  rw [hc, splitLoop_single rec pre post n _ hpre hpost]
  unfold runningLen at hfuel hle ⊢
  dsimp only
  rw [hfuel, qualSumLoop_eq rec.qual n _ 0 (by omega) (by norm_num)]
  simp [hn0]


/-- On a record with a single soft clip, `splitPoint` either leaves defined
behaviour or reports the clip length and `pos + alen`. -/
theorem splitPoint_single_result (rec : Bam1) (pre post : List (CigarOp × Nat)) (n : Nat)
    (clipSize split : Int) (qualCut : Nat)
    (hc : rec.cigar = pre ++ (CigarOp.SOFT_CLIP, n) :: post)
    (hpre : numSoftClip pre = 0) (hpost : numSoftClip post = 0)
    (b : Bool) (cs sp : Int) (h : splitPoint rec clipSize split qualCut = some (b, cs, sp)) :
    cs = (n : Int) ∧ sp = wrapI32 (rec.pos + runningLen pre) := by
  have h1 : numSoftClip rec.cigar = 1 := by rw [hc]; exact numSoftClip_single pre post n hpre hpost
  unfold splitPoint at h
  simp only [h1, ne_eq, not_true_eq_false, if_false] at h
  rw [hc, splitLoop_single rec pre post n _ hpre hpost] at h
  dsimp only at h
  unfold runningLen
  cases hq : qualSumLoop rec.qual (wrapU32 (((runState pre (0, 0)).1 : Int) + (n : Int)) -
      (runState pre (0, 0)).1) (runState pre (0, 0)).1 0 with
  | none => rw [hq] at h; simp at h
  | some qs =>
    rw [hq] at h
    by_cases hn : n = 0
    · simp [hn] at h
    · simp only [hn, if_false, Option.some.injEq, Prod.mk.injEq] at h
      exact ⟨h.2.1.symm, h.2.2.symm⟩

/-- C8. A record whose operation list holds no soft clip, or two or more,
makes `splitPoint` return false (leaving `clipSize` and `split` untouched),
whatever the qualities and the threshold; a record for which it returns true
has exactly one soft clip. -/
theorem splitPoint_requires_single_clip (rec : Bam1) (clipSize split : Int) (qualCut : Nat) :
    (rec.cigar.countP (fun c => decide (c.1 = CigarOp.SOFT_CLIP)) ≠ 1 →
      splitPoint rec clipSize split qualCut = some (false, clipSize, split)) ∧
    (∀ cs sp, splitPoint rec clipSize split qualCut = some (true, cs, sp) →
      rec.cigar.countP (fun c => decide (c.1 = CigarOp.SOFT_CLIP)) = 1) := by
  rw [← numSoftClip_eq_countP]
  refine ⟨splitPoint_of_not_single rec clipSize split qualCut, ?_⟩
  intro cs sp h
  by_contra hne
  rw [splitPoint_of_not_single rec clipSize split qualCut hne] at h
  simp at h

/-- Witness for C8: a read clipped at both ends (`5S 90M 5S`) with perfect
qualities does not qualify. -/
theorem splitPoint_requires_single_clip_witness :
    ([(CigarOp.SOFT_CLIP, 5), (CigarOp.MATCH, 90), (CigarOp.SOFT_CLIP, 5)].countP
        (fun c => decide (c.1 = CigarOp.SOFT_CLIP)) ≠ 1) ∧
    splitPoint
      { pos := 1000, flag := 0,
        cigar := [(CigarOp.SOFT_CLIP, 5), (CigarOp.MATCH, 90), (CigarOp.SOFT_CLIP, 5)],
        qual := List.replicate 100 40, ps := none, hp := none } (-1) (-1) 20 =
      some (false, -1, -1) :=
  ⟨by decide,
    (splitPoint_requires_single_clip
      { pos := 1000, flag := 0,
        cigar := [(CigarOp.SOFT_CLIP, 5), (CigarOp.MATCH, 90), (CigarOp.SOFT_CLIP, 5)],
        qual := List.replicate 100 40, ps := none, hp := none } (-1) (-1) 20).1 (by decide)⟩

/-- Counterexample to C9: for the read `10M 5I 10M 5S` starting at 100 the
operations before the clip consume 20 reference bases, so the clip lies at
reference position 120, but `splitPoint` reports the breakpoint 125. -/
theorem splitPoint_breakpoint_counterexample :
    splitPoint
      { pos := 100, flag := 0,
        cigar := [(CigarOp.MATCH, 10), (CigarOp.INS, 5), (CigarOp.MATCH, 10),
          (CigarOp.SOFT_CLIP, 5)],
        qual := List.replicate 30 30, ps := none, hp := none } (-1) (-1) 20 =
      some (true, 5, 125) ∧
    (100 : Int) + refLen [(CigarOp.MATCH, 10), (CigarOp.INS, 5), (CigarOp.MATCH, 10)] = 120 := by
  decide

/-- C9 (amended). On a record with exactly one soft clip, of length `n`, a
result of `splitPoint` carries the clip length `n` and the breakpoint
`pos + alen` (as an `int32_t`), where `alen` is the running length of the
loop: the lengths of the match operations before the clip, each increased by
the length of the last insertion met since the previous match.  The result
exists when the clip is not empty and the quality array is as long as the
operations say.  The running length is the number of reference bases consumed
before the clip when no insertion, deletion, reference skip, `=` or `X`
operation precedes the clip. -/
theorem splitPoint_breakpoint (rec : Bam1) (pre post : List (CigarOp × Nat)) (n : Nat)
    (clipSize split : Int) (qualCut : Nat)
    (hc : rec.cigar = pre ++ (CigarOp.SOFT_CLIP, n) :: post)
    (hpre : numSoftClip pre = 0) (hpost : numSoftClip post = 0) :
    (∀ b cs sp, splitPoint rec clipSize split qualCut = some (b, cs, sp) →
      cs = (n : Int) ∧ sp = wrapI32 (rec.pos + runningLen pre)) ∧
    (1 ≤ n → rec.qual.length = queryLen rec.cigar → rec.qual.length < 2147483648 →
      ∃ b, splitPoint rec clipSize split qualCut =
        some (b, (n : Int), wrapI32 (rec.pos + runningLen pre))) ∧
    ((∀ c ∈ pre, c.1 ≠ CigarOp.INS ∧ c.1 ≠ CigarOp.DEL ∧ c.1 ≠ CigarOp.REF_SKIP ∧
        c.1 ≠ CigarOp.EQUAL ∧ c.1 ≠ CigarOp.DIFF) →
      refLen pre < 4294967296 → runningLen pre = refLen pre) := by
  refine ⟨?_, ?_, ?_⟩
  · intro b cs sp h
    exact splitPoint_single_result rec pre post n clipSize split qualCut hc hpre hpost b cs sp h
  · intro hn hq hl
    exact ⟨_, splitPoint_single rec pre post n clipSize split qualCut hc hpre hpost hn hq hl⟩
  · intro h hb
    exact runningLen_noIndel pre h hb

/-- Witness for C9 (amended): the read `60M 40S` starting at 940 has its
breakpoint at 1000. -/
theorem splitPoint_breakpoint_witness :
    ∃ b, splitPoint
      { pos := 940, flag := 0, cigar := [(CigarOp.MATCH, 60), (CigarOp.SOFT_CLIP, 40)],
        qual := List.replicate 100 30, ps := none, hp := none } (-1) (-1) 20 =
      some (b, ((40 : Nat) : Int),
        wrapI32 ((940 : Int) + runningLen [(CigarOp.MATCH, 60)])) :=
  (splitPoint_breakpoint
    { pos := 940, flag := 0, cigar := [(CigarOp.MATCH, 60), (CigarOp.SOFT_CLIP, 40)],
      qual := List.replicate 100 30, ps := none, hp := none }
    [(CigarOp.MATCH, 60)] [] 40 (-1) (-1) 20 rfl (by decide) (by decide)).2.1
    (by decide) (by decide) (by decide)


/-- Counterexample to C10: the read `50M 4I 46S` has 100 bases; its clipped
bases are the last 46, of quality 20 each, so their mean reaches the threshold
20; `splitPoint` averages the bases 50..95 (the 4 inserted bases of quality 2
and 42 clipped ones), gets 18 and returns false. -/
theorem splitPoint_mean_quality_counterexample :
    splitPoint
      { pos := 900, flag := 0,
        cigar := [(CigarOp.MATCH, 50), (CigarOp.INS, 4), (CigarOp.SOFT_CLIP, 46)],
        qual := List.replicate 50 40 ++ List.replicate 4 2 ++ List.replicate 46 20,
        ps := none, hp := none } (-1) (-1) 20 = some (false, 46, 950) ∧
    (List.replicate 50 40 ++ List.replicate 4 2 ++ List.replicate 46 20).length =
      queryLen [(CigarOp.MATCH, 50), (CigarOp.INS, 4), (CigarOp.SOFT_CLIP, 46)] ∧
    20 * 46 ≤ sliceSum (List.replicate 50 40 ++ List.replicate 4 2 ++ List.replicate 46 20)
      (queryLen [(CigarOp.MATCH, 50), (CigarOp.INS, 4)]) 46 := by
  decide

/-- C10 (amended). On a record with exactly one soft clip, of length
`n >= 1`, whose quality array is as long as its operations say, `splitPoint`
returns true exactly when the integer mean of the `n` qualities at the array
positions `alen, ..., alen + n - 1` is at least the threshold, that is when
their sum is at least `qualCut * n` (the sum fitting in 32 bits); `alen` is
the running length of the loop, and these positions are the clipped bases of
the read when only match operations, and insertions each directly followed by
a match, precede the clip. -/
theorem splitPoint_mean_quality (rec : Bam1) (pre post : List (CigarOp × Nat)) (n : Nat)
    (clipSize split : Int) (qualCut : Nat)
    (hc : rec.cigar = pre ++ (CigarOp.SOFT_CLIP, n) :: post)
    (hpre : numSoftClip pre = 0) (hpost : numSoftClip post = 0) (hn : 1 ≤ n)
    (hq : rec.qual.length = queryLen rec.cigar) (hl : rec.qual.length < 2147483648)
    (hs : sliceSum rec.qual (runningLen pre) n < 4294967296) :
    (∃ b cs sp, splitPoint rec clipSize split qualCut = some (b, cs, sp) ∧
      (b = true ↔ qualCut ≤ sliceSum rec.qual (runningLen pre) n / n) ∧
      (b = true ↔ qualCut * n ≤ sliceSum rec.qual (runningLen pre) n)) ∧
    (matchInsOnly pre = true → runningLen pre = queryLen pre) := by
  refine ⟨⟨_, _, _,
    splitPoint_single rec pre post n clipSize split qualCut hc hpre hpost hn hq hl, ?_, ?_⟩, ?_⟩
  · rw [Nat.mod_eq_of_lt hs, decide_eq_true_eq]
  · rw [Nat.mod_eq_of_lt hs, decide_eq_true_eq, Nat.le_div_iff_mul_le (by omega)]
  · intro h
    apply runningLen_matchInsOnly pre h
    have : queryLen rec.cigar = queryLen pre + (n + queryLen post) := by
      rw [hc]; exact queryLen_single pre post n
    omega

/-- Witness for C10 (amended): the read `60M 40S` with all qualities 30. -/
theorem splitPoint_mean_quality_witness :
    (∃ b cs sp,
      splitPoint
        { pos := 940, flag := 0, cigar := [(CigarOp.MATCH, 60), (CigarOp.SOFT_CLIP, 40)],
          qual := List.replicate 100 30, ps := none, hp := none } (-1) (-1) 20 =
        some (b, cs, sp) ∧
      (b = true ↔
        20 ≤ sliceSum (List.replicate 100 30) (runningLen [(CigarOp.MATCH, 60)]) 40 / 40) ∧
      (b = true ↔
        20 * 40 ≤ sliceSum (List.replicate 100 30) (runningLen [(CigarOp.MATCH, 60)]) 40)) ∧
    (matchInsOnly [(CigarOp.MATCH, 60)] = true →
      runningLen [(CigarOp.MATCH, 60)] = queryLen [(CigarOp.MATCH, 60)]) :=
  splitPoint_mean_quality
    { pos := 940, flag := 0, cigar := [(CigarOp.MATCH, 60), (CigarOp.SOFT_CLIP, 40)],
      qual := List.replicate 100 30, ps := none, hp := none }
    [(CigarOp.MATCH, 60)] [] 40 (-1) (-1) 20 rfl (by decide) (by decide)
    (by decide) (by decide) (by decide) (by decide)

/-! ## Breakpoint refinement: the loops -/

theorem bpCountLoop_eq (bpH1 bpH2 : List Nat) (n i : Nat) (acc : Nat × Nat)
    (h1 : i + n ≤ bpH1.length) (h2 : i + n ≤ bpH2.length)
    (ha1 : acc.1 < 18446744073709551616) (ha2 : acc.2 < 18446744073709551616) :
    bpCountLoop bpH1 bpH2 n i acc =
      some ((acc.1 + sliceSum bpH1 i n) % 18446744073709551616,
            (acc.2 + sliceSum bpH2 i n) % 18446744073709551616) := by
  induction n generalizing i acc with
  | zero =>
    simp only [bpCountLoop, sliceSum_zero, Nat.add_zero]
    rw [Nat.mod_eq_of_lt ha1, Nat.mod_eq_of_lt ha2]
  | succ n ih =>
    have hi1 : i < bpH1.length := by omega
    have hi2 : i < bpH2.length := by omega
    simp only [bpCountLoop, List.getElem?_eq_getElem hi1, List.getElem?_eq_getElem hi2]
    rw [ih (i + 1) _ (by omega) (by omega) (Nat.mod_lt _ (by norm_num))
      (Nat.mod_lt _ (by norm_num)), sliceSum_succ bpH1 i n hi1, sliceSum_succ bpH2 i n hi2]
    simp only [Nat.add_mod_mod, Nat.mod_add_mod, Option.some.injEq, Prod.mk.injEq]
    constructor <;> (congr 1; omega)

theorem searchLoop_none (spp : List Nat) (n i : Nat) (best : Int × Nat)
    (h : spp.length < i + n) (hn : 0 < n) : searchLoop spp n i best = none := by
  induction n generalizing i best with
  | zero => omega
  | succ n ih =>
    by_cases hi : i < spp.length
    · simp only [searchLoop, List.getElem?_eq_getElem hi]
      split_ifs
      · exact ih (i + 1) _ (by omega) (by omega)
      · exact ih (i + 1) _ (by omega) (by omega)
    · simp only [searchLoop, List.getElem?_eq_none (by omega : spp.length ≤ i)]

/-- Result of a search loop that stays inside the vector: the best offset is
the initial one or a scanned position holding the best count, which bounds
the initial count and the counts of all scanned positions. -/
theorem searchLoop_spec (spp : List Nat) (n i : Nat) (b : Int) (c : Nat)
    (h : i + n ≤ spp.length) (hl : spp.length < 2147483648) :
    ∃ b1 c1, searchLoop spp n i (b, c) = some (b1, c1) ∧ c ≤ c1 ∧
      (∀ j, i ≤ j → j < i + n → ∀ x, spp[j]? = some x → x ≤ c1) ∧
      ((b1 = b ∧ c1 = c) ∨
        ((i : Int) ≤ b1 ∧ b1 < ((i + n : Nat) : Int) ∧ spp[b1.toNat]? = some c1 ∧ c < c1)) := by
  induction n generalizing i b c with
  | zero =>
    refine ⟨b, c, by simp [searchLoop], le_refl _, ?_, Or.inl ⟨rfl, rfl⟩⟩
    intro j h1 h2; omega
  | succ n ih =>
    have hi : i < spp.length := by omega
    simp only [searchLoop, List.getElem?_eq_getElem hi]
    by_cases hx : spp[i] > c
    · simp only [hx, if_true]
      obtain ⟨b1, c1, he, hc, hall, hor⟩ := ih (i + 1) (wrapI32 i) spp[i] (by omega)
      have hw : wrapI32 (i : Int) = (i : Int) := wrapI32_of_range _ (by omega) (by omega)
      refine ⟨b1, c1, he, by omega, ?_, Or.inr ?_⟩
      · intro j h1 h2 x hxj
        by_cases hj : j = i
        · subst hj
          rw [List.getElem?_eq_getElem hi] at hxj
          simp only [Option.some.injEq] at hxj
          omega
        · exact hall j (by omega) (by omega) x hxj
      · rcases hor with ⟨hb, hc1⟩ | ⟨g1, g2, g3, g4⟩
        · rw [hb, hc1, hw]
          refine ⟨le_refl _, by push_cast; omega, ?_, hx⟩
          simp [List.getElem?_eq_getElem hi]
        · refine ⟨by push_cast at g1; omega, by push_cast at g2 ⊢; omega, g3, by omega⟩
    · simp only [hx, if_false]
      obtain ⟨b1, c1, he, hc, hall, hor⟩ := ih (i + 1) b c (by omega)
      refine ⟨b1, c1, he, hc, ?_, ?_⟩
      · intro j h1 h2 x hxj
        by_cases hj : j = i
        · subst hj
          rw [List.getElem?_eq_getElem hi] at hxj
          simp only [Option.some.injEq] at hxj
          omega
        · exact hall j (by omega) (by omega) x hxj
      · rcases hor with hh | ⟨g1, g2, g3, g4⟩
        · exact Or.inl hh
        · exact Or.inr ⟨by push_cast at g1; omega, by push_cast at g2 ⊢; omega, g3, g4⟩


theorem searchLoop_window (spp : List Nat) (lo hi b : Int) (c : Nat)
    (hlo : 0 ≤ lo) (hhi : 0 ≤ hi) (hloN : lo ≤ spp.length) (hhiN : hi ≤ spp.length)
    (hl : spp.length < 2147483648) :
    ∃ b1 c1, searchLoop spp (toSizeT hi - toSizeT lo) (toSizeT lo) (b, c) = some (b1, c1) ∧
      c ≤ c1 ∧
      (∀ j : Int, lo ≤ j → j < hi → ∀ x, spp[j.toNat]? = some x → x ≤ c1) ∧
      ((b1 = b ∧ c1 = c) ∨ (lo ≤ b1 ∧ b1 < hi ∧ spp[b1.toNat]? = some c1 ∧ c < c1)) := by
  have e1 : toSizeT lo = lo.toNat := toSizeT_of_range lo hlo (by omega)
  have e2 : toSizeT hi = hi.toNat := toSizeT_of_range hi hhi (by omega)
  rw [e1, e2]
  obtain ⟨b1, c1, he, hc, hall, hor⟩ :=
    searchLoop_spec spp (hi.toNat - lo.toNat) lo.toNat b c (by omega) hl
  refine ⟨b1, c1, he, hc, ?_, ?_⟩
  · intro j h1 h2 x hx
    exact hall j.toNat (by omega) (by omega) x hx
  · rcases hor with hh | ⟨g1, g2, g3, g4⟩
    · exact Or.inl hh
    · exact Or.inr ⟨by omega, by omega, g3, g4⟩

theorem searchWindows_eq (W : Nat) (s e : Int) (hs : 0 ≤ s) (hse : s ≤ e)
    (hW : e + W < 1073741824) :
    searchWindows W s e =
      if s + W > e - W then (max 0 (s - W), (s + e) / 2 - 1, (s + e) / 2, e + W)
      else (max 0 (s - W), s + W, e - W, e + W) := by
  have w1 : wrapI32 (W : Int) = W := wrapI32_of_range _ (by omega) (by omega)
  have w2 : wrapI32 (s - W) = s - W := wrapI32_of_range _ (by omega) (by omega)
  have w3 : wrapI32 (s + W) = s + W := wrapI32_of_range _ (by omega) (by omega)
  have w4 : wrapI32 (e - W) = e - W := wrapI32_of_range _ (by omega) (by omega)
  have w5 : wrapI32 (e + W) = e + W := wrapI32_of_range _ (by omega) (by omega)
  have w6 : wrapI32 (e - W + (s + W)) = s + e := by
    rw [wrapI32_of_range _ (by omega) (by omega)]; omega
  have w7 : Int.tdiv (s + e) 2 = (s + e) / 2 := Int.tdiv_eq_ediv (by omega) (by omega)
  have w8 : wrapI32 ((s + e) / 2 - 1) = (s + e) / 2 - 1 :=
    wrapI32_of_range _ (by omega) (by omega)
  unfold searchWindows
  simp only [w1, w2, w3, w4, w5, w6, w7, w8]


theorem searchWindows_bounds (W : Nat) (s e : Int) (hs : 0 ≤ s) (hse : s ≤ e)
    (hW : e + W < 1073741824) (hclip : s + W > e - W → 2 ≤ s + e) :
    0 ≤ (searchWindows W s e).1 ∧ (searchWindows W s e).1 ≤ s ∧
    s - W ≤ (searchWindows W s e).1 ∧
    0 ≤ (searchWindows W s e).2.1 ∧ (searchWindows W s e).2.1 ≤ e ∧
    (searchWindows W s e).2.1 ≤ s + W ∧
    (searchWindows W s e).2.1 ≤ (searchWindows W s e).2.2.1 ∧
    0 ≤ (searchWindows W s e).2.2.1 ∧ (searchWindows W s e).2.2.1 ≤ e ∧
    e - W ≤ (searchWindows W s e).2.2.1 ∧
    (searchWindows W s e).2.2.2 = e + W := by
  rw [searchWindows_eq W s e hs hse hW]
  by_cases h : s + W > e - W
  · have := hclip h
    simp only [h, if_true]
    refine ⟨?_, ?_, ?_, ?_, ?_, ?_, ?_, ?_, ?_, ?_, ?_⟩ <;> first | omega | trivial
  · simp only [h, if_false]
    refine ⟨?_, ?_, ?_, ?_, ?_, ?_, ?_, ?_, ?_, ?_, ?_⟩ <;> first | omega | trivial

theorem bpCounts_eq (bpH1 bpH2 : List Nat) (a b : Int) (N : Nat)
    (l1 : bpH1.length = N) (l2 : bpH2.length = N) (ha : -1 ≤ a) (haN : a < N)
    (hb : 0 ≤ b) (hbN : b ≤ N) (hN : N < 2147483648) :
    bpCounts bpH1 bpH2 a b =
      some (sliceSum bpH1 (a + 1).toNat (b.toNat - (a + 1).toNat) % 18446744073709551616,
            sliceSum bpH2 (a + 1).toNat (b.toNat - (a + 1).toNat) % 18446744073709551616) := by
  unfold bpCounts
  rw [wrapI32_of_range (a + 1) (by omega) (by omega),
    toSizeT_of_range (a + 1) (by omega) (by omega), toSizeT_of_range b hb (by omega),
    bpCountLoop_eq bpH1 bpH2 _ _ (0, 0) (by omega) (by omega) (by norm_num) (by norm_num)]
  simp

theorem getElem?_toSizeT (v : List Nat) (a : Int) (ha : 0 ≤ a) (haN : a < v.length)
    (hl : v.length < 2147483648) :
    ∃ x, v[toSizeT a]? = some x ∧ v[a.toNat]? = some x := by
  have hl : a.toNat < v.length := by omega
  rw [toSizeT_of_range a ha (by omega)]
  exact ⟨v[a.toNat], List.getElem?_eq_getElem hl, List.getElem?_eq_getElem hl⟩

/-- With the breakpoints and both windows inside the vectors, the refinement
returns offsets that are the original ones or positions of their window. -/
theorem refine_spec (W : Nat) (ev : Evidence) (s e : Int) (N : Nat)
    (l1 : ev.sppH1.length = N) (l2 : ev.sppH2.length = N)
    (l3 : ev.bpH1.length = N) (l4 : ev.bpH2.length = N)
    (hs : 0 ≤ s) (hse : s ≤ e) (heN : e < N) (hW : e + W ≤ N) (hN : N < 1073741824)
    (hclip : s + W > e - W → 2 ≤ s + e) :
    ∃ s1 e1, refine W ev s e = some (s1, e1) ∧
      (s1 = s ∨ ((searchWindows W s e).1 ≤ s1 ∧ s1 < (searchWindows W s e).2.1)) ∧
      (e1 = e ∨ ((searchWindows W s e).2.2.1 ≤ e1 ∧ e1 < (searchWindows W s e).2.2.2)) := by
  obtain ⟨b1, b2, b3, b4, b5, b6, b7, b8, b9, b10, b11⟩ :=
    searchWindows_bounds W s e hs hse (by omega) hclip
  unfold refine
  simp only []
  rw [bpCounts_eq ev.bpH1 ev.bpH2 s e N l3 l4 (by omega) (by omega) (by omega) (by omega)
    (by omega)]
  simp only []
  generalize hspp : (if sliceSum ev.bpH1 (s + 1).toNat (e.toNat - (s + 1).toNat) %
      18446744073709551616 > sliceSum ev.bpH2 (s + 1).toNat (e.toNat - (s + 1).toNat) %
      18446744073709551616 then ev.sppH2 else ev.sppH1) = spp
  have lspp : spp.length = N := by
    rw [← hspp]; split_ifs
    · exact l2
    · exact l1
  obtain ⟨x, hx, _⟩ := getElem?_toSizeT spp s hs (by omega) (by omega)
  obtain ⟨y, hy, _⟩ := getElem?_toSizeT spp e (by omega) (by omega) (by omega)
  obtain ⟨s1, c1, hq1, _, _, hor1⟩ := searchLoop_window spp (searchWindows W s e).1
    (searchWindows W s e).2.1 s x b1 b4 (by omega) (by omega) (by omega)
  obtain ⟨e1, c2, hq2, _, _, hor2⟩ := searchLoop_window spp (searchWindows W s e).2.2.1
    (searchWindows W s e).2.2.2 e y b8 (by omega) (by omega) (by omega) (by omega)
  refine ⟨s1, e1, ?_, ?_, ?_⟩
  · rw [hx]
    simp only []
    rw [hq1]
    simp only []
    rw [hy]
    simp only []
    rw [hq2]
  · rcases hor1 with hh | ⟨g1, g2, _, _⟩
    · exact Or.inl hh.1
    · exact Or.inr ⟨g1, g2⟩
  · rcases hor2 with hh | ⟨g1, g2, _, _⟩
    · exact Or.inl hh.1
    · exact Or.inr ⟨g1, g2⟩

/-! ## The read scan -/

theorem vecIncr_length (v v1 : List Nat) (i : Nat) (h : vecIncr v i = some v1) :
    v1.length = v.length := by
  unfold vecIncr at h
  cases hx : v[i]? with
  | none => rw [hx] at h; simp at h
  | some x =>
    rw [hx] at h
    simp only [Option.some.injEq] at h
    rw [← h, List.length_set]

theorem matchLoop_length (regionStart regionEnd : Int) (k : Nat) (bpPos : Int) (bp : List Nat)
    (r : Int × List Nat) (h : matchLoop regionStart regionEnd k bpPos bp = some r) :
    r.2.length = bp.length := by
  induction k generalizing bpPos bp with
  | zero =>
    simp only [matchLoop, Option.some.injEq] at h
    rw [← h]
  | succ k ih =>
    simp only [matchLoop] at h
    split_ifs at h with hg
    · cases hv : vecIncr bp (toSizeT (wrapI32 (bpPos - regionStart))) with
      | none => rw [hv] at h; simp at h
      | some bp1 =>
        rw [hv] at h
        rw [ih _ _ h, vecIncr_length _ _ _ hv]
    · exact ih _ _ h

theorem bpLoop_length (regionStart regionEnd : Int) (ops : List (CigarOp × Nat)) (bpPos : Int)
    (bp bp1 : List Nat) (h : bpLoop regionStart regionEnd ops bpPos bp = some bp1) :
    bp1.length = bp.length := by
  induction ops generalizing bpPos bp with
  | nil =>
    simp only [bpLoop, Option.some.injEq] at h
    rw [← h]
  | cons c cs ih =>
    simp only [bpLoop] at h
    split_ifs at h with h1 h2
    · cases hm : matchLoop regionStart regionEnd c.2 bpPos bp with
      | none => rw [hm] at h; simp at h
      | some r =>
        rw [hm] at h
        rw [ih _ _ h, matchLoop_length _ _ _ _ _ _ hm]
    · exact ih _ _ h
    · exact ih _ _ h

theorem addBpCounts_length (rec : Bam1) (regionStart regionEnd : Int) (bp bp1 : List Nat)
    (h : addBpCounts rec regionStart regionEnd bp = some bp1) : bp1.length = bp.length := by
  unfold addBpCounts at h
  split_ifs at h
  · simp only [Option.some.injEq] at h; rw [← h]
  · exact bpLoop_length _ _ _ _ _ _ h

/-- What `addEvidence` keeps: the lengths of the four vectors, the phase-block
identifier and both flags. -/
theorem addEvidence_frame (regionStart regionEnd : Int) (r : Bam1) (hap : Int)
    (st st1 : Evidence) (h : addEvidence regionStart regionEnd r hap st = some st1) :
    st1.sppH1.length = st.sppH1.length ∧ st1.sppH2.length = st.sppH2.length ∧
    st1.bpH1.length = st.bpH1.length ∧ st1.bpH2.length = st.bpH2.length ∧
    st1.uniquePS = st.uniquePS ∧ st1.psSet = st.psSet ∧
    st1.singlePhasedBlock = st.singlePhasedBlock := by
  unfold addEvidence at h
  cases hb : addBpCounts r regionStart regionEnd (if hap = 1 then st.bpH1 else st.bpH2) with
  | none => rw [hb] at h; simp at h
  | some bp =>
    have hbl := addBpCounts_length _ _ _ _ _ hb
    rw [hb] at h
    simp only [] at h
    cases hsp : splitPoint r (-1) (-1) 20 with
    | none => rw [hsp] at h; simp at h
    | some t =>
      obtain ⟨ok, clipSize, split⟩ := t
      rw [hsp] at h
      simp only [] at h
      by_cases hap1 : hap = 1
      · simp only [hap1, if_true] at h hbl
        split_ifs at h
        · cases hv : vecIncr st.sppH1 (toSizeT (wrapI32 (split - regionStart))) with
          | none => rw [hv] at h; simp at h
          | some v =>
            rw [hv] at h
            simp only [Option.some.injEq] at h
            rw [← h]
            simp [vecIncr_length _ _ _ hv, hbl]
        all_goals
          simp only [Option.some.injEq] at h
          rw [← h]
          simp [hbl]
      · simp only [hap1, if_false] at h hbl
        split_ifs at h
        · cases hv : vecIncr st.sppH2 (toSizeT (wrapI32 (split - regionStart))) with
          | none => rw [hv] at h; simp at h
          | some v =>
            rw [hv] at h
            simp only [Option.some.injEq] at h
            rw [← h]
            simp [vecIncr_length _ _ _ hv, hbl]
        all_goals
          simp only [Option.some.injEq] at h
          rw [← h]
          simp [hbl]

theorem collect_nil (regionStart regionEnd : Int) (st : Evidence) :
    collect regionStart regionEnd [] st = some st := rfl

theorem collect_skip (regionStart regionEnd : Int) (r : Bam1) (rs : List Bam1) (st : Evidence)
    (h : ¬ passesFilters regionStart r ∨ r.ps = none) :
    collect regionStart regionEnd (r :: rs) st = collect regionStart regionEnd rs st := by
  unfold passesFilters at h
  rw [collect]
  by_cases h1 : flagExcluded r = true
  · simp [h1]
  · by_cases h2 : r.pos < regionStart
    · simp [h1, h2]
    · rcases h with h | h
      · exact absurd ⟨by simpa using h1, h2⟩ h
      · simp [h1, h2, h]

theorem collect_conflict (regionStart regionEnd : Int) (r : Bam1) (rs : List Bam1)
    (st : Evidence) (p : String) (hf : passesFilters regionStart r) (hp : r.ps = some p)
    (hset : st.psSet = true) (hne : p ≠ st.uniquePS) :
    collect regionStart regionEnd (r :: rs) st = some { st with singlePhasedBlock := false } := by
  obtain ⟨h1, h2⟩ := hf
  rw [collect]
  simp [h1, h2, hp, hset, hne]

theorem collect_untagged (regionStart regionEnd : Int) (r : Bam1) (rs : List Bam1)
    (st : Evidence) (p : String) (hf : passesFilters regionStart r) (hp : r.ps = some p)
    (hok : ¬ (st.psSet = true ∧ p ≠ st.uniquePS)) (hh : r.hp = none) :
    collect regionStart regionEnd (r :: rs) st =
      collect regionStart regionEnd rs (adoptPS st p) := by
  obtain ⟨h1, h2⟩ := hf
  rw [collect]
  simp only [h1, h2, hp, hok, hh, adoptPS]
  simp

theorem collect_evidence (regionStart regionEnd : Int) (r : Bam1) (rs : List Bam1)
    (st : Evidence) (p : String) (hap : Int) (hf : passesFilters regionStart r)
    (hp : r.ps = some p) (hok : ¬ (st.psSet = true ∧ p ≠ st.uniquePS)) (hh : r.hp = some hap) :
    collect regionStart regionEnd (r :: rs) st =
      match addEvidence regionStart regionEnd r hap (adoptPS st p) with
      | none => none
      | some st2 => collect regionStart regionEnd rs st2 := by
  obtain ⟨h1, h2⟩ := hf
  rw [collect]
  simp only [h1, h2, hp, hok, hh, adoptPS]
  simp

theorem adoptPS_frame (st : Evidence) (p : String) :
    (adoptPS st p).sppH1 = st.sppH1 ∧ (adoptPS st p).sppH2 = st.sppH2 ∧
    (adoptPS st p).bpH1 = st.bpH1 ∧ (adoptPS st p).bpH2 = st.bpH2 ∧
    (adoptPS st p).singlePhasedBlock = st.singlePhasedBlock ∧
    (adoptPS st p).psSet = true := by
  unfold adoptPS
  by_cases h : st.psSet = true <;> simp [h]

theorem adoptPS_uniquePS (st : Evidence) (p : String)
    (hok : ¬ (st.psSet = true ∧ p ≠ st.uniquePS)) :
    (adoptPS st p).uniquePS = p ∧ (st.psSet = true → (adoptPS st p).uniquePS = st.uniquePS) := by
  unfold adoptPS
  by_cases h : st.psSet = true
  · rw [if_pos h]
    simp only [h, true_and, ne_eq, not_not] at hok
    exact ⟨hok.symm, fun _ => rfl⟩
  · simp [h]

/-- Case analysis of one iteration of the read scan. -/
theorem collect_cons_cases (regionStart regionEnd : Int) (r : Bam1) (rs : List Bam1)
    (st : Evidence) :
    ((¬ passesFilters regionStart r ∨ r.ps = none) ∧
      collect regionStart regionEnd (r :: rs) st = collect regionStart regionEnd rs st) ∨
    (∃ p, passesFilters regionStart r ∧ r.ps = some p ∧ st.psSet = true ∧ p ≠ st.uniquePS ∧
      collect regionStart regionEnd (r :: rs) st =
        some { st with singlePhasedBlock := false }) ∨
    (∃ p, passesFilters regionStart r ∧ r.ps = some p ∧
      ¬ (st.psSet = true ∧ p ≠ st.uniquePS) ∧ r.hp = none ∧
      collect regionStart regionEnd (r :: rs) st =
        collect regionStart regionEnd rs (adoptPS st p)) ∨
    (∃ p hap, passesFilters regionStart r ∧ r.ps = some p ∧
      ¬ (st.psSet = true ∧ p ≠ st.uniquePS) ∧ r.hp = some hap ∧
      collect regionStart regionEnd (r :: rs) st =
        match addEvidence regionStart regionEnd r hap (adoptPS st p) with
        | none => none
        | some st2 => collect regionStart regionEnd rs st2) := by
  by_cases hf : passesFilters regionStart r
  · cases hp : r.ps with
    | none => exact Or.inl ⟨Or.inr rfl, collect_skip _ _ _ _ _ (Or.inr hp)⟩
    | some p =>
      by_cases hc : st.psSet = true ∧ p ≠ st.uniquePS
      · exact Or.inr (Or.inl ⟨p, hf, rfl, hc.1, hc.2,
          collect_conflict _ _ _ _ _ p hf hp hc.1 hc.2⟩)
      · cases hh : r.hp with
        | none =>
          exact Or.inr (Or.inr (Or.inl ⟨p, hf, rfl, hc, rfl,
            collect_untagged _ _ _ _ _ p hf hp hc hh⟩))
        | some hap =>
          exact Or.inr (Or.inr (Or.inr ⟨p, hap, hf, rfl, hc, rfl,
            collect_evidence _ _ _ _ _ p hap hf hp hc hh⟩))
  · exact Or.inl ⟨Or.inl hf, collect_skip _ _ _ _ _ (Or.inl hf)⟩

/-- The read scan keeps the lengths of the four vectors. -/
theorem collect_length (regionStart regionEnd : Int) (rs : List Bam1) (st st1 : Evidence)
    (h : collect regionStart regionEnd rs st = some st1) :
    st1.sppH1.length = st.sppH1.length ∧ st1.sppH2.length = st.sppH2.length ∧
    st1.bpH1.length = st.bpH1.length ∧ st1.bpH2.length = st.bpH2.length := by
  induction rs generalizing st with
  | nil =>
    simp only [collect_nil, Option.some.injEq] at h
    rw [← h]; exact ⟨rfl, rfl, rfl, rfl⟩
  | cons r rs ih =>
    rcases collect_cons_cases regionStart regionEnd r rs st with
      ⟨_, e⟩ | ⟨p, _, _, _, _, e⟩ | ⟨p, _, _, _, _, e⟩ | ⟨p, hap, _, _, _, _, e⟩
    · rw [e] at h; exact ih st h
    · rw [e] at h
      simp only [Option.some.injEq] at h
      rw [← h]; exact ⟨rfl, rfl, rfl, rfl⟩
    · rw [e] at h
      obtain ⟨a1, a2, a3, a4, _, _⟩ := adoptPS_frame st p
      have := ih _ h
      rw [a1, a2, a3, a4] at this
      exact this
    · rw [e] at h
      cases ha : addEvidence regionStart regionEnd r hap (adoptPS st p) with
      | none => rw [ha] at h; simp at h
      | some st2 =>
        rw [ha] at h
        obtain ⟨a1, a2, a3, a4, _, _⟩ := adoptPS_frame st p
        obtain ⟨f1, f2, f3, f4, _, _, _⟩ := addEvidence_frame _ _ _ _ _ _ ha
        have := ih _ h
        rw [f1, f2, f3, f4, a1, a2, a3, a4] at this
        exact this

/-- A scan that ends without a phase conflict has seen one phase tag only:
every record that passes the filters and carries a phase tag carries the
final identifier. -/
theorem collect_single_phase (regionStart regionEnd : Int) (rs : List Bam1)
    (st st1 : Evidence) (h : collect regionStart regionEnd rs st = some st1)
    (hv : st1.singlePhasedBlock = true) :
    (st.psSet = true → st1.uniquePS = st.uniquePS) ∧
    (∀ r ∈ rs, passesFilters regionStart r → ∀ p, r.ps = some p → st1.uniquePS = p) := by
  induction rs generalizing st with
  | nil =>
    simp only [collect_nil, Option.some.injEq] at h
    rw [← h]
    exact ⟨fun _ => rfl, fun r hr => absurd hr (List.not_mem_nil r)⟩
  | cons r rs ih =>
    rcases collect_cons_cases regionStart regionEnd r rs st with
      ⟨hs, e⟩ | ⟨p, _, _, _, _, e⟩ | ⟨p, hf, hp, hok, _, e⟩ | ⟨p, hap, hf, hp, hok, _, e⟩
    · rw [e] at h
      obtain ⟨i1, i2⟩ := ih st h
      refine ⟨i1, ?_⟩
      intro r1 hr1 hf1 q hq
      rcases List.mem_cons.mp hr1 with hh | hh
      · subst hh
        rcases hs with hs | hs
        · exact absurd hf1 hs
        · rw [hs] at hq; simp at hq
      · exact i2 r1 hh hf1 q hq
    · rw [e] at h
      simp only [Option.some.injEq] at h
      rw [← h] at hv
      simp at hv
    · rw [e] at h
      obtain ⟨i1, i2⟩ := ih _ h
      obtain ⟨_, _, _, _, _, a6⟩ := adoptPS_frame st p
      obtain ⟨u1, u2⟩ := adoptPS_uniquePS st p hok
      refine ⟨fun hset => by rw [i1 a6, u2 hset], ?_⟩
      intro r1 hr1 hf1 q hq
      rcases List.mem_cons.mp hr1 with hh | hh
      · subst hh
        rw [hp] at hq
        simp only [Option.some.injEq] at hq
        rw [i1 a6, u1, hq]
      · exact i2 r1 hh hf1 q hq
    · rw [e] at h
      cases ha : addEvidence regionStart regionEnd r hap (adoptPS st p) with
      | none => rw [ha] at h; simp at h
      | some st2 =>
        rw [ha] at h
        obtain ⟨i1, i2⟩ := ih _ h
        obtain ⟨_, _, _, _, _, a6⟩ := adoptPS_frame st p
        obtain ⟨u1, u2⟩ := adoptPS_uniquePS st p hok
        obtain ⟨_, _, _, _, f5, f6, _⟩ := addEvidence_frame _ _ _ _ _ _ ha
        have hset2 : st2.psSet = true := by rw [f6]; exact a6
        refine ⟨fun hset => by rw [i1 hset2, f5, u2 hset], ?_⟩
        intro r1 hr1 hf1 q hq
        rcases List.mem_cons.mp hr1 with hh | hh
        · subst hh
          rw [hp] at hq
          simp only [Option.some.injEq] at hq
          rw [i1 hset2, f5, u1, hq]
        · exact i2 r1 hh hf1 q hq

/-- A scan that ends without a phase conflict has read all its records: the
scan of a longer stream continues from its final state. -/
theorem collect_append (regionStart regionEnd : Int) (rs more : List Bam1)
    (st st1 : Evidence) (h : collect regionStart regionEnd rs st = some st1)
    (hv : st1.singlePhasedBlock = true) :
    collect regionStart regionEnd (rs ++ more) st = collect regionStart regionEnd more st1 := by
  induction rs generalizing st with
  | nil =>
    simp only [collect_nil, Option.some.injEq] at h
    rw [← h]; rfl
  | cons r rs ih =>
    rcases collect_cons_cases regionStart regionEnd r rs st with
      ⟨hs, e⟩ | ⟨p, hf, hp, hset, hne, e⟩ | ⟨p, hf, hp, hok, hh, e⟩ | ⟨p, hap, hf, hp, hok, hh, e⟩
    · rw [e] at h
      rw [List.cons_append, collect_skip _ _ _ _ _ hs]
      exact ih st h
    · rw [e] at h
      simp only [Option.some.injEq] at h
      rw [← h] at hv
      simp at hv
    · rw [e] at h
      rw [List.cons_append, collect_untagged _ _ _ _ _ p hf hp hok hh]
      exact ih _ h
    · rw [e] at h
      rw [List.cons_append, collect_evidence _ _ _ _ _ p hap hf hp hok hh]
      cases ha : addEvidence regionStart regionEnd r hap (adoptPS st p) with
      | none => rw [ha] at h; simp at h
      | some st2 =>
        rw [ha] at h
        exact ih _ h

/-- Window arithmetic for a variant with `0 <= pos <= svend` far from the
`int32_t` limits. -/
theorem region_arith (cfg : Config) (pos svend : Int) (h0 : 0 ≤ pos) (h1 : pos ≤ svend)
    (h2 : svend + cfg.readlen < 1073741824) :
    regionStartOf cfg pos = max 0 (pos - cfg.readlen) ∧
    regionEndOf cfg svend = svend + cfg.readlen ∧
    regionSizeOf cfg pos svend = svend + cfg.readlen - max 0 (pos - cfg.readlen) ∧
    wrapI32 (pos - regionStartOf cfg pos) = pos - max 0 (pos - cfg.readlen) ∧
    wrapI32 (svend - regionStartOf cfg pos) = svend - max 0 (pos - cfg.readlen) := by
  have e1 : regionStartOf cfg pos = max 0 (pos - cfg.readlen) := by
    unfold regionStartOf
    rw [wrapI32_of_range (cfg.readlen : Int) (by omega) (by omega),
      wrapI32_of_range _ (by omega) (by omega)]
  have e2 : regionEndOf cfg svend = svend + cfg.readlen := by
    unfold regionEndOf
    rw [wrapI32_of_range _ (by omega) (by omega)]
  refine ⟨e1, e2, ?_, ?_, ?_⟩
  · unfold regionSizeOf
    rw [e1, e2, wrapI32_of_range _ (by omega) (by omega)]
  · rw [e1, wrapI32_of_range _ (by omega) (by omega)]
  · rw [e1, wrapI32_of_range _ (by omega) (by omega)]

theorem initEvidence_length (n : Nat) :
    (initEvidence n).sppH1.length = n ∧ (initEvidence n).sppH2.length = n ∧
    (initEvidence n).bpH1.length = n ∧ (initEvidence n).bpH2.length = n := by
  simp [initEvidence]

/-- The row written after a phase conflict: the identifier is "None", the
call is unresolved, the depth sums are the zeros of lines 208-209 and the
split supports are read at the initial offsets. -/
theorem finishRow_conflict (cfg : Config) (ev : Evidence) (s e : Int) (row : Row)
    (hv : ev.singlePhasedBlock = false) (h : finishRow cfg ev s e = some row) :
    row.uniquePS = "None" ∧ row.gtstr = "None" ∧ row.gtcalled = -1 ∧
    row.covH1 = covDiv 0 (toSizeT (wrapI32 (e - s))) ∧
    row.covH2 = covDiv 0 (toSizeT (wrapI32 (e - s))) ∧
    (∃ a b, ev.sppH1[toSizeT s]? = some a ∧ ev.sppH1[toSizeT e]? = some b ∧
      row.srH1 = (a + b) % 4294967296) ∧
    (∃ a b, ev.sppH2[toSizeT s]? = some a ∧ ev.sppH2[toSizeT e]? = some b ∧
      row.srH2 = (a + b) % 4294967296) := by
  unfold finishRow refineStage at h
  simp only [hv, Bool.false_eq_true, if_false] at h
  cases h1 : ev.sppH1[toSizeT s]? with
  | none => simp [h1] at h
  | some a1 =>
    cases h2 : ev.sppH1[toSizeT e]? with
    | none => simp [h1, h2] at h
    | some b1 =>
      cases h3 : ev.sppH2[toSizeT s]? with
      | none => simp [h1, h2, h3] at h
      | some a2 =>
        cases h4 : ev.sppH2[toSizeT e]? with
        | none => simp [h1, h2, h3, h4] at h
        | some b2 =>
          simp only [h1, h2, h3, h4, Option.some.injEq] at h
          rw [← h]
          rw [callGenotype_invalid]
          exact ⟨rfl, rfl, rfl, rfl, rfl, ⟨a1, b1, rfl, rfl, rfl⟩, ⟨a2, b2, rfl, rfl, rfl⟩⟩

/-- After a phase conflict a row is written as soon as both initial offsets
lie inside the vectors. -/
theorem finishRow_conflict_some (cfg : Config) (ev : Evidence) (s e : Int) (N : Nat)
    (hv : ev.singlePhasedBlock = false)
    (l1 : ev.sppH1.length = N) (l2 : ev.sppH2.length = N)
    (hs : 0 ≤ s) (hsN : s < N) (he : 0 ≤ e) (heN : e < N) (hN : N < 2147483648) :
    ∃ row, finishRow cfg ev s e = some row := by
  obtain ⟨a1, h1, _⟩ := getElem?_toSizeT ev.sppH1 s hs (by omega) (by omega)
  obtain ⟨b1, h2, _⟩ := getElem?_toSizeT ev.sppH1 e he (by omega) (by omega)
  obtain ⟨a2, h3, _⟩ := getElem?_toSizeT ev.sppH2 s hs (by omega) (by omega)
  obtain ⟨b2, h4, _⟩ := getElem?_toSizeT ev.sppH2 e he (by omega) (by omega)
  unfold finishRow refineStage
  simp only [hv, Bool.false_eq_true, if_false, h1, h2, h3, h4]
  exact ⟨_, rfl⟩

/-- Two records that pass the filters with different phase tags end the scan
with the conflict flag. -/
theorem collect_conflicting (regionStart regionEnd : Int) (recs : List Bam1) (st ev : Evidence)
    (r1 r2 : Bam1) (p1 p2 : String) (h1 : r1 ∈ recs) (h2 : r2 ∈ recs)
    (f1 : passesFilters regionStart r1) (f2 : passesFilters regionStart r2)
    (hp1 : r1.ps = some p1) (hp2 : r2.ps = some p2) (hne : p1 ≠ p2)
    (h : collect regionStart regionEnd recs st = some ev) : ev.singlePhasedBlock = false := by
  by_contra hv
  have hv1 : ev.singlePhasedBlock = true := by simpa using hv
  obtain ⟨_, hall⟩ := collect_single_phase regionStart regionEnd recs st ev h hv1
  exact hne ((hall r1 h1 f1 p1 hp1).symm.trans (hall r2 h2 f2 p2 hp2))

theorem processRegion_eq (cfg : Config) (pos svend : Int) (recs : List Bam1) (row : Row)
    (h : processRegion cfg pos svend recs = some row) :
    ∃ ev, collect (regionStartOf cfg pos) (regionEndOf cfg svend) recs
        (initEvidence (regionSizeOf cfg pos svend).toNat) = some ev ∧
      finishRow cfg ev (wrapI32 (pos - regionStartOf cfg pos))
        (wrapI32 (svend - regionStartOf cfg pos)) = some row := by
  unfold processRegion at h
  simp only [] at h
  split_ifs at h with hneg
  cases hc : collect (regionStartOf cfg pos) (regionEndOf cfg svend) recs
      (initEvidence (regionSizeOf cfg pos svend).toNat) with
  | none => rw [hc] at h; simp at h
  | some ev =>
    rw [hc] at h
    exact ⟨ev, rfl, h⟩

theorem processRegion_of_collect (cfg : Config) (pos svend : Int) (recs : List Bam1)
    (ev : Evidence) (hsize : 0 ≤ regionSizeOf cfg pos svend)
    (hc : collect (regionStartOf cfg pos) (regionEndOf cfg svend) recs
        (initEvidence (regionSizeOf cfg pos svend).toNat) = some ev) :
    processRegion cfg pos svend recs =
      finishRow cfg ev (wrapI32 (pos - regionStartOf cfg pos))
        (wrapI32 (svend - regionStartOf cfg pos)) := by
  unfold processRegion
  simp only [not_lt.mpr hsize, if_false, hc]

theorem numSoftClip_one_split (ops : List (CigarOp × Nat)) (h : numSoftClip ops = 1) :
    ∃ pre n post, ops = pre ++ (CigarOp.SOFT_CLIP, n) :: post ∧
      numSoftClip pre = 0 ∧ numSoftClip post = 0 := by
  induction ops with
  | nil => simp [numSoftClip] at h
  | cons c cs ih =>
    obtain ⟨op, n⟩ := c
    by_cases hop : op = CigarOp.SOFT_CLIP
    · subst hop
      simp only [numSoftClip, if_true] at h
      exact ⟨[], n, cs, rfl, rfl, by omega⟩
    · simp only [numSoftClip, hop, if_false] at h
      obtain ⟨pre, m, post, e, h1, h2⟩ := ih h
      refine ⟨(op, n) :: pre, m, post, by rw [e]; rfl, ?_, h2⟩
      simp only [numSoftClip, hop, if_false]
      exact h1

theorem splitPoint_wellFormed (r : Bam1) (clipSize split : Int) (qualCut : Nat)
    (hw : r.wellFormed) :
    ∃ b cs sp, splitPoint r clipSize split qualCut = some (b, cs, sp) ∧
      (b = true → 0 < r.qual.length) := by
  obtain ⟨hq, hl, hclip⟩ := hw
  by_cases h1 : numSoftClip r.cigar = 1
  · obtain ⟨pre, n, post, e, hpre, hpost⟩ := numSoftClip_one_split r.cigar h1
    have hn : 1 ≤ n := hclip (CigarOp.SOFT_CLIP, n) (by rw [e]; simp) rfl
    refine ⟨_, _, _, splitPoint_single r pre post n clipSize split qualCut e hpre hpost hn hq hl,
      ?_⟩
    intro _
    have := queryLen_single pre post n
    rw [← e] at this
    omega
  · exact ⟨false, clipSize, split, splitPoint_of_not_single r clipSize split qualCut h1,
      fun h => by simp at h⟩

theorem vecIncr_some (v : List Nat) (i : Nat) (h : i < v.length) :
    ∃ v1, vecIncr v i = some v1 ∧ v1.length = v.length := by
  unfold vecIncr
  rw [List.getElem?_eq_getElem h]
  exact ⟨_, rfl, List.length_set _ _ _⟩

theorem window_index (regionStart regionEnd p : Int) (N : Nat)
    (hN : regionEnd - regionStart ≤ N) (hl : N < 2147483648)
    (h1 : regionStart ≤ p) (h2 : p < regionEnd) :
    toSizeT (wrapI32 (p - regionStart)) < N := by
  rw [wrapI32_of_range _ (by omega) (by omega), toSizeT_of_range _ (by omega) (by omega)]
  omega

theorem matchLoop_some (regionStart regionEnd : Int) (k : Nat) (bpPos : Int) (bp : List Nat)
    (hN : regionEnd - regionStart ≤ bp.length) (hl : bp.length < 2147483648) :
    ∃ r, matchLoop regionStart regionEnd k bpPos bp = some r ∧ r.2.length = bp.length := by
  induction k generalizing bpPos bp with
  | zero => exact ⟨_, rfl, rfl⟩
  | succ k ih =>
    simp only [matchLoop]
    split_ifs with hg
    · obtain ⟨v1, hv, hlen⟩ := vecIncr_some bp _
        (window_index regionStart regionEnd bpPos bp.length hN hl hg.1 hg.2)
      rw [hv]
      obtain ⟨r, hr, hrl⟩ := ih (wrapI32 (bpPos + 1)) v1 (by omega) (by omega)
      exact ⟨r, hr, by omega⟩
    · exact ih _ bp hN hl

theorem bpLoop_some (regionStart regionEnd : Int) (ops : List (CigarOp × Nat)) (bpPos : Int)
    (bp : List Nat) (hN : regionEnd - regionStart ≤ bp.length) (hl : bp.length < 2147483648) :
    ∃ bp1, bpLoop regionStart regionEnd ops bpPos bp = some bp1 ∧ bp1.length = bp.length := by
  induction ops generalizing bpPos bp with
  | nil => exact ⟨_, rfl, rfl⟩
  | cons c cs ih =>
    simp only [bpLoop]
    split_ifs with h1 h2
    · obtain ⟨r, hr, hrl⟩ := matchLoop_some regionStart regionEnd c.2 bpPos bp hN hl
      rw [hr]
      obtain ⟨bp1, hb, hbl⟩ := ih r.1 r.2 (by omega) (by omega)
      exact ⟨bp1, hb, by omega⟩
    · exact ih _ bp hN hl
    · exact ih _ bp hN hl

theorem addBpCounts_some (rec : Bam1) (regionStart regionEnd : Int) (bp : List Nat)
    (hN : regionEnd - regionStart ≤ bp.length) (hl : bp.length < 2147483648) :
    ∃ bp1, addBpCounts rec regionStart regionEnd bp = some bp1 ∧ bp1.length = bp.length := by
  unfold addBpCounts
  split_ifs
  · exact ⟨_, rfl, rfl⟩
  · exact bpLoop_some _ _ _ _ _ hN hl

/-- A well-formed record adds its evidence without leaving the vectors, when
these are as long as the window. -/
theorem addEvidence_some (regionStart regionEnd : Int) (r : Bam1) (hap : Int) (st : Evidence)
    (N : Nat) (l1 : st.sppH1.length = N) (l2 : st.sppH2.length = N)
    (l3 : st.bpH1.length = N) (l4 : st.bpH2.length = N)
    (hN : regionEnd - regionStart ≤ N) (hl : N < 2147483648) (hw : r.wellFormed) :
    ∃ st1, addEvidence regionStart regionEnd r hap st = some st1 := by
  unfold addEvidence
  obtain ⟨bp, hb, hbl⟩ := addBpCounts_some r regionStart regionEnd
    (if hap = 1 then st.bpH1 else st.bpH2)
    (by split_ifs <;> omega) (by split_ifs <;> omega)
  rw [hb]
  simp only []
  obtain ⟨ok, cs, sp, hsp, hq⟩ := splitPoint_wellFormed r (-1) (-1) 20 hw
  rw [hsp]
  simp only []
  by_cases hok : ok = true
  · have hq0 : r.qual.length ≠ 0 := by have := hq hok; omega
    simp only [hok, if_true, hq0, if_false]
    by_cases hg : regionStart ≤ sp ∧ sp < regionEnd
    · simp only [hg, and_self, if_true]
      have hi := window_index regionStart regionEnd sp N hN hl hg.1 hg.2
      by_cases hc : cs > log10x10 r.qual.length
      · simp only [hc, if_true]
        by_cases hap1 : hap = 1
        · simp only [hap1, if_true]
          obtain ⟨v, hv, _⟩ := vecIncr_some st.sppH1 _ (by rw [l1]; exact hi)
          rw [hv]
          exact ⟨_, rfl⟩
        · simp only [hap1, if_false]
          obtain ⟨v, hv, _⟩ := vecIncr_some st.sppH2 _ (by rw [l2]; exact hi)
          rw [hv]
          exact ⟨_, rfl⟩
      · simp only [hc, if_false]
        exact ⟨_, rfl⟩
    · simp only [hg, if_false]
      exact ⟨_, rfl⟩
  · simp only [hok, if_false]
    exact ⟨_, rfl⟩

/-- The scan of well-formed records stays inside the vectors. -/
theorem collect_some (regionStart regionEnd : Int) (rs : List Bam1) (st : Evidence) (N : Nat)
    (l1 : st.sppH1.length = N) (l2 : st.sppH2.length = N)
    (l3 : st.bpH1.length = N) (l4 : st.bpH2.length = N)
    (hN : regionEnd - regionStart ≤ N) (hl : N < 2147483648)
    (hw : ∀ r ∈ rs, r.wellFormed) :
    ∃ st1, collect regionStart regionEnd rs st = some st1 := by
  induction rs generalizing st with
  | nil => exact ⟨st, rfl⟩
  | cons r rs ih =>
    have hwr := hw r (List.mem_cons_self _ _)
    have hwrs : ∀ x ∈ rs, x.wellFormed := fun x hx => hw x (List.mem_cons_of_mem _ hx)
    rcases collect_cons_cases regionStart regionEnd r rs st with
      ⟨_, e⟩ | ⟨p, _, _, _, _, e⟩ | ⟨p, _, _, _, _, e⟩ | ⟨p, hap, _, _, _, _, e⟩
    · rw [e]; exact ih st l1 l2 l3 l4 hwrs
    · rw [e]; exact ⟨_, rfl⟩
    · rw [e]
      obtain ⟨a1, a2, a3, a4, _, _⟩ := adoptPS_frame st p
      exact ih _ (by rw [a1]; exact l1) (by rw [a2]; exact l2) (by rw [a3]; exact l3)
        (by rw [a4]; exact l4) hwrs
    · rw [e]
      obtain ⟨a1, a2, a3, a4, _, _⟩ := adoptPS_frame st p
      obtain ⟨st2, ha⟩ := addEvidence_some regionStart regionEnd r hap (adoptPS st p) N
        (by rw [a1]; exact l1) (by rw [a2]; exact l2) (by rw [a3]; exact l3)
        (by rw [a4]; exact l4) hN hl hwr
      rw [ha]
      obtain ⟨f1, f2, f3, f4, _, _, _⟩ := addEvidence_frame _ _ _ _ _ _ ha
      exact ih st2 (by rw [f1, a1]; exact l1) (by rw [f2, a2]; exact l2)
        (by rw [f3, a3]; exact l3) (by rw [f4, a4]; exact l4) hwrs

/-! ## Phase conflicts -/

/-- Vector length and initial offsets of a variant with `0 <= pos <= svend`,
`readlen >= 1`, far from the `int32_t` limits. -/
theorem region_offsets (cfg : Config) (pos svend : Int) (h0 : 0 ≤ pos) (h1 : pos ≤ svend)
    (hr : 1 ≤ cfg.readlen) (h2 : svend + cfg.readlen < 1073741824) :
    0 ≤ regionSizeOf cfg pos svend ∧
    regionEndOf cfg svend - regionStartOf cfg pos ≤ ((regionSizeOf cfg pos svend).toNat : Int) ∧
    (regionSizeOf cfg pos svend).toNat < 1073741824 ∧
    0 ≤ wrapI32 (pos - regionStartOf cfg pos) ∧
    wrapI32 (pos - regionStartOf cfg pos) ≤ wrapI32 (svend - regionStartOf cfg pos) ∧
    wrapI32 (svend - regionStartOf cfg pos) - wrapI32 (pos - regionStartOf cfg pos) =
      svend - pos ∧
    wrapI32 (svend - regionStartOf cfg pos) + cfg.readlen =
      ((regionSizeOf cfg pos svend).toNat : Int) := by
  obtain ⟨e1, e2, e3, e4, e5⟩ := region_arith cfg pos svend h0 h1 h2
  rw [e1, e2, e3] at *
  rw [e4, e5]
  refine ⟨?_, ?_, ?_, ?_, ?_, ?_, ?_⟩ <;> omega

/-- C3. When two records that pass the flag filter and the start-position
filter carry different phase-block tags, every row written for the variant
has the phase-block identifier "None" and the unresolved call ("None", -1);
and the row is written whenever the records are well-formed and the variant
satisfies `0 <= pos <= END` with a read length of at least 1. -/
theorem phase_conflict_unresolved (cfg : Config) (pos svend : Int) (recs : List Bam1)
    (r1 r2 : Bam1) (p1 p2 : String) (h1 : r1 ∈ recs) (h2 : r2 ∈ recs)
    (f1 : flagExcluded r1 = false ∧ ¬ r1.pos < regionStartOf cfg pos)
    (f2 : flagExcluded r2 = false ∧ ¬ r2.pos < regionStartOf cfg pos)
    (hp1 : r1.ps = some p1) (hp2 : r2.ps = some p2) (hne : p1 ≠ p2) :
    (∀ row, processRegion cfg pos svend recs = some row →
      row.uniquePS = "None" ∧ row.gtstr = "None" ∧ row.gtcalled = -1) ∧
    ((∀ r ∈ recs, r.wellFormed) → 0 ≤ pos → pos ≤ svend → 1 ≤ cfg.readlen →
      svend + cfg.readlen < 1073741824 →
      ∃ row, processRegion cfg pos svend recs = some row) := by
  refine ⟨?_, ?_⟩
  · intro row h
    obtain ⟨ev, hc, hrow⟩ := processRegion_eq cfg pos svend recs row h
    have hv := collect_conflicting _ _ recs _ ev r1 r2 p1 p2 h1 h2 f1 f2 hp1 hp2 hne hc
    obtain ⟨a, b, c, _⟩ := finishRow_conflict cfg ev _ _ row hv hrow
    exact ⟨a, b, c⟩
  · intro hw h0 hle hr hb
    obtain ⟨g1, g2, g3, g4, g5, g6, g7⟩ := region_offsets cfg pos svend h0 hle hr hb
    obtain ⟨i1, i2, i3, i4⟩ := initEvidence_length (regionSizeOf cfg pos svend).toNat
    obtain ⟨ev, hc⟩ := collect_some (regionStartOf cfg pos) (regionEndOf cfg svend) recs
      (initEvidence (regionSizeOf cfg pos svend).toNat) (regionSizeOf cfg pos svend).toNat
      i1 i2 i3 i4 g2 (by omega) hw
    have hv := collect_conflicting _ _ recs _ ev r1 r2 p1 p2 h1 h2 f1 f2 hp1 hp2 hne hc
    obtain ⟨l1, l2, _, _⟩ := collect_length _ _ _ _ _ hc
    rw [processRegion_of_collect cfg pos svend recs ev g1 hc]
    exact finishRow_conflict_some cfg ev _ _ (regionSizeOf cfg pos svend).toNat hv
      (by rw [l1, i1]) (by rw [l2, i2]) g4 (by omega) (by omega) (by omega) (by omega)

/-- Witness for C3: a 30-base read of phase block "7" followed by one of phase
block "9" over the deletion 1000..1010. -/
theorem phase_conflict_unresolved_witness :
    (∀ row, processRegion defaultConfig 1000 1010
        [mkRead 990 [(CigarOp.MATCH, 30)] 30 30 "7" 1,
         mkRead 995 [(CigarOp.MATCH, 30)] 30 30 "9" 2] = some row →
      row.uniquePS = "None" ∧ row.gtstr = "None" ∧ row.gtcalled = -1) ∧
    (∃ row, processRegion defaultConfig 1000 1010
        [mkRead 990 [(CigarOp.MATCH, 30)] 30 30 "7" 1,
         mkRead 995 [(CigarOp.MATCH, 30)] 30 30 "9" 2] = some row) :=
  ⟨(phase_conflict_unresolved defaultConfig 1000 1010 _
      (mkRead 990 [(CigarOp.MATCH, 30)] 30 30 "7" 1)
      (mkRead 995 [(CigarOp.MATCH, 30)] 30 30 "9" 2) "7" "9"
      (by simp) (by simp) (by decide) (by decide) rfl rfl (by decide)).1,
   (phase_conflict_unresolved defaultConfig 1000 1010 _
      (mkRead 990 [(CigarOp.MATCH, 30)] 30 30 "7" 1)
      (mkRead 995 [(CigarOp.MATCH, 30)] 30 30 "9" 2) "7" "9"
      (by simp) (by simp) (by decide) (by decide) rfl rfl (by decide)).2
      (by decide) (by decide) (by decide) (by decide) (by decide)⟩

/-- Counterexample to C4 (default options, deletion at 1000..1010): a 30-base
read of haplotype 1 in phase block "7" covers 990..1019, the next read carries
phase block "9".  The depth gathered before the conflict sums to 9 strictly
between the offsets 150 and 160 (interval length 10), but the row reports the
coverage 0 instead of 9/10. -/
theorem conflict_row_evidence_counterexample :
    processRegion defaultConfig 1000 1010
      [mkRead 990 [(CigarOp.MATCH, 30)] 30 30 "7" 1,
       mkRead 995 [(CigarOp.MATCH, 30)] 30 30 "9" 1] =
      some { uniquePS := "None", srH1 := 0, covH1 := F64.fin 0, srH2 := 0, covH2 := F64.fin 0,
             gtstr := "None", gtcalled := -1 } ∧
    (collect 850 1160 [mkRead 990 [(CigarOp.MATCH, 30)] 30 30 "7" 1] (initEvidence 310)).bind
      (fun ev => bpCounts ev.bpH1 ev.bpH2 150 160) = some (9, 0) ∧
    covDiv 9 10 ≠ F64.fin 0 := by
  decide!

/-- C4 (amended). When the records `pre` are scanned without a phase conflict
and the next record passes the filters with a phase tag different from the
identifier adopted so far, every row written for the variant reports, for each
haplotype, the split support accumulated from `pre` at the original start and
end offsets (their sum as a `uint32_t`), and as coverage the zero depth sum of
lines 208-209 divided by the interval length: the depth accumulated from `pre`
does not enter the row.  For a variant with `0 <= pos < END` and a read length
of at least 1 the row is written and both coverages are 0. -/
theorem conflict_row_evidence (cfg : Config) (pos svend : Int) (pre rest : List Bam1)
    (r : Bam1) (p : String) (ev0 : Evidence)
    (hpre : collect (regionStartOf cfg pos) (regionEndOf cfg svend) pre
      (initEvidence (regionSizeOf cfg pos svend).toNat) = some ev0)
    (hv : ev0.singlePhasedBlock = true)
    (hf : flagExcluded r = false ∧ ¬ r.pos < regionStartOf cfg pos)
    (hp : r.ps = some p) (hset : ev0.psSet = true) (hne : p ≠ ev0.uniquePS) :
    (∀ row, processRegion cfg pos svend (pre ++ r :: rest) = some row →
      (∃ a b, ev0.sppH1[toSizeT (wrapI32 (pos - regionStartOf cfg pos))]? = some a ∧
        ev0.sppH1[toSizeT (wrapI32 (svend - regionStartOf cfg pos))]? = some b ∧
        row.srH1 = (a + b) % 4294967296) ∧
      (∃ a b, ev0.sppH2[toSizeT (wrapI32 (pos - regionStartOf cfg pos))]? = some a ∧
        ev0.sppH2[toSizeT (wrapI32 (svend - regionStartOf cfg pos))]? = some b ∧
        row.srH2 = (a + b) % 4294967296) ∧
      row.covH1 = covDiv 0 (toSizeT (wrapI32 (wrapI32 (svend - regionStartOf cfg pos) -
        wrapI32 (pos - regionStartOf cfg pos)))) ∧
      row.covH2 = covDiv 0 (toSizeT (wrapI32 (wrapI32 (svend - regionStartOf cfg pos) -
        wrapI32 (pos - regionStartOf cfg pos))))) ∧
    (0 ≤ pos → pos < svend → 1 ≤ cfg.readlen → svend + cfg.readlen < 1073741824 →
      ∃ row, processRegion cfg pos svend (pre ++ r :: rest) = some row ∧
        row.covH1 = F64.fin 0 ∧ row.covH2 = F64.fin 0) := by
  have hc : collect (regionStartOf cfg pos) (regionEndOf cfg svend) (pre ++ r :: rest)
      (initEvidence (regionSizeOf cfg pos svend).toNat) =
      some { ev0 with singlePhasedBlock := false } := by
    rw [collect_append _ _ pre (r :: rest) _ ev0 hpre hv]
    exact collect_conflict _ _ r rest ev0 p hf hp hset hne
  have key : ∀ row, processRegion cfg pos svend (pre ++ r :: rest) = some row →
      (∃ a b, ev0.sppH1[toSizeT (wrapI32 (pos - regionStartOf cfg pos))]? = some a ∧
        ev0.sppH1[toSizeT (wrapI32 (svend - regionStartOf cfg pos))]? = some b ∧
        row.srH1 = (a + b) % 4294967296) ∧
      (∃ a b, ev0.sppH2[toSizeT (wrapI32 (pos - regionStartOf cfg pos))]? = some a ∧
        ev0.sppH2[toSizeT (wrapI32 (svend - regionStartOf cfg pos))]? = some b ∧
        row.srH2 = (a + b) % 4294967296) ∧
      row.covH1 = covDiv 0 (toSizeT (wrapI32 (wrapI32 (svend - regionStartOf cfg pos) -
        wrapI32 (pos - regionStartOf cfg pos)))) ∧
      row.covH2 = covDiv 0 (toSizeT (wrapI32 (wrapI32 (svend - regionStartOf cfg pos) -
        wrapI32 (pos - regionStartOf cfg pos)))) := by
    intro row h
    obtain ⟨ev, hc1, hrow⟩ := processRegion_eq cfg pos svend _ row h
    rw [hc] at hc1
    simp only [Option.some.injEq] at hc1
    subst hc1
    obtain ⟨_, _, _, c1, c2, s1, s2⟩ := finishRow_conflict cfg _ _ _ row rfl hrow
    exact ⟨s1, s2, c1, c2⟩
  refine ⟨key, ?_⟩
  intro h0 hlt hr hb
  obtain ⟨g1, g2, g3, g4, g5, g6, g7⟩ := region_offsets cfg pos svend h0 (le_of_lt hlt) hr hb
  obtain ⟨i1, i2, i3, i4⟩ := initEvidence_length (regionSizeOf cfg pos svend).toNat
  obtain ⟨l1, l2, _, _⟩ := collect_length _ _ _ _ _ hpre
  obtain ⟨row, hrow⟩ := finishRow_conflict_some cfg { ev0 with singlePhasedBlock := false }
    (wrapI32 (pos - regionStartOf cfg pos)) (wrapI32 (svend - regionStartOf cfg pos))
    (regionSizeOf cfg pos svend).toNat rfl (by rw [l1, i1]) (by rw [l2, i2]) g4 (by omega)
    (by omega) (by omega) (by omega)
  have hpr : processRegion cfg pos svend (pre ++ r :: rest) = some row := by
    rw [processRegion_of_collect cfg pos svend _ _ g1 hc]; exact hrow
  obtain ⟨_, _, c1, c2⟩ := key row hpr
  refine ⟨row, hpr, ?_, ?_⟩
  · rw [c1, g6, wrapI32_of_range _ (by omega) (by omega),
      toSizeT_of_range _ (by omega) (by omega)]
    rw [covDiv_zero, if_neg (by omega)]
  · rw [c2, g6, wrapI32_of_range _ (by omega) (by omega),
      toSizeT_of_range _ (by omega) (by omega)]
    rw [covDiv_zero, if_neg (by omega)]

/-- Witness for C4 (amended), default options, deletion 1000..1010: a read
`30M` at 990 and a read `60M 40S` at 940, both of haplotype 1 in phase block
"7", leave depth 9 strictly between the offsets 150 and 160 and one split at
offset 150; the next read carries phase block "9".  The row reports the split
support 1 and the coverage 0. -/
theorem conflict_row_evidence_witness :
    (collect 850 1160
      [mkRead 990 [(CigarOp.MATCH, 30)] 30 30 "7" 1,
       mkRead 940 [(CigarOp.MATCH, 60), (CigarOp.SOFT_CLIP, 40)] 100 30 "7" 1]
      (initEvidence 310)).bind (fun ev => bpCounts ev.bpH1 ev.bpH2 150 160) = some (9, 0) ∧
    ∃ row, processRegion defaultConfig 1000 1010
        ([mkRead 990 [(CigarOp.MATCH, 30)] 30 30 "7" 1,
          mkRead 940 [(CigarOp.MATCH, 60), (CigarOp.SOFT_CLIP, 40)] 100 30 "7" 1] ++
          mkRead 995 [(CigarOp.MATCH, 30)] 30 30 "9" 1 :: []) = some row ∧
      row.srH1 = 1 ∧ row.srH2 = 0 ∧ row.covH1 = F64.fin 0 ∧ row.covH2 = F64.fin 0 := by
  have T := conflict_row_evidence defaultConfig 1000 1010
    [mkRead 990 [(CigarOp.MATCH, 30)] 30 30 "7" 1,
     mkRead 940 [(CigarOp.MATCH, 60), (CigarOp.SOFT_CLIP, 40)] 100 30 "7" 1] []
    (mkRead 995 [(CigarOp.MATCH, 30)] 30 30 "9" 1) "9"
    { sppH1 := (List.replicate 310 0).set 150 1, sppH2 := List.replicate 310 0,
      bpH1 := List.replicate 90 0 ++ List.replicate 50 1 ++ List.replicate 10 2 ++
        List.replicate 20 1 ++ List.replicate 140 0,
      bpH2 := List.replicate 310 0, uniquePS := "7", psSet := true,
      singlePhasedBlock := true }
    (by decide!) rfl (by decide) rfl rfl (by decide)
  obtain ⟨row, hrow, c1, c2⟩ := T.2 (by decide) (by decide) (by decide) (by decide)
  obtain ⟨⟨a1, b1, ha1, hb1, hs1⟩, ⟨a2, b2, ha2, hb2, hs2⟩, _, _⟩ := T.1 row hrow
  have e1 : ((List.replicate 310 0).set 150 1)[toSizeT (wrapI32
      (1000 - regionStartOf defaultConfig 1000))]? = some 1 := by decide!
  have e2 : ((List.replicate 310 0).set 150 1)[toSizeT (wrapI32
      (1010 - regionStartOf defaultConfig 1000))]? = some 0 := by decide!
  have e3 : (List.replicate 310 (0 : Nat))[toSizeT (wrapI32
      (1000 - regionStartOf defaultConfig 1000))]? = some 0 := by decide!
  have e4 : (List.replicate 310 (0 : Nat))[toSizeT (wrapI32
      (1010 - regionStartOf defaultConfig 1000))]? = some 0 := by decide!
  have x1 : a1 = 1 := Option.some.inj (ha1.symm.trans e1)
  have y1 : b1 = 0 := Option.some.inj (hb1.symm.trans e2)
  have x2 : a2 = 0 := Option.some.inj (ha2.symm.trans e3)
  have y2 : b2 = 0 := Option.some.inj (hb2.symm.trans e4)
  refine ⟨by decide!, row, hrow, ?_, ?_, c1, c2⟩
  · rw [hs1, x1, y1]
  · rw [hs2, x2, y2]
/-! ## Refined breakpoints and coverage -/

/-- With a valid phase, the breakpoints and both windows inside the vectors,
lines 266-306 return refined offsets inside the vectors, each the original
offset or a position of its window, and in increasing order when the original
offsets are at least 2 apart. -/
theorem refineStage_valid (cfg : Config) (ev : Evidence) (s e : Int) (N : Nat)
    (l1 : ev.sppH1.length = N) (l2 : ev.sppH2.length = N)
    (l3 : ev.bpH1.length = N) (l4 : ev.bpH2.length = N)
    (hv : ev.singlePhasedBlock = true)
    (hs : 0 ≤ s) (hse : s ≤ e) (heN : e < N) (hW : e + cfg.bprefine ≤ N)
    (hN : N < 1073741824) (hclip : s + cfg.bprefine > e - cfg.bprefine → 2 ≤ s + e) :
    ∃ s1 e1 c1 c2, refineStage cfg ev s e = some (s1, e1, c1, c2, ev.uniquePS) ∧
      (s1 = s ∨ ((searchWindows cfg.bprefine s e).1 ≤ s1 ∧
        s1 < (searchWindows cfg.bprefine s e).2.1)) ∧
      (e1 = e ∨ ((searchWindows cfg.bprefine s e).2.2.1 ≤ e1 ∧
        e1 < (searchWindows cfg.bprefine s e).2.2.2)) ∧
      0 ≤ s1 ∧ s1 < N ∧ 0 ≤ e1 ∧ e1 < N ∧ (s + 2 ≤ e → s1 < e1) := by
  obtain ⟨s1, e1, hr, w1, w2⟩ := refine_spec cfg.bprefine ev s e N l1 l2 l3 l4 hs hse heN hW hN
    hclip
  obtain ⟨b1, b2, b3, b4, b5, b6, b7, b8, b9, b10, b11⟩ :=
    searchWindows_bounds cfg.bprefine s e hs hse (by omega) hclip
  have hw := searchWindows_eq cfg.bprefine s e hs hse (by omega)
  have p1 : 0 ≤ s1 := by rcases w1 with h | h <;> omega
  have p2 : s1 < N := by rcases w1 with h | h <;> omega
  have p3 : 0 ≤ e1 := by rcases w2 with h | h <;> omega
  have p4 : e1 < N := by rcases w2 with h | h <;> omega
  have p5 : s + 2 ≤ e → s1 < e1 := by
    intro h2
    by_cases hc : s + cfg.bprefine > e - cfg.bprefine
    · rw [hw, if_pos hc] at w1 w2
      simp only at w1 w2
      rcases w1 with h | h <;> rcases w2 with h' | h' <;> omega
    · rw [hw, if_neg hc] at w1 w2
      simp only at w1 w2
      rcases w1 with h | h <;> rcases w2 with h' | h' <;> omega
  unfold refineStage
  rw [if_pos hv, hr]
  simp only []
  rw [bpCounts_eq ev.bpH1 ev.bpH2 s1 e1 N l3 l4 (by omega) p2 p3 (by omega) (by omega)]
  exact ⟨s1, e1, _, _, rfl, w1, w2, p1, p2, p3, p4, p5⟩

theorem bpCountLoop_lt (bpH1 bpH2 : List Nat) (n i : Nat) (acc r : Nat × Nat)
    (h : bpCountLoop bpH1 bpH2 n i acc = some r)
    (h1 : acc.1 < 18446744073709551616) (h2 : acc.2 < 18446744073709551616) :
    r.1 < 18446744073709551616 ∧ r.2 < 18446744073709551616 := by
  induction n generalizing i acc with
  | zero =>
    simp only [bpCountLoop, Option.some.injEq] at h
    rw [← h]; exact ⟨h1, h2⟩
  | succ n ih =>
    unfold bpCountLoop at h
    cases hx : bpH1[i]? with
    | none => rw [hx] at h; simp at h
    | some x =>
      cases hy : bpH2[i]? with
      | none => rw [hx, hy] at h; simp at h
      | some y =>
        rw [hx, hy] at h
        exact ih (i + 1) _ h (Nat.mod_lt _ (by norm_num)) (Nat.mod_lt _ (by norm_num))

/-- The depth sums left by lines 266-307 are `std::size_t` values. -/
theorem refineStage_counts_lt (cfg : Config) (ev : Evidence) (s e s1 e1 : Int)
    (c1 c2 : Nat) (u : String) (h : refineStage cfg ev s e = some (s1, e1, c1, c2, u)) :
    c1 < 18446744073709551616 ∧ c2 < 18446744073709551616 := by
  unfold refineStage at h
  by_cases hv : ev.singlePhasedBlock = true
  · rw [if_pos hv] at h
    cases hr : refine cfg.bprefine ev s e with
    | none => rw [hr] at h; simp at h
    | some p =>
      rw [hr] at h
      cases hb : bpCounts ev.bpH1 ev.bpH2 p.1 p.2 with
      | none => simp only [hb] at h; simp at h
      | some c =>
        simp only [hb, Option.some.injEq, Prod.mk.injEq] at h
        obtain ⟨_, _, h3, h4, _⟩ := h
        have := bpCountLoop_lt _ _ _ _ _ _ hb (by norm_num) (by norm_num)
        rw [← h3, ← h4]; exact this
  · rw [if_neg hv] at h
    simp only [Option.some.injEq, Prod.mk.injEq] at h
    obtain ⟨_, _, h3, h4, _⟩ := h
    rw [← h3, ← h4]; norm_num

/-- The row exists as soon as lines 266-307 return offsets inside the
vectors; its coverages are the depth sums divided by the interval length. -/
theorem finishRow_of_refineStage (cfg : Config) (ev : Evidence) (s e s1 e1 : Int)
    (c1 c2 : Nat) (u : String) (N : Nat)
    (l1 : ev.sppH1.length = N) (l2 : ev.sppH2.length = N) (hN : N < 2147483648)
    (h : refineStage cfg ev s e = some (s1, e1, c1, c2, u))
    (p1 : 0 ≤ s1) (p2 : s1 < N) (p3 : 0 ≤ e1) (p4 : e1 < N) :
    ∃ row, finishRow cfg ev s e = some row ∧ row.uniquePS = u ∧
      row.covH1 = covDiv c1 (toSizeT (wrapI32 (e1 - s1))) ∧
      row.covH2 = covDiv c2 (toSizeT (wrapI32 (e1 - s1))) := by
  obtain ⟨x1, h1, _⟩ := getElem?_toSizeT ev.sppH1 s1 p1 (by omega) (by omega)
  obtain ⟨y1, h2, _⟩ := getElem?_toSizeT ev.sppH1 e1 p3 (by omega) (by omega)
  obtain ⟨x2, h3, _⟩ := getElem?_toSizeT ev.sppH2 s1 p1 (by omega) (by omega)
  obtain ⟨y2, h4, _⟩ := getElem?_toSizeT ev.sppH2 e1 p3 (by omega) (by omega)
  unfold finishRow
  rw [h]
  simp only [h1, h2, h3, h4]
  exact ⟨_, rfl, rfl, rfl, rfl⟩

/-- For offsets at least 2 apart inside the vectors, with the end window
inside the vectors too, a row is written and its coverages are finite and
non-negative. -/
theorem finishRow_finite (cfg : Config) (ev : Evidence) (s e : Int) (N : Nat)
    (l1 : ev.sppH1.length = N) (l2 : ev.sppH2.length = N)
    (l3 : ev.bpH1.length = N) (l4 : ev.bpH2.length = N)
    (hs : 0 ≤ s) (hse : s + 2 ≤ e) (heN : e < N) (hW : e + cfg.bprefine ≤ N)
    (hN : N < 1073741824) :
    ∃ row, finishRow cfg ev s e = some row ∧ row.covH1.finiteNonneg ∧
      row.covH2.finiteNonneg := by
  by_cases hv : ev.singlePhasedBlock = true
  · obtain ⟨s1, e1, c1, c2, hr, _, _, p1, p2, p3, p4, p5⟩ :=
      refineStage_valid cfg ev s e N l1 l2 l3 l4 hv hs (by omega) heN hW hN (fun _ => by omega)
    obtain ⟨row, hrow, _, k1, k2⟩ := finishRow_of_refineStage cfg ev s e s1 e1 c1 c2 _ N l1 l2
      (by omega) hr p1 p2 p3 p4
    obtain ⟨q1, q2⟩ := refineStage_counts_lt cfg ev s e s1 e1 c1 c2 _ hr
    have hlt := p5 hse
    have hsz : toSizeT (wrapI32 (e1 - s1)) ≠ 0 := by
      rw [wrapI32_of_range _ (by omega) (by omega), toSizeT_of_range _ (by omega) (by omega)]
      omega
    exact ⟨row, hrow, by rw [k1]; exact covDiv_finiteNonneg _ _ hsz q1,
      by rw [k2]; exact covDiv_finiteNonneg _ _ hsz q2⟩
  · have hv0 : ev.singlePhasedBlock = false := by simpa using hv
    have hr : refineStage cfg ev s e = some (s, e, 0, 0, "None") := by
      unfold refineStage; rw [hv0]; rfl
    obtain ⟨row, hrow, _, k1, k2⟩ := finishRow_of_refineStage cfg ev s e s e 0 0 _ N l1 l2
      (by omega) hr hs (by omega) (by omega) heN
    have hsz : toSizeT (wrapI32 (e - s)) ≠ 0 := by
      rw [wrapI32_of_range _ (by omega) (by omega), toSizeT_of_range _ (by omega) (by omega)]
      omega
    exact ⟨row, hrow, by rw [k1]; exact covDiv_finiteNonneg _ _ hsz (by norm_num),
      by rw [k2]; exact covDiv_finiteNonneg _ _ hsz (by norm_num)⟩

/-- Counterexample to C5 (default options): for the deletion with
`rec->pos = 999` and `END = 1000` (offsets 150 and 151) a read `60M 40S` of
haplotype 1 starting at 939 puts a split at offset 150; the end search moves
the end offset to 150, the interval length is 150 - 150 = 0 and both
coverages are `0.0 / 0.0 = NaN`. -/
theorem coverage_finite_counterexample :
    processRegion defaultConfig 999 1000
      [mkRead 939 [(CigarOp.MATCH, 60), (CigarOp.SOFT_CLIP, 40)] 100 30 "7" 1] =
      some { uniquePS := "7", srH1 := 2, covH1 := F64.nan, srH2 := 0, covH2 := F64.nan,
             gtstr := "None", gtcalled := -1 } ∧
    ¬ F64.nan.finiteNonneg := by
  refine ⟨by decide!, fun h => h⟩

/-- C5 (amended). For a deletion with `0 <= pos`, `pos + 2 <= END`, a read
length of at least 1, a refinement radius not above the read length and
coordinates below `2^30` (no `int32_t` computation wraps), every row written
has finite, non-negative coverages; the divisor, refined end offset minus
refined start offset, is positive; and the row is written whenever the records
are well-formed. -/
theorem coverage_finite (cfg : Config) (pos svend : Int) (recs : List Bam1)
    (h0 : 0 ≤ pos) (h2 : pos + 2 ≤ svend) (hr : 1 ≤ cfg.readlen)
    (hW : cfg.bprefine ≤ cfg.readlen) (hb : svend + cfg.readlen < 1073741824) :
    (∀ row, processRegion cfg pos svend recs = some row →
      row.covH1.finiteNonneg ∧ row.covH2.finiteNonneg) ∧
    (∀ ev, collect (regionStartOf cfg pos) (regionEndOf cfg svend) recs
        (initEvidence (regionSizeOf cfg pos svend).toNat) = some ev →
      ∃ s1 e1 c1 c2 u, refineStage cfg ev (wrapI32 (pos - regionStartOf cfg pos))
        (wrapI32 (svend - regionStartOf cfg pos)) = some (s1, e1, c1, c2, u) ∧ s1 < e1) ∧
    ((∀ r ∈ recs, r.wellFormed) → ∃ row, processRegion cfg pos svend recs = some row) := by
  obtain ⟨g1, g2, g3, g4, g5, g6, g7⟩ := region_offsets cfg pos svend h0 (by omega) hr hb
  obtain ⟨i1, i2, i3, i4⟩ := initEvidence_length (regionSizeOf cfg pos svend).toNat
  have key : ∀ ev, collect (regionStartOf cfg pos) (regionEndOf cfg svend) recs
      (initEvidence (regionSizeOf cfg pos svend).toNat) = some ev →
      ∃ row, finishRow cfg ev (wrapI32 (pos - regionStartOf cfg pos))
        (wrapI32 (svend - regionStartOf cfg pos)) = some row ∧
        row.covH1.finiteNonneg ∧ row.covH2.finiteNonneg := by
    intro ev hc
    obtain ⟨l1, l2, l3, l4⟩ := collect_length _ _ _ _ _ hc
    exact finishRow_finite cfg ev _ _ (regionSizeOf cfg pos svend).toNat
      (by rw [l1, i1]) (by rw [l2, i2]) (by rw [l3, i3]) (by rw [l4, i4]) g4 (by omega)
      (by omega) (by omega) g3
  refine ⟨?_, ?_, ?_⟩
  · intro row h
    obtain ⟨ev, hc, hrow⟩ := processRegion_eq cfg pos svend recs row h
    obtain ⟨row1, h1, f1, f2⟩ := key ev hc
    rw [hrow] at h1
    simp only [Option.some.injEq] at h1
    rw [h1]
    exact ⟨f1, f2⟩
  · intro ev hc
    obtain ⟨l1, l2, l3, l4⟩ := collect_length _ _ _ _ _ hc
    by_cases hv : ev.singlePhasedBlock = true
    · obtain ⟨s1, e1, c1, c2, hrs, _, _, _, _, _, _, p5⟩ :=
        refineStage_valid cfg ev (wrapI32 (pos - regionStartOf cfg pos))
          (wrapI32 (svend - regionStartOf cfg pos)) (regionSizeOf cfg pos svend).toNat
          (by rw [l1, i1]) (by rw [l2, i2]) (by rw [l3, i3]) (by rw [l4, i4]) hv g4 g5
          (by omega) (by omega) g3 (fun _ => by omega)
      exact ⟨s1, e1, c1, c2, _, hrs, p5 (by omega)⟩
    · have hv0 : ev.singlePhasedBlock = false := by simpa using hv
      refine ⟨wrapI32 (pos - regionStartOf cfg pos), wrapI32 (svend - regionStartOf cfg pos),
        0, 0, "None", ?_, by omega⟩
      unfold refineStage; rw [hv0]; rfl
  · intro hw
    obtain ⟨ev, hc⟩ := collect_some (regionStartOf cfg pos) (regionEndOf cfg svend) recs
      (initEvidence (regionSizeOf cfg pos svend).toNat) (regionSizeOf cfg pos svend).toNat
      i1 i2 i3 i4 g2 (by omega) hw
    obtain ⟨row, h1, _, _⟩ := key ev hc
    exact ⟨row, by rw [processRegion_of_collect cfg pos svend recs ev g1 hc]; exact h1⟩

/-- Witness for C5 (amended): the deletion 1000..1010 with one 30-base read. -/
theorem coverage_finite_witness :
    ∃ row, processRegion defaultConfig 1000 1010
      [mkRead 990 [(CigarOp.MATCH, 30)] 30 30 "7" 1] = some row :=
  (coverage_finite defaultConfig 1000 1010 [mkRead 990 [(CigarOp.MATCH, 30)] 30 30 "7" 1]
    (by decide) (by decide) (by decide) (by decide) (by decide)).2.2 (by decide)

/-- The failing input of C6: with read length 150 and refinement radius 200
the deletion 1000..1010 has vectors of 310 entries and offsets 150 and 160;
the end search runs over the offsets 155..359 and reads past the end of the
split vector, so the execution leaves defined behaviour. -/
theorem refinement_reads_out_of_bounds :
    regionSizeOf { readlen := 150, bprefine := 200, srsupport := 2, coverage := F64.fin 30 } 1000 1010 =
      310 ∧
    searchWindows 200 150 160 = (0, 154, 155, 360) ∧
    processRegion { readlen := 150, bprefine := 200, srsupport := 2, coverage := F64.fin 30 } 1000 1010
      [] = none := by
  decide!

/-- Counterexample to C7 (default options): the deletion with `rec->pos = 999`
and `END = 1000` has the offsets 150 and 151; the clipped start window is the
range 125..148 (bounds 125 and 149), and with an empty split histogram the
refined start offset stays 150, outside that window. -/
theorem refined_in_window_counterexample :
    wrapI32 (999 - regionStartOf defaultConfig 999) = 150 ∧
    wrapI32 (1000 - regionStartOf defaultConfig 999) = 151 ∧
    searchWindows 25 150 151 = (125, 149, 150, 176) ∧
    refine 25 (initEvidence 301) 150 151 = some (150, 151) ∧
    ¬ ((125 : Int) ≤ 150 ∧ (150 : Int) ≤ 149) := by
  decide!

/-- C7 (amended). When the breakpoint offsets and both search windows lie
inside the vectors, the refinement returns a start offset that is the original
start offset or a position of the start window, and an end offset that is the
original end offset or a position of the end window (the windows being the
ranges scanned after clipping); both stay within the radius of their original
offset. -/
theorem refined_in_window (W : Nat) (ev : Evidence) (s e : Int) (N : Nat)
    (l1 : ev.sppH1.length = N) (l2 : ev.sppH2.length = N)
    (l3 : ev.bpH1.length = N) (l4 : ev.bpH2.length = N)
    (hs : 0 ≤ s) (hse : s ≤ e) (heN : e < N) (hW : e + W ≤ N) (hN : N < 1073741824)
    (hclip : s + W > e - W → 2 ≤ s + e) :
    ∃ s1 e1, refine W ev s e = some (s1, e1) ∧
      (s1 = s ∨ ((searchWindows W s e).1 ≤ s1 ∧ s1 < (searchWindows W s e).2.1)) ∧
      (e1 = e ∨ ((searchWindows W s e).2.2.1 ≤ e1 ∧ e1 < (searchWindows W s e).2.2.2)) ∧
      s - W ≤ s1 ∧ s1 ≤ s + W ∧ e - W ≤ e1 ∧ e1 ≤ e + W := by
  obtain ⟨s1, e1, hr, w1, w2⟩ := refine_spec W ev s e N l1 l2 l3 l4 hs hse heN hW hN hclip
  obtain ⟨b1, b2, b3, b4, b5, b6, b7, b8, b9, b10, b11⟩ :=
    searchWindows_bounds W s e hs hse (by omega) hclip
  refine ⟨s1, e1, hr, w1, w2, ?_, ?_, ?_, ?_⟩
  · rcases w1 with h | h <;> omega
  · rcases w1 with h | h <;> omega
  · rcases w2 with h | h <;> omega
  · rcases w2 with h | h <;> omega

/-- Witness for C7 (amended): offsets 150 and 160 in vectors of 310 entries,
radius 25, with 3 splits at offset 140 and 2 splits at offset 170 in the
histogram of haplotype 1: the scanned ranges are 125..153 and 155..184, the
start moves to 140 and the end to 170, each inside its window. -/
theorem refined_in_window_witness :
    (∃ s1 e1, refine 25
        { sppH1 := ((List.replicate 310 0).set 140 3).set 170 2,
          sppH2 := List.replicate 310 0, bpH1 := List.replicate 310 0,
          bpH2 := List.replicate 310 0, uniquePS := "7", psSet := true,
          singlePhasedBlock := true } 150 160 = some (s1, e1) ∧
      (s1 = 150 ∨ ((searchWindows 25 150 160).1 ≤ s1 ∧ s1 < (searchWindows 25 150 160).2.1)) ∧
      (e1 = 160 ∨ ((searchWindows 25 150 160).2.2.1 ≤ e1 ∧
        e1 < (searchWindows 25 150 160).2.2.2)) ∧
      150 - ((25 : Nat) : Int) ≤ s1 ∧ s1 ≤ 150 + ((25 : Nat) : Int) ∧
      160 - ((25 : Nat) : Int) ≤ e1 ∧ e1 ≤ 160 + ((25 : Nat) : Int)) ∧
    refine 25
        { sppH1 := ((List.replicate 310 0).set 140 3).set 170 2,
          sppH2 := List.replicate 310 0, bpH1 := List.replicate 310 0,
          bpH2 := List.replicate 310 0, uniquePS := "7", psSet := true,
          singlePhasedBlock := true } 150 160 = some (140, 170) ∧
    searchWindows 25 150 160 = (125, 154, 155, 185) :=
  ⟨refined_in_window 25
    { sppH1 := ((List.replicate 310 0).set 140 3).set 170 2,
      sppH2 := List.replicate 310 0, bpH1 := List.replicate 310 0,
      bpH2 := List.replicate 310 0, uniquePS := "7", psSet := true,
      singlePhasedBlock := true } 150 160 310
    (by simp only [List.length_set, List.length_replicate]) (List.length_replicate 310 0)
    (List.length_replicate 310 0) (List.length_replicate 310 0)
    (by decide) (by decide) (by decide) (by decide) (by decide) (by decide),
   by decide!, by decide!⟩

/-! ## addBpCounts -/

theorem vecIncr_getD (v v1 : List Nat) (i : Nat) (h : vecIncr v i = some v1) (j : Nat) :
    v1.getD j 0 = if j = i then (v.getD j 0 + 1) % 4294967296 else v.getD j 0 := by
  unfold vecIncr at h
  cases hx : v[i]? with
  | none => rw [hx] at h; simp at h
  | some x =>
    rw [hx] at h
    simp only [Option.some.injEq] at h
    have hi : i < v.length := by
      by_contra hc
      rw [List.getElem?_eq_none (by omega)] at hx
      simp at hx
    rw [← h, List.getD_eq_getElem?_getD, List.getD_eq_getElem?_getD, List.getElem?_set]
    by_cases hj : j = i
    · subst hj
      simp [hi, hx]
    · have hj' : ¬ i = j := fun e => hj e.symm
      simp [hj, hj']

theorem matchCovered_ge (ops : List (CigarOp × Nat)) (cursor p : Int)
    (h : matchCovered ops cursor p = true) : cursor ≤ p := by
  induction ops generalizing cursor with
  | nil => simp [matchCovered] at h
  | cons c cs ih =>
    simp only [matchCovered] at h
    split_ifs at h with h1 h2
    · simp only [Bool.or_eq_true, decide_eq_true_eq] at h
      rcases h with h | h
      · exact h.1
      · have := ih _ h; omega
    · have := ih _ h; omega
    · exact ih _ h

/-- Effect of the inner loop of `addBpCounts` on a vector as long as the
window, for a cursor that stays in the `int32_t` range. -/
theorem matchLoop_effect (regionStart regionEnd : Int) (k : Nat) (bpPos : Int) (bp : List Nat)
    (hlen : (bp.length : Int) = regionEnd - regionStart) (hL : bp.length < 2147483648)
    (hlo : -2147483648 ≤ bpPos) (hhi : bpPos + k < 2147483648) :
    ∃ bp1, matchLoop regionStart regionEnd k bpPos bp = some (bpPos + k, bp1) ∧
      bp1.length = bp.length ∧
      ∀ j, j < bp.length → bp1.getD j 0 =
        if bpPos ≤ regionStart + j ∧ regionStart + j < bpPos + k
        then (bp.getD j 0 + 1) % 4294967296 else bp.getD j 0 := by
  induction k generalizing bpPos bp with
  | zero =>
    refine ⟨bp, by simp [matchLoop], rfl, ?_⟩
    intro j _
    rw [if_neg (by push_cast; omega)]
  | succ k ih =>
    have hw : wrapI32 (bpPos + 1) = bpPos + 1 :=
      wrapI32_of_range _ (by omega) (by push_cast at hhi; omega)
    simp only [matchLoop, hw]
    by_cases hg : regionStart ≤ bpPos ∧ bpPos < regionEnd
    · rw [if_pos hg]
      have hidx : toSizeT (wrapI32 (bpPos - regionStart)) = (bpPos - regionStart).toNat := by
        rw [wrapI32_of_range _ (by omega) (by omega), toSizeT_of_range _ (by omega) (by omega)]
      obtain ⟨v1, hv, hvl⟩ := vecIncr_some bp (toSizeT (wrapI32 (bpPos - regionStart)))
        (by rw [hidx]; omega)
      rw [hv]
      obtain ⟨bp1, e, hl1, hall⟩ := ih (bpPos + 1) v1 (by rw [hvl]; exact hlen) (by omega)
        (by omega) (by push_cast at hhi ⊢; omega)
      refine ⟨bp1, ?_, by omega, ?_⟩
      · simp only []
        rw [e]
        congr 2
        push_cast; omega
      · intro j hj
        rw [hall j (by omega), vecIncr_getD bp v1 _ hv j, hidx]
        by_cases hji : j = (bpPos - regionStart).toNat
        · rw [if_pos hji, if_neg (by omega), if_pos (by push_cast; omega)]
        · rw [if_neg hji]
          by_cases hc : bpPos + 1 ≤ regionStart + j ∧ regionStart + j < bpPos + 1 + k
          · rw [if_pos hc, if_pos (by push_cast; omega)]
          · rw [if_neg hc, if_neg (by push_cast; omega)]
    · rw [if_neg hg]
      obtain ⟨bp1, e, hl1, hall⟩ := ih (bpPos + 1) bp hlen hL (by omega)
        (by push_cast at hhi ⊢; omega)
      refine ⟨bp1, ?_, hl1, ?_⟩
      · rw [e]
        congr 2
        push_cast; omega
      · intro j hj
        rw [hall j hj]
        by_cases hc : bpPos + 1 ≤ regionStart + j ∧ regionStart + j < bpPos + 1 + k
        · rw [if_pos hc, if_pos (by push_cast; omega)]
        · rw [if_neg hc, if_neg (by push_cast; omega)]

/-- Effect of the loop of `addBpCounts` over the operations `ops` from the
cursor `bpPos`. -/
theorem bpLoop_effect (regionStart regionEnd : Int) (ops : List (CigarOp × Nat)) (bpPos : Int)
    (bp : List Nat)
    (hlen : (bp.length : Int) = regionEnd - regionStart) (hL : bp.length < 2147483648)
    (hlo : -2147483648 ≤ bpPos) (hhi : bpPos + cursorSpan ops < 2147483648) :
    ∃ bp1, bpLoop regionStart regionEnd ops bpPos bp = some bp1 ∧ bp1.length = bp.length ∧
      ∀ j, j < bp.length → bp1.getD j 0 =
        if matchCovered ops bpPos (regionStart + j) = true
        then (bp.getD j 0 + 1) % 4294967296 else bp.getD j 0 := by
  induction ops generalizing bpPos bp with
  | nil =>
    refine ⟨bp, rfl, rfl, ?_⟩
    intro j _
    simp [matchCovered]
  | cons c cs ih =>
    simp only [bpLoop, matchCovered]
    by_cases h1 : c.1 = CigarOp.MATCH
    · have hs : cursorSpan (c :: cs) = c.2 + cursorSpan cs := by
        simp only [cursorSpan]; rw [if_pos (Or.inl h1)]
      rw [hs] at hhi
      simp only [h1, if_true]
      obtain ⟨v1, hm, hl1, hall1⟩ := matchLoop_effect regionStart regionEnd c.2 bpPos bp hlen hL
        hlo (by push_cast at hhi; omega)
      rw [hm]
      obtain ⟨bp1, e, hl2, hall2⟩ := ih (bpPos + c.2) v1 (by rw [hl1]; exact hlen) (by omega)
        (by omega) (by push_cast at hhi; omega)
      refine ⟨bp1, e, by omega, ?_⟩
      intro j hj
      rw [hall2 j (by omega), hall1 j hj]
      by_cases hc : matchCovered cs (bpPos + c.2) (regionStart + j) = true
      · have hge := matchCovered_ge cs _ _ hc
        rw [if_pos hc, if_neg (by omega), if_pos (by simp [hc])]
      · by_cases hin : bpPos ≤ regionStart + j ∧ regionStart + j < bpPos + c.2
        · rw [if_neg hc, if_pos hin, if_pos (by simp [hin])]
        · rw [if_neg hc, if_neg hin, if_neg (by simp [hc, hin])]
    · by_cases h2 : c.1 = CigarOp.REF_SKIP ∨ c.1 = CigarOp.DEL
      · have h3 : c.1 = CigarOp.MATCH ∨ c.1 = CigarOp.REF_SKIP ∨ c.1 = CigarOp.DEL :=
          Or.inr h2
        have hs : cursorSpan (c :: cs) = c.2 + cursorSpan cs := by
          simp only [cursorSpan]; rw [if_pos h3]
        rw [hs] at hhi
        simp only [h1, h2, if_true, if_false]
        rw [wrapI32_of_range _ (by omega) (by push_cast at hhi; omega)]
        exact ih (bpPos + c.2) bp hlen hL (by omega) (by push_cast at hhi; omega)
      · have h3 : ¬ (c.1 = CigarOp.MATCH ∨ c.1 = CigarOp.REF_SKIP ∨ c.1 = CigarOp.DEL) := by
          rintro (h | h)
          · exact h1 h
          · exact h2 h
        have hs : cursorSpan (c :: cs) = cursorSpan cs := by
          simp only [cursorSpan]; rw [if_neg h3]
        rw [hs] at hhi
        simp only [h1, h2, if_false]
        exact ih bpPos bp hlen hL hlo hhi

/-- C11. On a depth vector as long as the window `regionStart..regionEnd`
(with the reference cursor inside the `int32_t` range), `addBpCounts` returns
the vector unchanged when the record starts at or past `regionEnd`; in every
case it stays inside the vector, keeps its length, and changes the entry at
offset `j` exactly when the reference position `regionStart + j` is covered by
a match operation (cursor starting at the record's start, advancing over
match, deletion and reference-skip operations only): that entry is increased
by 1 as a `uint32_t`, so by exactly 1 below `2^32 - 1`; every other entry is
unchanged. -/
theorem addBpCounts_effect (rec : Bam1) (regionStart regionEnd : Int) (bp : List Nat)
    (hlen : (bp.length : Int) = regionEnd - regionStart) (hL : bp.length < 2147483648)
    (hlo : -2147483648 ≤ rec.pos) (hhi : rec.pos + cursorSpan rec.cigar < 2147483648) :
    (regionEnd ≤ rec.pos → addBpCounts rec regionStart regionEnd bp = some bp) ∧
    ∃ bp1, addBpCounts rec regionStart regionEnd bp = some bp1 ∧ bp1.length = bp.length ∧
      (∀ j, j < bp.length → bp1.getD j 0 =
        if matchCovered rec.cigar rec.pos (regionStart + j) = true
        then (bp.getD j 0 + 1) % 4294967296 else bp.getD j 0) ∧
      (∀ j, j < bp.length → matchCovered rec.cigar rec.pos (regionStart + j) = true →
        bp.getD j 0 < 4294967295 → bp1.getD j 0 = bp.getD j 0 + 1) := by
  have key : ∃ bp1, addBpCounts rec regionStart regionEnd bp = some bp1 ∧
      bp1.length = bp.length ∧
      (∀ j, j < bp.length → bp1.getD j 0 =
        if matchCovered rec.cigar rec.pos (regionStart + j) = true
        then (bp.getD j 0 + 1) % 4294967296 else bp.getD j 0) := by
    unfold addBpCounts
    by_cases hp : rec.pos ≥ regionEnd
    · rw [if_pos hp]
      refine ⟨bp, rfl, rfl, ?_⟩
      intro j hj
      by_cases hc : matchCovered rec.cigar rec.pos (regionStart + j) = true
      · have := matchCovered_ge _ _ _ hc
        omega
      · rw [if_neg hc]
    · rw [if_neg hp]
      exact bpLoop_effect regionStart regionEnd rec.cigar rec.pos bp hlen hL hlo hhi
  refine ⟨?_, ?_⟩
  · intro hp
    unfold addBpCounts
    rw [if_pos hp]
  · obtain ⟨bp1, e, hl, hall⟩ := key
    refine ⟨bp1, e, hl, hall, ?_⟩
    intro j hj hc hx
    rw [hall j hj, if_pos hc, Nat.mod_eq_of_lt (by omega)]

/-- Witness for C11: the read `4M 2D 3M 2I 1S` starting at 103 in the window
100..111 covers the positions 103..106 and 109..111. -/
theorem addBpCounts_effect_witness :
    addBpCounts
      { pos := 103, flag := 0,
        cigar := [(CigarOp.MATCH, 4), (CigarOp.DEL, 2), (CigarOp.MATCH, 3), (CigarOp.INS, 2),
          (CigarOp.SOFT_CLIP, 1)],
        qual := List.replicate 10 30, ps := none, hp := none } 100 112
      (List.replicate 12 0) = some [0, 0, 0, 1, 1, 1, 1, 0, 0, 1, 1, 1] ∧
    ∃ bp1, addBpCounts
        { pos := 103, flag := 0,
          cigar := [(CigarOp.MATCH, 4), (CigarOp.DEL, 2), (CigarOp.MATCH, 3), (CigarOp.INS, 2),
            (CigarOp.SOFT_CLIP, 1)],
          qual := List.replicate 10 30, ps := none, hp := none } 100 112
        (List.replicate 12 0) = some bp1 ∧ bp1.length = (List.replicate 12 0).length ∧
      (∀ j, j < (List.replicate 12 0).length → bp1.getD j 0 =
        if matchCovered [(CigarOp.MATCH, 4), (CigarOp.DEL, 2), (CigarOp.MATCH, 3),
            (CigarOp.INS, 2), (CigarOp.SOFT_CLIP, 1)] 103 (100 + j) = true
        then ((List.replicate 12 0).getD j 0 + 1) % 4294967296
        else (List.replicate 12 0).getD j 0) ∧
      (∀ j, j < (List.replicate 12 0).length →
        matchCovered [(CigarOp.MATCH, 4), (CigarOp.DEL, 2), (CigarOp.MATCH, 3),
            (CigarOp.INS, 2), (CigarOp.SOFT_CLIP, 1)] 103 (100 + j) = true →
        (List.replicate 12 0).getD j 0 < 4294967295 →
        bp1.getD j 0 = (List.replicate 12 0).getD j 0 + 1) :=
  ⟨by decide,
    (addBpCounts_effect
      { pos := 103, flag := 0,
        cigar := [(CigarOp.MATCH, 4), (CigarOp.DEL, 2), (CigarOp.MATCH, 3), (CigarOp.INS, 2),
          (CigarOp.SOFT_CLIP, 1)],
        qual := List.replicate 10 30, ps := none, hp := none } 100 112
      (List.replicate 12 0) (by decide) (by decide) (by decide) (by decide)).2⟩

/-! ## Quality indices read by splitPoint -/

theorem runState_bound_mis (ops : List (CigarOp × Nat)) (s : Nat × Nat) :
    (runState ops s).1 + (runState ops s).2 ≤ s.1 + s.2 + misLen ops := by
  induction ops generalizing s with
  | nil => simp [runState, misLen]
  | cons c cs ih =>
    obtain ⟨op, n⟩ := c
    cases op <;> simp only [runState, misLen] <;> simp <;>
      first
      | (refine le_trans (ih _) ?_; simp; omega)
      | (refine le_trans (ih _) ?_; omega)

theorem misLen_append (xs ys : List (CigarOp × Nat)) :
    misLen (xs ++ ys) = misLen xs + misLen ys := by
  induction xs with
  | nil => simp [misLen]
  | cons c cs ih =>
    show misLen (c :: (cs ++ ys)) = misLen (c :: cs) + misLen ys
    simp only [misLen]
    rw [ih]
    split_ifs <;> omega

theorem misLen_single (pre post : List (CigarOp × Nat)) (n : Nat) :
    misLen (pre ++ (CigarOp.SOFT_CLIP, n) :: post) = misLen pre + (n + misLen post) := by
  rw [misLen_append]
  simp [misLen]

theorem wrapU32_le (x : Nat) : wrapU32 (x : Int) ≤ x := by
  unfold wrapU32; omega

/-- C20. On a record with exactly one soft clip, of length `n`, whose quality
array is as long as the summed lengths of its match, insertion and soft-clip
operations, every index from the running length up to, but excluding, the
running length plus `n` lies inside the quality array; the quality loop of
line 75 ends without reading outside the array; and for `n >= 1` the division
of line 76 is defined, so `splitPoint` returns a result. -/
theorem splitPoint_reads_in_bounds (rec : Bam1) (pre post : List (CigarOp × Nat)) (n : Nat)
    (clipSize split : Int) (qualCut : Nat)
    (hc : rec.cigar = pre ++ (CigarOp.SOFT_CLIP, n) :: post)
    (hpre : numSoftClip pre = 0) (hpost : numSoftClip post = 0)
    (hq : rec.qual.length = misLen rec.cigar) :
    (∀ i, runningLen pre ≤ i → i < runningLen pre + n → i < rec.qual.length) ∧
    (∃ s, qualSumLoop rec.qual (wrapU32 ((runningLen pre : Int) + (n : Int)) - runningLen pre)
      (runningLen pre) 0 = some s) ∧
    (1 ≤ n → ∃ b, splitPoint rec clipSize split qualCut =
      some (b, (n : Int), wrapI32 (rec.pos + runningLen pre))) := by
  have hle : runningLen pre ≤ misLen pre := by
    have := runState_bound_mis pre (0, 0)
    unfold runningLen
    simp only [Nat.zero_add] at this
    omega
  have hml : misLen rec.cigar = misLen pre + (n + misLen post) := by
    rw [hc]; exact misLen_single pre post n
  have hfuel : wrapU32 ((runningLen pre : Int) + (n : Int)) - runningLen pre ≤ n := by
    have h := wrapU32_le (runningLen pre + n)
    push_cast at h
    omega
  have hloop := qualSumLoop_eq rec.qual
    (wrapU32 ((runningLen pre : Int) + (n : Int)) - runningLen pre) (runningLen pre) 0
    (by omega) (by norm_num)
  refine ⟨fun i _ h2 => by omega, ⟨_, hloop⟩, ?_⟩
  intro hn
  have h1 : numSoftClip rec.cigar = 1 := by rw [hc]; exact numSoftClip_single pre post n hpre hpost
  have hn0 : n ≠ 0 := by omega
  unfold splitPoint
  simp only [h1, ne_eq, not_true_eq_false, if_false]
  rw [hc, splitLoop_single rec pre post n _ hpre hpost]
  unfold runningLen at hloop ⊢
  dsimp only
  rw [hloop]
  simp [hn0]

/-- Witness for C20: the read `10M 5I 10M 5S` with 30 base qualities. -/
theorem splitPoint_reads_in_bounds_witness :
    ∃ b, splitPoint
      { pos := 100, flag := 0,
        cigar := [(CigarOp.MATCH, 10), (CigarOp.INS, 5), (CigarOp.MATCH, 10),
          (CigarOp.SOFT_CLIP, 5)],
        qual := List.replicate 30 30, ps := none, hp := none } (-1) (-1) 20 =
      some (b, ((5 : Nat) : Int),
        wrapI32 ((100 : Int) +
          runningLen [(CigarOp.MATCH, 10), (CigarOp.INS, 5), (CigarOp.MATCH, 10)])) :=
  (splitPoint_reads_in_bounds
    { pos := 100, flag := 0,
      cigar := [(CigarOp.MATCH, 10), (CigarOp.INS, 5), (CigarOp.MATCH, 10),
        (CigarOp.SOFT_CLIP, 5)],
      qual := List.replicate 30 30, ps := none, hp := none }
    [(CigarOp.MATCH, 10), (CigarOp.INS, 5), (CigarOp.MATCH, 10)] [] 5 (-1) (-1) 20
    rfl (by decide) (by decide) (by decide)).2.2 (by decide)

/-! ## Frame properties of the read scan -/

/-- C12. When the records `pre` are scanned without a phase conflict, leaving
a phase identifier adopted, and the next record `r` passes the filters with a
different phase tag, the scan of `pre ++ [r] ++ rest` marks the phase invalid
and returns the four evidence vectors (and the identifier) exactly as the scan
of `pre` alone left them: `r` and the records of `rest` contribute nothing and
nothing accumulated from `pre` is discarded. -/
theorem conflict_keeps_evidence (regionStart regionEnd : Int) (pre rest : List Bam1)
    (r : Bam1) (p : String) (st ev0 : Evidence)
    (hpre : collect regionStart regionEnd pre st = some ev0)
    (hv : ev0.singlePhasedBlock = true)
    (hf : flagExcluded r = false ∧ ¬ r.pos < regionStart)
    (hp : r.ps = some p) (hset : ev0.psSet = true) (hne : p ≠ ev0.uniquePS) :
    ∃ ev, collect regionStart regionEnd (pre ++ [r] ++ rest) st = some ev ∧
      ev.singlePhasedBlock = false ∧
      ev.bpH1 = ev0.bpH1 ∧ ev.bpH2 = ev0.bpH2 ∧
      ev.sppH1 = ev0.sppH1 ∧ ev.sppH2 = ev0.sppH2 ∧ ev.uniquePS = ev0.uniquePS := by
  refine ⟨{ ev0 with singlePhasedBlock := false }, ?_, rfl, rfl, rfl, rfl, rfl, rfl⟩
  rw [List.append_assoc, collect_append _ _ pre ([r] ++ rest) _ ev0 hpre hv]
  exact collect_conflict _ _ r rest ev0 p hf hp hset hne

/-- Witness for C12: a read of phase block "7" followed by one of phase block
"9" and a further read, in a window of 40 positions starting at 100. -/
theorem conflict_keeps_evidence_witness :
    ∃ ev, collect 100 140
        ([mkRead 105 [(CigarOp.MATCH, 10)] 10 30 "7" 1] ++
          [mkRead 110 [(CigarOp.MATCH, 10)] 10 30 "9" 2] ++
          [mkRead 112 [(CigarOp.MATCH, 10)] 10 30 "9" 2]) (initEvidence 40) = some ev ∧
      ev.singlePhasedBlock = false ∧
      ev.bpH1 = (List.replicate 5 0 ++ List.replicate 10 1 ++ List.replicate 25 0) ∧
      ev.bpH2 = List.replicate 40 0 ∧
      ev.sppH1 = List.replicate 40 0 ∧ ev.sppH2 = List.replicate 40 0 ∧
      ev.uniquePS = "7" :=
  conflict_keeps_evidence 100 140 [mkRead 105 [(CigarOp.MATCH, 10)] 10 30 "7" 1]
    [mkRead 112 [(CigarOp.MATCH, 10)] 10 30 "9" 2]
    (mkRead 110 [(CigarOp.MATCH, 10)] 10 30 "9" 2) "9" (initEvidence 40)
    { sppH1 := List.replicate 40 0, sppH2 := List.replicate 40 0,
      bpH1 := List.replicate 5 0 ++ List.replicate 10 1 ++ List.replicate 25 0,
      bpH2 := List.replicate 40 0, uniquePS := "7", psSet := true, singlePhasedBlock := true }
    (by decide) rfl (by decide) rfl rfl (by decide)

/-- Two streams that continue alike after a common beginning are scanned
alike. -/
theorem collect_congr_tail (regionStart regionEnd : Int) (xs a b : List Bam1) (st : Evidence)
    (h : ∀ st1, collect regionStart regionEnd a st1 = collect regionStart regionEnd b st1) :
    collect regionStart regionEnd (xs ++ a) st = collect regionStart regionEnd (xs ++ b) st := by
  induction xs generalizing st with
  | nil => exact h st
  | cons r rs ih =>
    rcases collect_cons_cases regionStart regionEnd r rs st with
      ⟨hs, _⟩ | ⟨p, hf, hp, hset, hne, _⟩ | ⟨p, hf, hp, hok, hh, _⟩ | ⟨p, hap, hf, hp, hok, hh, _⟩
    · rw [List.cons_append, List.cons_append, collect_skip _ _ _ _ _ hs,
        collect_skip _ _ _ _ _ hs]
      exact ih st
    · rw [List.cons_append, List.cons_append, collect_conflict _ _ _ _ _ p hf hp hset hne,
        collect_conflict _ _ _ _ _ p hf hp hset hne]
    · rw [List.cons_append, List.cons_append, collect_untagged _ _ _ _ _ p hf hp hok hh,
        collect_untagged _ _ _ _ _ p hf hp hok hh]
      exact ih _
    · rw [List.cons_append, List.cons_append, collect_evidence _ _ _ _ _ p hap hf hp hok hh,
        collect_evidence _ _ _ _ _ p hap hf hp hok hh]
      cases addEvidence regionStart regionEnd r hap (adoptPS st p) with
      | none => rfl
      | some st2 => exact ih st2

theorem adoptPS_same (st : Evidence) (h : st.psSet = true) (p : String) : adoptPS st p = st := by
  unfold adoptPS
  rw [if_pos h]

/-- Counterexample to C13 (window 100..139): the first record carries the
phase tag "7" and no haplotype tag, the second the phase tag "9" and haplotype
1.  With the first record the scan ends in a phase conflict and the depth
vectors stay empty; without it the second record is counted for haplotype 1
and the phase stays valid. -/
theorem untagged_record_removal_counterexample :
    collect 100 140
      [{ pos := 105, flag := 0, cigar := [(CigarOp.MATCH, 10)], qual := List.replicate 10 30,
         ps := some "7", hp := none },
       mkRead 110 [(CigarOp.MATCH, 10)] 10 30 "9" 1] (initEvidence 40) =
      some { sppH1 := List.replicate 40 0, sppH2 := List.replicate 40 0,
             bpH1 := List.replicate 40 0, bpH2 := List.replicate 40 0,
             uniquePS := "7", psSet := true, singlePhasedBlock := false } ∧
    collect 100 140 [mkRead 110 [(CigarOp.MATCH, 10)] 10 30 "9" 1] (initEvidence 40) =
      some { sppH1 := List.replicate 40 0, sppH2 := List.replicate 40 0,
             bpH1 := List.replicate 10 0 ++ List.replicate 10 1 ++ List.replicate 20 0,
             bpH2 := List.replicate 40 0,
             uniquePS := "9", psSet := true, singlePhasedBlock := true } := by
  decide

/-- C13 (amended). Removing from a record stream a record without phase-block
tag leaves the result of the scan unchanged.  A record with a phase-block tag
and without haplotype tag adds nothing to the four evidence vectors, but it
takes part in the phase check: it is skipped, or sets the phase identifier, or
ends the scan by a phase conflict; removing it leaves the result unchanged
when the identifier adopted before it is scanned equals its tag. -/
theorem untagged_record_removal (regionStart regionEnd : Int) (xs ys : List Bam1) (r : Bam1)
    (st : Evidence) :
    (r.ps = none →
      collect regionStart regionEnd (xs ++ r :: ys) st =
        collect regionStart regionEnd (xs ++ ys) st) ∧
    (r.hp = none → ∀ p st1, r.ps = some p → collect regionStart regionEnd xs st = some st1 →
      st1.singlePhasedBlock = true → st1.psSet = true → st1.uniquePS = p →
      collect regionStart regionEnd (xs ++ r :: ys) st =
        collect regionStart regionEnd (xs ++ ys) st) ∧
    (r.hp = none → ∀ st1,
      collect regionStart regionEnd (r :: ys) st1 = collect regionStart regionEnd ys st1 ∨
      ∃ p, r.ps = some p ∧
        (collect regionStart regionEnd (r :: ys) st1 =
            collect regionStart regionEnd ys (adoptPS st1 p) ∨
          collect regionStart regionEnd (r :: ys) st1 =
            some { st1 with singlePhasedBlock := false })) := by
  refine ⟨?_, ?_, ?_⟩
  · intro hps
    exact collect_congr_tail _ _ xs (r :: ys) ys st
      (fun st1 => collect_skip _ _ r ys st1 (Or.inr hps))
  · intro hh p st1 hp hxs hv hset hu
    rw [collect_append _ _ xs (r :: ys) st st1 hxs hv, collect_append _ _ xs ys st st1 hxs hv]
    by_cases hf : passesFilters regionStart r
    · rw [collect_untagged _ _ r ys st1 p hf hp (by rw [hu]; simp) hh, adoptPS_same st1 hset]
    · exact collect_skip _ _ r ys st1 (Or.inl hf)
  · intro hh st1
    rcases collect_cons_cases regionStart regionEnd r ys st1 with
      ⟨_, e⟩ | ⟨p, _, hp, _, _, e⟩ | ⟨p, _, hp, _, _, e⟩ | ⟨p, hap, _, _, _, hhp, _⟩
    · exact Or.inl e
    · exact Or.inr ⟨p, hp, Or.inr e⟩
    · exact Or.inr ⟨p, hp, Or.inl e⟩
    · rw [hh] at hhp; simp at hhp

/-- Witness for C13 (amended): a record without phase-block tag between two
reads of phase block "7". -/
theorem untagged_record_removal_witness :
    collect 100 140
      ([mkRead 105 [(CigarOp.MATCH, 10)] 10 30 "7" 1] ++
        { pos := 108, flag := 0, cigar := [(CigarOp.MATCH, 10)], qual := List.replicate 10 30,
          ps := none, hp := some 1 } ::
        [mkRead 110 [(CigarOp.MATCH, 10)] 10 30 "7" 2]) (initEvidence 40) =
    collect 100 140
      ([mkRead 105 [(CigarOp.MATCH, 10)] 10 30 "7" 1] ++
        [mkRead 110 [(CigarOp.MATCH, 10)] 10 30 "7" 2]) (initEvidence 40) :=
  (untagged_record_removal 100 140 [mkRead 105 [(CigarOp.MATCH, 10)] 10 30 "7" 1]
    [mkRead 110 [(CigarOp.MATCH, 10)] 10 30 "7" 2]
    { pos := 108, flag := 0, cigar := [(CigarOp.MATCH, 10)], qual := List.replicate 10 30,
      ps := none, hp := some 1 } (initEvidence 40)).1 rfl

/-! ## Routing of the evidence by haplotype -/

theorem addEvidence_hap1 (regionStart regionEnd : Int) (r : Bam1) (st : Evidence) :
    addEvidence regionStart regionEnd r 1 st =
      (contribute regionStart regionEnd r st.bpH1 st.sppH1).map
        (fun x => { st with bpH1 := x.1, sppH1 := x.2 }) := by
  unfold addEvidence contribute
  simp only [if_true]
  cases addBpCounts r regionStart regionEnd st.bpH1 with
  | none => rfl
  | some bp =>
    simp only []
    cases splitPoint r (-1) (-1) 20 with
    | none => rfl
    | some t =>
      obtain ⟨ok, clipSize, split⟩ := t
      simp only []
      split_ifs
      · rfl
      · cases vecIncr st.sppH1 (toSizeT (wrapI32 (split - regionStart))) with
        | none => rfl
        | some v => rfl
      · rfl
      · rfl
      · rfl

theorem addEvidence_hap2 (regionStart regionEnd : Int) (r : Bam1) (hap : Int) (st : Evidence)
    (h : hap ≠ 1) :
    addEvidence regionStart regionEnd r hap st =
      (contribute regionStart regionEnd r st.bpH2 st.sppH2).map
        (fun x => { st with bpH2 := x.1, sppH2 := x.2 }) := by
  unfold addEvidence contribute
  simp only [h, if_false]
  cases addBpCounts r regionStart regionEnd st.bpH2 with
  | none => rfl
  | some bp =>
    simp only []
    cases splitPoint r (-1) (-1) 20 with
    | none => rfl
    | some t =>
      obtain ⟨ok, clipSize, split⟩ := t
      simp only []
      split_ifs
      · rfl
      · cases vecIncr st.sppH2 (toSizeT (wrapI32 (split - regionStart))) with
        | none => rfl
        | some v => rfl
      · rfl
      · rfl
      · rfl

theorem adoptPS_eq (st : Evidence) (p : String)
    (hok : ¬ (st.psSet = true ∧ p ≠ st.uniquePS)) :
    adoptPS st p = { st with psSet := true, uniquePS := p } := by
  unfold adoptPS
  by_cases h : st.psSet = true
  · rw [if_pos h]
    have hu : st.uniquePS = p := by
      by_contra hne
      exact hok ⟨h, fun e => hne e.symm⟩
    cases st
    simp only at h hu
    simp [h, hu]
  · rw [if_neg h]

/-- Counterexample to C19 (window 100..139): the second record passes the
filters and carries the phase tag "9" and the haplotype tag 2, but the phase
identifier "7" was adopted before; the scan ends at this record and haplotype
2's depth vector stays empty, although the record covers 110..119. -/
theorem haplotype_routing_counterexample :
    collect 100 140
      [mkRead 105 [(CigarOp.MATCH, 10)] 10 30 "7" 1,
       mkRead 110 [(CigarOp.MATCH, 10)] 10 30 "9" 2] (initEvidence 40) =
      some { sppH1 := List.replicate 40 0, sppH2 := List.replicate 40 0,
             bpH1 := List.replicate 5 0 ++ List.replicate 10 1 ++ List.replicate 25 0,
             bpH2 := List.replicate 40 0,
             uniquePS := "7", psSet := true, singlePhasedBlock := false } ∧
    contribute 100 140 (mkRead 110 [(CigarOp.MATCH, 10)] 10 30 "9" 2)
      (List.replicate 40 0) (List.replicate 40 0) =
      some (List.replicate 10 0 ++ List.replicate 10 1 ++ List.replicate 20 0,
        List.replicate 40 0) := by
  decide

/-- C19 (amended). A record that is scanned, passes the filters and carries a
haplotype tag and a phase tag that does not conflict with the identifier
adopted so far has its depth and split evidence added to haplotype 2's vectors
when the haplotype value is not 1 (2, but also 0, 3 or a negative value),
haplotype 1's vectors staying unchanged, and to haplotype 1's vectors when the
value is 1, haplotype 2's staying unchanged; the scan then goes on with the
next record.  (A record whose phase tag conflicts ends the scan and adds
nothing.) -/
theorem haplotype_routing (regionStart regionEnd : Int) (r : Bam1) (rest : List Bam1)
    (p : String) (hap : Int) (st : Evidence)
    (hf : flagExcluded r = false ∧ ¬ r.pos < regionStart)
    (hp : r.ps = some p) (hh : r.hp = some hap)
    (hok : ¬ (st.psSet = true ∧ p ≠ st.uniquePS)) :
    (hap ≠ 1 →
      collect regionStart regionEnd (r :: rest) st =
        (contribute regionStart regionEnd r st.bpH2 st.sppH2).bind (fun x =>
          collect regionStart regionEnd rest
            { sppH1 := st.sppH1, sppH2 := x.2, bpH1 := st.bpH1, bpH2 := x.1,
              uniquePS := p, psSet := true,
              singlePhasedBlock := st.singlePhasedBlock })) ∧
    (hap = 1 →
      collect regionStart regionEnd (r :: rest) st =
        (contribute regionStart regionEnd r st.bpH1 st.sppH1).bind (fun x =>
          collect regionStart regionEnd rest
            { sppH1 := x.2, sppH2 := st.sppH2, bpH1 := x.1, bpH2 := st.bpH2,
              uniquePS := p, psSet := true,
              singlePhasedBlock := st.singlePhasedBlock })) := by
  refine ⟨?_, ?_⟩
  · intro h1
    rw [collect_evidence _ _ r rest st p hap hf hp hok hh, addEvidence_hap2 _ _ _ _ _ h1,
      adoptPS_eq st p hok]
    cases contribute regionStart regionEnd r st.bpH2 st.sppH2 with
    | none => rfl
    | some x => rfl
  · intro h1
    subst h1
    rw [collect_evidence _ _ r rest st p 1 hf hp hok hh, addEvidence_hap1,
      adoptPS_eq st p hok]
    cases contribute regionStart regionEnd r st.bpH1 st.sppH1 with
    | none => rfl
    | some x => rfl

/-- Witness for C19 (amended): a read with haplotype value 0 is counted for
haplotype 2. -/
theorem haplotype_routing_witness :
    collect 100 140 [mkRead 110 [(CigarOp.MATCH, 10)] 10 30 "7" 0] (initEvidence 40) =
      (contribute 100 140 (mkRead 110 [(CigarOp.MATCH, 10)] 10 30 "7" 0)
        (initEvidence 40).bpH2 (initEvidence 40).sppH2).bind (fun x =>
          collect 100 140 []
            { sppH1 := (initEvidence 40).sppH1, sppH2 := x.2, bpH1 := (initEvidence 40).bpH1,
              bpH2 := x.1, uniquePS := "7", psSet := true,
              singlePhasedBlock := (initEvidence 40).singlePhasedBlock }) :=
  (haplotype_routing 100 140 (mkRead 110 [(CigarOp.MATCH, 10)] 10 30 "7" 0) [] "7" 0
    (initEvidence 40) (by decide) rfl rfl (by decide)).1 (by decide)

/-! ## The searches of the refinement -/

theorem refine_eq_refineWith (bprefine : Nat) (ev : Evidence) (svStart svEnd : Int) :
    refine bprefine ev svStart svEnd =
      match chosenSpp ev svStart svEnd with
      | none => none
      | some spp => refineWith bprefine spp svStart svEnd := by
  unfold refine chosenSpp refineWith
  cases bpCounts ev.bpH1 ev.bpH2 svStart svEnd with
  | none => rfl
  | some c => rfl

/-- Result of a search loop that stays inside the vector: either the initial
offset is kept and no scanned count exceeds the initial count, or the result
is the first scanned position that holds the largest scanned count, which
exceeds the initial count. -/
theorem searchLoop_argmax (spp : List Nat) (n i : Nat) (b : Int) (c : Nat)
    (h : i + n ≤ spp.length) (hl : spp.length < 2147483648) :
    ∃ b1 c1, searchLoop spp n i (b, c) = some (b1, c1) ∧
      ((b1 = b ∧ c1 = c ∧ ∀ j, i ≤ j → j < i + n → spp.getD j 0 ≤ c) ∨
        (∃ k : Nat, b1 = (k : Int) ∧ i ≤ k ∧ k < i + n ∧ spp.getD k 0 = c1 ∧ c < c1 ∧
          (∀ j, i ≤ j → j < i + n → spp.getD j 0 ≤ c1) ∧
          (∀ j, i ≤ j → j < k → spp.getD j 0 < c1))) := by
  induction n generalizing i b c with
  | zero =>
    refine ⟨b, c, by simp [searchLoop], Or.inl ⟨rfl, rfl, ?_⟩⟩
    intro j h1 h2; omega
  | succ n ih =>
    have hi : i < spp.length := by omega
    have hgi : spp.getD i 0 = spp[i] := by
      rw [List.getD_eq_getElem?_getD, List.getElem?_eq_getElem hi]; rfl
    simp only [searchLoop, List.getElem?_eq_getElem hi]
    by_cases hx : spp[i] > c
    · simp only [hx, if_true]
      have hw : wrapI32 (i : Int) = (i : Int) := wrapI32_of_range _ (by omega) (by omega)
      obtain ⟨b1, c1, he, hor⟩ := ih (i + 1) (wrapI32 i) spp[i] (by omega)
      refine ⟨b1, c1, he, Or.inr ?_⟩
      rcases hor with ⟨hb, hc, hall⟩ | ⟨k, hk, k1, k2, k3, k4, k5, k6⟩
      · refine ⟨i, by rw [hb, hw], le_refl _, by omega, by rw [hgi, hc], by omega, ?_, ?_⟩
        · intro j h1 h2
          by_cases hj : j = i
          · rw [hj, hgi, hc]
          · rw [hc]; exact hall j (by omega) (by omega)
        · intro j h1 h2; omega
      · refine ⟨k, hk, by omega, by omega, k3, by omega, ?_, ?_⟩
        · intro j h1 h2
          by_cases hj : j = i
          · rw [hj, hgi]; omega
          · exact k5 j (by omega) (by omega)
        · intro j h1 h2
          by_cases hj : j = i
          · rw [hj, hgi]; omega
          · exact k6 j (by omega) h2
    · simp only [hx, if_false]
      obtain ⟨b1, c1, he, hor⟩ := ih (i + 1) b c (by omega)
      refine ⟨b1, c1, he, ?_⟩
      rcases hor with ⟨hb, hc, hall⟩ | ⟨k, hk, k1, k2, k3, k4, k5, k6⟩
      · refine Or.inl ⟨hb, hc, ?_⟩
        intro j h1 h2
        by_cases hj : j = i
        · rw [hj, hgi]; omega
        · exact hall j (by omega) (by omega)
      · refine Or.inr ⟨k, hk, by omega, by omega, k3, k4, ?_, ?_⟩
        · intro j h1 h2
          by_cases hj : j = i
          · rw [hj, hgi]; omega
          · exact k5 j (by omega) (by omega)
        · intro j h1 h2
          by_cases hj : j = i
          · rw [hj, hgi]; omega
          · exact k6 j (by omega) h2

theorem searchLoop_firstMax (spp : List Nat) (lo hi b : Int)
    (hlo : 0 ≤ lo) (hhi : 0 ≤ hi) (hloN : lo ≤ spp.length) (hhiN : hi ≤ spp.length)
    (hl : spp.length < 2147483648) :
    ∃ b1 c1, searchLoop spp (toSizeT hi - toSizeT lo) (toSizeT lo) (b, spp.getD b.toNat 0) =
        some (b1, c1) ∧
      firstMaxOrOriginal spp lo hi b b1 ∧ (b1 = b ∨ (lo ≤ b1 ∧ b1 < hi)) := by
  have e1 : toSizeT lo = lo.toNat := toSizeT_of_range lo hlo (by omega)
  have e2 : toSizeT hi = hi.toNat := toSizeT_of_range hi hhi (by omega)
  rw [e1, e2]
  obtain ⟨b1, c1, he, hor⟩ :=
    searchLoop_argmax spp (hi.toNat - lo.toNat) lo.toNat b (spp.getD b.toNat 0) (by omega) hl
  refine ⟨b1, c1, he, ?_, ?_⟩
  · rcases hor with ⟨hb, hc, hall⟩ | ⟨k, hk, k1, k2, k3, k4, k5, k6⟩
    · rw [hb]
      refine ⟨le_refl _, ?_, fun _ => rfl, ?_⟩
      · intro j h1 h2
        exact hall j.toNat (by omega) (by omega)
      · rintro ⟨j, h1, h2, h3⟩
        have := hall j.toNat (by omega) (by omega)
        omega
    · have hbk : b1.toNat = k := by rw [hk]; simp
      rw [firstMaxOrOriginal, hbk, k3]
      refine ⟨by omega, ?_, ?_, ?_⟩
      · intro j h1 h2
        exact k5 j.toNat (by omega) (by omega)
      · intro hall
        have := hall (k : Int) (by omega) (by omega)
        simp only [Int.toNat_ofNat] at this
        omega
      · intro _
        refine ⟨by omega, by omega, ?_⟩
        intro j h1 h2
        exact k6 j.toNat (by omega) (by omega)
  · rcases hor with ⟨hb, _, _⟩ | ⟨k, hk, k1, k2, _, _, _, _⟩
    · exact Or.inl hb
    · exact Or.inr ⟨by omega, by omega⟩

theorem getD_toSizeT (v : List Nat) (a : Int) (ha : 0 ≤ a) (haN : a < v.length)
    (hl : v.length < 2147483648) : v[toSizeT a]? = some (v.getD a.toNat 0) := by
  have h : a.toNat < v.length := by omega
  rw [toSizeT_of_range a ha (by omega), List.getD_eq_getElem?_getD,
    List.getElem?_eq_getElem h]
  rfl

/-- C15. For every split histogram, with the breakpoint offsets and both
search windows inside the vector, each of the two searches of lines 285-298
returns an offset whose split count is at least the count at the original
offset and at every position of its window; it returns the original offset
when no window position has a strictly larger count, and otherwise the
smallest window position holding the largest count of the window.  The end
search starts from the original end offset, whatever the start search
returned. -/
theorem refineWith_firstMax (W : Nat) (spp : List Nat) (s e : Int)
    (hs : 0 ≤ s) (hse : s ≤ e) (heN : e < spp.length) (hW : e + W ≤ spp.length)
    (hN : spp.length < 1073741824) (hclip : s + W > e - W → 2 ≤ s + e) :
    ∃ s1 e1, refineWith W spp s e = some (s1, e1) ∧
      firstMaxOrOriginal spp (searchWindows W s e).1 (searchWindows W s e).2.1 s s1 ∧
      firstMaxOrOriginal spp (searchWindows W s e).2.2.1 (searchWindows W s e).2.2.2 e e1 := by
  obtain ⟨b1, b2, b3, b4, b5, b6, b7, b8, b9, b10, b11⟩ :=
    searchWindows_bounds W s e hs hse (by omega) hclip
  obtain ⟨s1, c1, hq1, f1, _⟩ := searchLoop_firstMax spp (searchWindows W s e).1
    (searchWindows W s e).2.1 s b1 b4 (by omega) (by omega) (by omega)
  obtain ⟨e1, c2, hq2, f2, _⟩ := searchLoop_firstMax spp (searchWindows W s e).2.2.1
    (searchWindows W s e).2.2.2 e b8 (by omega) (by omega) (by omega) (by omega)
  refine ⟨s1, e1, ?_, f1, f2⟩
  unfold refineWith
  simp only []
  rw [getD_toSizeT spp s hs (by omega) (by omega)]
  simp only []
  rw [hq1]
  simp only []
  rw [getD_toSizeT spp e (by omega) (by omega) (by omega)]
  simp only []
  rw [hq2]

/-- Witness for C15: the histogram with 1 split at offset 2 and 2 splits at
each of the offsets 4 and 5, offsets 3 and 12, radius 2. -/
theorem refineWith_firstMax_witness :
    refineWith 2 [0, 0, 1, 0, 2, 2, 0, 0, 0, 0, 0, 0, 0, 0, 0, 0] 3 12 = some (4, 12) ∧
    ∃ s1 e1, refineWith 2 [0, 0, 1, 0, 2, 2, 0, 0, 0, 0, 0, 0, 0, 0, 0, 0] 3 12 =
        some (s1, e1) ∧
      firstMaxOrOriginal [0, 0, 1, 0, 2, 2, 0, 0, 0, 0, 0, 0, 0, 0, 0, 0]
        (searchWindows 2 3 12).1 (searchWindows 2 3 12).2.1 3 s1 ∧
      firstMaxOrOriginal [0, 0, 1, 0, 2, 2, 0, 0, 0, 0, 0, 0, 0, 0, 0, 0]
        (searchWindows 2 3 12).2.2.1 (searchWindows 2 3 12).2.2.2 12 e1 :=
  ⟨by decide,
    refineWith_firstMax 2 [0, 0, 1, 0, 2, 2, 0, 0, 0, 0, 0, 0, 0, 0, 0, 0] 3 12
      (by decide) (by decide) (by decide) (by decide) (by decide) (by decide)⟩

/-! ## The clipped search windows -/

/-- After clipping, the offset just below the midpoint belongs to neither
scanned range although it lies between them. -/
theorem clipped_windows_gap (W : Nat) (s e : Int) (hs : 0 ≤ s) (hse : s ≤ e)
    (hW : e + W < 1073741824) (hov : s + W > e - W) :
    (searchWindows W s e).2.1 = (s + e) / 2 - 1 ∧ (searchWindows W s e).2.2.1 = (s + e) / 2 ∧
    ¬ ((searchWindows W s e).1 ≤ (s + e) / 2 - 1 ∧ (s + e) / 2 - 1 < (searchWindows W s e).2.1) ∧
    ¬ ((searchWindows W s e).2.2.1 ≤ (s + e) / 2 - 1 ∧
      (s + e) / 2 - 1 < (searchWindows W s e).2.2.2) := by
  rw [searchWindows_eq W s e hs hse hW, if_pos hov]
  simp only
  refine ⟨?_, ?_, ?_, ?_⟩ <;> first | omega | trivial

/-- The failing input of C16 (default options, deletion 1000..1010, offsets 150
and 160): the windows 125..174 and 135..184 overlap and are clipped at the
midpoint 155 to the scanned ranges 125..153 and 155..184.  A read `20M 40S` of
haplotype 1 starting at 984 puts the only split at offset 154, which lies
between the two ranges and is scanned by neither: the chosen histogram holds
0, 1, 0 splits at the offsets 150, 154, 160 and both breakpoints stay where
they were. -/
theorem clipped_windows_leave_gap :
    searchWindows 25 150 160 = (125, 154, 155, 185) ∧
    (collect 850 1160
      [mkRead 990 [(CigarOp.MATCH, 30)] 30 30 "7" 2,
       mkRead 984 [(CigarOp.MATCH, 20), (CigarOp.SOFT_CLIP, 40)] 60 30 "7" 1]
      (initEvidence 310)).bind (fun ev => (chosenSpp ev 150 160).bind (fun spp =>
        (refine 25 ev 150 160).map (fun r =>
          (spp.getD 150 0, spp.getD 154 0, spp.getD 160 0, r)))) =
      some (0, 1, 0, (150, 160)) := by
  decide!

/-! ## Choice of the split histogram -/

theorem sliceSum_le (v : List Nat) (i n B : Nat) (h : ∀ x ∈ v, x ≤ B) :
    sliceSum v i n ≤ n * B := by
  unfold sliceSum
  have h1 : ∀ x ∈ (v.drop i).take n, x ≤ B := fun x hx =>
    h x (List.mem_of_mem_drop (List.mem_of_mem_take hx))
  have h2 := List.sum_le_card_nsmul _ B h1
  have h3 : ((v.drop i).take n).length ≤ n := by
    rw [List.length_take]; exact Nat.min_le_left _ _
  simp only [smul_eq_mul] at h2
  exact le_trans h2 (Nat.mul_le_mul_right B h3)

/-- C17. With depth vectors of `uint32_t` entries and the offsets inside them,
the refinement searches haplotype 1's split histogram exactly when the depth
of haplotype 1 summed strictly between the start and the end offset is at most
that of haplotype 2 (a tie included), and haplotype 2's histogram exactly when
the sum of haplotype 1 is strictly greater. -/
theorem chosenSpp_lower_depth (ev : Evidence) (s e : Int) (N : Nat)
    (l3 : ev.bpH1.length = N) (l4 : ev.bpH2.length = N)
    (hs : -1 ≤ s) (hsN : s < N) (he : 0 ≤ e) (heN : e ≤ N) (hN : N < 2147483648)
    (h1 : ∀ x ∈ ev.bpH1, x < 4294967296) (h2 : ∀ x ∈ ev.bpH2, x < 4294967296) :
    (sliceSum ev.bpH1 (s + 1).toNat (e.toNat - (s + 1).toNat) ≤
        sliceSum ev.bpH2 (s + 1).toNat (e.toNat - (s + 1).toNat) →
      chosenSpp ev s e = some ev.sppH1 ∧
      ∀ W, refine W ev s e = refineWith W ev.sppH1 s e) ∧
    (sliceSum ev.bpH1 (s + 1).toNat (e.toNat - (s + 1).toNat) >
        sliceSum ev.bpH2 (s + 1).toNat (e.toNat - (s + 1).toNat) →
      chosenSpp ev s e = some ev.sppH2 ∧
      ∀ W, refine W ev s e = refineWith W ev.sppH2 s e) := by
  have b1 := sliceSum_le ev.bpH1 (s + 1).toNat (e.toNat - (s + 1).toNat) 4294967295
    (fun x hx => by have := h1 x hx; omega)
  have b2 := sliceSum_le ev.bpH2 (s + 1).toNat (e.toNat - (s + 1).toNat) 4294967295
    (fun x hx => by have := h2 x hx; omega)
  have hn : e.toNat - (s + 1).toNat < 2147483648 := by omega
  have m1 : sliceSum ev.bpH1 (s + 1).toNat (e.toNat - (s + 1).toNat) % 18446744073709551616 =
      sliceSum ev.bpH1 (s + 1).toNat (e.toNat - (s + 1).toNat) :=
    Nat.mod_eq_of_lt (by
      have : (e.toNat - (s + 1).toNat) * 4294967295 < 18446744073709551616 := by omega
      omega)
  have m2 : sliceSum ev.bpH2 (s + 1).toNat (e.toNat - (s + 1).toNat) % 18446744073709551616 =
      sliceSum ev.bpH2 (s + 1).toNat (e.toNat - (s + 1).toNat) :=
    Nat.mod_eq_of_lt (by
      have : (e.toNat - (s + 1).toNat) * 4294967295 < 18446744073709551616 := by omega
      omega)
  have hch : chosenSpp ev s e =
      some (if sliceSum ev.bpH1 (s + 1).toNat (e.toNat - (s + 1).toNat) >
          sliceSum ev.bpH2 (s + 1).toNat (e.toNat - (s + 1).toNat)
        then ev.sppH2 else ev.sppH1) := by
    unfold chosenSpp
    rw [bpCounts_eq ev.bpH1 ev.bpH2 s e N l3 l4 hs hsN he heN hN]
    simp only [m1, m2]
  refine ⟨?_, ?_⟩
  · intro hle
    rw [if_neg (by omega)] at hch
    refine ⟨hch, fun W => ?_⟩
    rw [refine_eq_refineWith, hch]
  · intro hgt
    rw [if_pos hgt] at hch
    refine ⟨hch, fun W => ?_⟩
    rw [refine_eq_refineWith, hch]

/-- Witness for C17: equal depth sums (2 and 2) between the offsets 1 and 5
choose haplotype 1's histogram. -/
theorem chosenSpp_lower_depth_witness :
    chosenSpp
      { sppH1 := [0, 0, 3, 0, 0, 0, 0, 0], sppH2 := [0, 0, 0, 0, 4, 0, 0, 0],
        bpH1 := [9, 9, 1, 0, 1, 9, 9, 9], bpH2 := [0, 0, 0, 2, 0, 0, 0, 0],
        uniquePS := "7", psSet := true, singlePhasedBlock := true } 1 5 =
      some [0, 0, 3, 0, 0, 0, 0, 0] :=
  ((chosenSpp_lower_depth
    { sppH1 := [0, 0, 3, 0, 0, 0, 0, 0], sppH2 := [0, 0, 0, 0, 4, 0, 0, 0],
      bpH1 := [9, 9, 1, 0, 1, 9, 9, 9], bpH2 := [0, 0, 0, 2, 0, 0, 0, 0],
      uniquePS := "7", psSet := true, singlePhasedBlock := true } 1 5 8 rfl rfl
    (by decide) (by decide) (by decide) (by decide) (by decide) (by decide) (by decide)).1
    (by decide)).1

/-! ## Order of the refined offsets -/

/-- A search loop that ends keeps the initial offset or returns a scanned
position. -/
theorem searchLoop_result (spp : List Nat) (n i : Nat) (b : Int) (c : Nat) (b1 : Int) (c1 : Nat)
    (hl : spp.length < 2147483648) (h : searchLoop spp n i (b, c) = some (b1, c1)) :
    b1 = b ∨ ((i : Int) ≤ b1 ∧ b1 < ((i + n : Nat) : Int)) := by
  induction n generalizing i b c with
  | zero =>
    simp only [searchLoop, Option.some.injEq, Prod.mk.injEq] at h
    exact Or.inl h.1.symm
  | succ n ih =>
    by_cases hi : i < spp.length
    · simp only [searchLoop, List.getElem?_eq_getElem hi] at h
      split_ifs at h with hx
      · have hw : wrapI32 (i : Int) = (i : Int) := wrapI32_of_range _ (by omega) (by omega)
        rcases ih (i + 1) _ _ h with hh | hh
        · right; rw [hh, hw]; push_cast; omega
        · right; push_cast at hh ⊢; omega
      · rcases ih (i + 1) _ _ h with hh | hh
        · exact Or.inl hh
        · right; push_cast at hh ⊢; omega
    · simp only [searchLoop, List.getElem?_eq_none (by omega : spp.length ≤ i)] at h
      simp at h

theorem refineWith_result (W : Nat) (spp : List Nat) (s e s1 e1 : Int)
    (hs : 0 ≤ s) (hse : s + 2 ≤ e) (hW : e + W < 1073741824) (hl : spp.length < 2147483648)
    (h : refineWith W spp s e = some (s1, e1)) :
    (s1 = s ∨ ((searchWindows W s e).1 ≤ s1 ∧ s1 < (searchWindows W s e).2.1)) ∧
    (e1 = e ∨ ((searchWindows W s e).2.2.1 ≤ e1 ∧ e1 < (searchWindows W s e).2.2.2)) := by
  obtain ⟨b1, b2, b3, b4, b5, b6, b7, b8, b9, b10, b11⟩ :=
    searchWindows_bounds W s e hs (by omega) hW (fun _ => by omega)
  unfold refineWith at h
  simp only [] at h
  rw [toSizeT_of_range _ b1 (by omega), toSizeT_of_range _ b4 (by omega),
    toSizeT_of_range _ b8 (by omega),
    toSizeT_of_range (searchWindows W s e).2.2.2 (by omega) (by omega)] at h
  cases hx : spp[toSizeT s]? with
  | none => rw [hx] at h; simp at h
  | some x =>
    rw [hx] at h
    simp only [] at h
    cases hq1 : searchLoop spp ((searchWindows W s e).2.1.toNat - (searchWindows W s e).1.toNat)
        (searchWindows W s e).1.toNat (s, x) with
    | none => rw [hq1] at h; simp at h
    | some r1 =>
      obtain ⟨sa, ca⟩ := r1
      rw [hq1] at h
      simp only [] at h
      cases hy : spp[toSizeT e]? with
      | none => rw [hy] at h; simp at h
      | some y =>
        rw [hy] at h
        simp only [] at h
        cases hq2 : searchLoop spp
            ((searchWindows W s e).2.2.2.toNat - (searchWindows W s e).2.2.1.toNat)
            (searchWindows W s e).2.2.1.toNat (e, y) with
        | none => rw [hq2] at h; simp at h
        | some r2 =>
          obtain ⟨ea, cb⟩ := r2
          rw [hq2] at h
          simp only [Option.some.injEq, Prod.mk.injEq] at h
          obtain ⟨h1, h2⟩ := h
          subst h1; subst h2
          have r1 := searchLoop_result spp _ _ s x sa ca hl hq1
          have r2 := searchLoop_result spp _ _ e y ea cb hl hq2
          refine ⟨?_, ?_⟩
          · rcases r1 with hh | hh
            · exact Or.inl hh
            · right; push_cast at hh; omega
          · rcases r2 with hh | hh
            · exact Or.inl hh
            · right; push_cast at hh; omega

theorem refine_result (W : Nat) (ev : Evidence) (s e s1 e1 : Int)
    (hs : 0 ≤ s) (hse : s + 2 ≤ e) (hW : e + W < 1073741824)
    (hl1 : ev.sppH1.length < 2147483648) (hl2 : ev.sppH2.length < 2147483648)
    (h : refine W ev s e = some (s1, e1)) :
    (s1 = s ∨ ((searchWindows W s e).1 ≤ s1 ∧ s1 < (searchWindows W s e).2.1)) ∧
    (e1 = e ∨ ((searchWindows W s e).2.2.1 ≤ e1 ∧ e1 < (searchWindows W s e).2.2.2)) := by
  rw [refine_eq_refineWith] at h
  unfold chosenSpp at h
  cases hc : bpCounts ev.bpH1 ev.bpH2 s e with
  | none => rw [hc] at h; simp at h
  | some c =>
    rw [hc] at h
    simp only [] at h
    by_cases hg : c.1 > c.2
    · rw [if_pos hg] at h
      exact refineWith_result W _ s e s1 e1 hs hse hW hl2 h
    · rw [if_neg hg] at h
      exact refineWith_result W _ s e s1 e1 hs hse hW hl1 h

theorem window_order (W : Nat) (s e s1 e1 : Int) (hs : 0 ≤ s) (hse : s + 2 ≤ e)
    (hW : e + W < 1073741824)
    (w1 : s1 = s ∨ ((searchWindows W s e).1 ≤ s1 ∧ s1 < (searchWindows W s e).2.1))
    (w2 : e1 = e ∨ ((searchWindows W s e).2.2.1 ≤ e1 ∧ e1 < (searchWindows W s e).2.2.2)) :
    0 ≤ s1 ∧ s1 < e1 ∧ e1 < 1073741824 := by
  have hw := searchWindows_eq W s e hs (by omega) hW
  by_cases hc : s + W > e - W
  · rw [hw, if_pos hc] at w1 w2
    simp only at w1 w2
    rcases w1 with h | h <;> rcases w2 with h' | h' <;> omega
  · rw [hw, if_neg hc] at w1 w2
    simp only at w1 w2
    rcases w1 with h | h <;> rcases w2 with h' | h' <;> omega

/-- C18. For original offsets with `0 <= start` and `start + 2 <= end` (and
`end + W` below `2^30`), every refinement radius `W` and every content of the
split and depth vectors, a refinement that ends returns a start offset
strictly below the end offset, so the interval length used as divisor is
positive; the refinement does end when the offsets and the end window lie
inside the vectors.  For a variant of length 1 the refined offsets can
coincide. -/
theorem refined_order (W : Nat) (ev : Evidence) (s e : Int)
    (hs : 0 ≤ s) (hse : s + 2 ≤ e) (hW : e + W < 1073741824)
    (hl1 : ev.sppH1.length < 2147483648) (hl2 : ev.sppH2.length < 2147483648) :
    (∀ s1 e1, refine W ev s e = some (s1, e1) →
      s1 < e1 ∧ 0 < toSizeT (wrapI32 (e1 - s1))) ∧
    (∀ N : Nat, ev.sppH1.length = N → ev.sppH2.length = N → ev.bpH1.length = N →
      ev.bpH2.length = N → e + W ≤ N → N < 1073741824 → e < N →
      ∃ s1 e1, refine W ev s e = some (s1, e1) ∧ s1 < e1) ∧
    refine 2
      { sppH1 := [0, 0, 1, 0, 0, 0, 0, 0], sppH2 := [0, 0, 0, 0, 0, 0, 0, 0],
        bpH1 := [0, 0, 0, 0, 0, 0, 0, 0], bpH2 := [0, 0, 0, 0, 0, 0, 0, 0],
        uniquePS := "7", psSet := true, singlePhasedBlock := true } 2 3 = some (2, 2) := by
  refine ⟨?_, ?_, by decide⟩
  · intro s1 e1 h
    obtain ⟨w1, w2⟩ := refine_result W ev s e s1 e1 hs hse hW hl1 hl2 h
    obtain ⟨o1, o2, o3⟩ := window_order W s e s1 e1 hs hse hW w1 w2
    refine ⟨o2, ?_⟩
    rw [wrapI32_of_range _ (by omega) (by omega), toSizeT_of_range _ (by omega) (by omega)]
    omega
  · intro N l1 l2 l3 l4 hWN hN heN
    obtain ⟨s1, e1, hr, w1, w2⟩ := refine_spec W ev s e N l1 l2 l3 l4 hs (by omega) (by omega)
      hWN hN (fun _ => by omega)
    obtain ⟨_, o2, _⟩ := window_order W s e s1 e1 hs hse hW w1 w2
    exact ⟨s1, e1, hr, o2⟩

/-- Witness for C18: offsets 150 and 160, radius 25, vectors of 310 entries
with 2 splits at offset 153 and 2 splits at offset 155 in the histogram of
haplotype 1: the start moves up to 153, the end moves down to 155, and the
refined start stays below the refined end. -/
theorem refined_order_witness :
    (∃ s1 e1, refine 25
        { sppH1 := ((List.replicate 310 0).set 153 2).set 155 2,
          sppH2 := List.replicate 310 0, bpH1 := List.replicate 310 0,
          bpH2 := List.replicate 310 0, uniquePS := "7", psSet := true,
          singlePhasedBlock := true } 150 160 = some (s1, e1) ∧ s1 < e1) ∧
    refine 25
        { sppH1 := ((List.replicate 310 0).set 153 2).set 155 2,
          sppH2 := List.replicate 310 0, bpH1 := List.replicate 310 0,
          bpH2 := List.replicate 310 0, uniquePS := "7", psSet := true,
          singlePhasedBlock := true } 150 160 = some (153, 155) :=
  ⟨(refined_order 25
    { sppH1 := ((List.replicate 310 0).set 153 2).set 155 2,
      sppH2 := List.replicate 310 0, bpH1 := List.replicate 310 0,
      bpH2 := List.replicate 310 0, uniquePS := "7", psSet := true,
      singlePhasedBlock := true } 150 160 (by decide) (by decide) (by decide)
    (by simp only [List.length_set, List.length_replicate]; decide)
    (by simp only [List.length_replicate]; decide)).2.1 310
    (by simp only [List.length_set, List.length_replicate]) (List.length_replicate 310 0)
    (List.length_replicate 310 0) (List.length_replicate 310 0)
    (by decide) (by decide) (by decide),
   by decide!⟩

/-! ## Which variants produce a row -/

theorem gt_type_ne (g0 g1 : Int) (h0 : gtEncoded g0) (h1 : gtEncoded g1)
    (a0 : bcfGtAllele g0 ≠ -1) (a1 : bcfGtAllele g1 ≠ -1) :
    wrapI32 (bcfGtAllele g0 + bcfGtAllele g1) ≠ -1 := by
  unfold gtEncoded at h0 h1
  unfold bcfGtAllele wrapI32 at *
  omega

theorem processRegion_some (cfg : Config) (pos svend : Int) (recs : List Bam1)
    (h0 : 0 ≤ pos) (h2 : pos + 2 ≤ svend) (hr : 1 ≤ cfg.readlen)
    (hW : cfg.bprefine ≤ cfg.readlen) (hb : svend + cfg.readlen < 1073741824)
    (hw : ∀ r ∈ recs, r.wellFormed) :
    ∃ row, processRegion cfg pos svend recs = some row := by
  obtain ⟨g1, g2, g3, g4, g5, g6, g7⟩ := region_offsets cfg pos svend h0 (by omega) hr hb
  obtain ⟨i1, i2, i3, i4⟩ := initEvidence_length (regionSizeOf cfg pos svend).toNat
  obtain ⟨ev, hc⟩ := collect_some (regionStartOf cfg pos) (regionEndOf cfg svend) recs
    (initEvidence (regionSizeOf cfg pos svend).toNat) (regionSizeOf cfg pos svend).toNat
    i1 i2 i3 i4 g2 (by omega) hw
  obtain ⟨l1, l2, l3, l4⟩ := collect_length _ _ _ _ _ hc
  obtain ⟨row, h1, _, _⟩ := finishRow_finite cfg ev (wrapI32 (pos - regionStartOf cfg pos))
    (wrapI32 (svend - regionStartOf cfg pos)) (regionSizeOf cfg pos svend).toNat
    (by rw [l1, i1]) (by rw [l2, i2]) (by rw [l3, i3]) (by rw [l4, i4]) g4 (by omega)
    (by omega) (by omega) g3
  exact ⟨row, by rw [processRegion_of_collect cfg pos svend recs ev g1 hc]; exact h1⟩

/-- C14. For a variant whose `GT` entries are encoded alleles or missing
markers, the loop body writes no row when an allele of the sample is not
called (`bcf_gt_allele` is -1), or the type tag differs from "DEL", or the
chromosome name with "chr" put in front when missing is "chrX" or "chrY"; in
every other case it writes exactly the one row built from the evidence columns
computed for the variant.  So a row is written only for a deletion on an
autosome with both alleles called, and then whenever the evidence columns are
computed, which is the case for well-formed records and a deletion of at least
two bases with coordinates below `2^30`. -/
theorem variant_row_iff (cfg : Config) (v : Variant) (recs : List Bam1)
    (h0 : gtEncoded v.gt0) (h1 : gtEncoded v.gt1) :
    (¬ (bcfGtAllele v.gt0 ≠ -1 ∧ bcfGtAllele v.gt1 ≠ -1 ∧ v.svt = "DEL" ∧
        normChr v.chrom ≠ "chrX" ∧ normChr v.chrom ≠ "chrY") →
      processVariant cfg v recs = some []) ∧
    (bcfGtAllele v.gt0 ≠ -1 ∧ bcfGtAllele v.gt1 ≠ -1 ∧ v.svt = "DEL" ∧
        normChr v.chrom ≠ "chrX" ∧ normChr v.chrom ≠ "chrY" →
      processVariant cfg v recs =
        (processRegion cfg v.pos v.svend recs).map (fun row => [outputRow v row])) ∧
    ((∃ r, processVariant cfg v recs = some [r]) ↔
      (bcfGtAllele v.gt0 ≠ -1 ∧ bcfGtAllele v.gt1 ≠ -1 ∧ v.svt = "DEL" ∧
        normChr v.chrom ≠ "chrX" ∧ normChr v.chrom ≠ "chrY") ∧
      ∃ row, processRegion cfg v.pos v.svend recs = some row) ∧
    (v.chrom = "X" ∨ v.chrom = "chrX" ∨ v.chrom = "Y" ∨ v.chrom = "chrY" →
      processVariant cfg v recs = some []) ∧
    (bcfGtAllele v.gt0 ≠ -1 ∧ bcfGtAllele v.gt1 ≠ -1 ∧ v.svt = "DEL" ∧
        normChr v.chrom ≠ "chrX" ∧ normChr v.chrom ≠ "chrY" →
      0 ≤ v.pos → v.pos + 2 ≤ v.svend → 1 ≤ cfg.readlen → cfg.bprefine ≤ cfg.readlen →
      v.svend + cfg.readlen < 1073741824 → (∀ r ∈ recs, r.wellFormed) →
      ∃ r, processVariant cfg v recs = some [r]) := by
  have hskip : ¬ (bcfGtAllele v.gt0 ≠ -1 ∧ bcfGtAllele v.gt1 ≠ -1 ∧ v.svt = "DEL" ∧
        normChr v.chrom ≠ "chrX" ∧ normChr v.chrom ≠ "chrY") →
      processVariant cfg v recs = some [] := by
    intro hn
    unfold processVariant
    by_cases c1 : bcfGtAllele v.gt0 ≠ -1 ∧ bcfGtAllele v.gt1 ≠ -1
    · rw [if_pos c1]
      split_ifs with c2 c3 c4
      · rfl
      · exact absurd ⟨c1.1, c1.2, c3, fun h => c4 (Or.inl h), fun h => c4 (Or.inr h)⟩ hn
      · rfl
      · rfl
    · rw [if_neg c1]
  have hemit : (bcfGtAllele v.gt0 ≠ -1 ∧ bcfGtAllele v.gt1 ≠ -1 ∧ v.svt = "DEL" ∧
        normChr v.chrom ≠ "chrX" ∧ normChr v.chrom ≠ "chrY") →
      processVariant cfg v recs =
        (processRegion cfg v.pos v.svend recs).map (fun row => [outputRow v row]) := by
    rintro ⟨a0, a1, hd, hx, hy⟩
    unfold processVariant
    rw [if_pos ⟨a0, a1⟩, if_pos (gt_type_ne v.gt0 v.gt1 h0 h1 a0 a1), if_pos hd,
      if_neg (by rintro (h | h); exact hx h; exact hy h)]
    cases processRegion cfg v.pos v.svend recs with
    | none => rfl
    | some row => rfl
  refine ⟨hskip, hemit, ?_, ?_, ?_⟩
  · constructor
    · rintro ⟨r, hr⟩
      by_cases hc : bcfGtAllele v.gt0 ≠ -1 ∧ bcfGtAllele v.gt1 ≠ -1 ∧ v.svt = "DEL" ∧
          normChr v.chrom ≠ "chrX" ∧ normChr v.chrom ≠ "chrY"
      · refine ⟨hc, ?_⟩
        rw [hemit hc] at hr
        cases hp : processRegion cfg v.pos v.svend recs with
        | none => rw [hp] at hr; simp at hr
        | some row => exact ⟨row, rfl⟩
      · rw [hskip hc] at hr
        simp at hr
    · rintro ⟨hc, row, hrow⟩
      exact ⟨outputRow v row, by rw [hemit hc, hrow]; rfl⟩
  · intro hx
    apply hskip
    rintro ⟨_, _, _, nx, ny⟩
    rcases hx with h | h | h | h
    · apply nx; rw [h]; decide
    · apply nx; rw [h]; decide
    · apply ny; rw [h]; decide
    · apply ny; rw [h]; decide
  · intro hc p0 p2 pr pW pb pw
    obtain ⟨row, hrow⟩ := processRegion_some cfg v.pos v.svend recs p0 p2 pr pW pb pw
    exact ⟨outputRow v row, by rw [hemit hc, hrow]; rfl⟩

/-- Witness for C14: a heterozygous deletion on chromosome X is skipped and
the same deletion on chromosome 1 gets its row. -/
theorem variant_row_iff_witness :
    processVariant defaultConfig
      { chrom := "X", pos := 1000, id := "DEL00001", svend := 1010, svt := "DEL",
        gt0 := 2, gt1 := 5 } [] = some [] ∧
    ∃ r, processVariant defaultConfig
      { chrom := "1", pos := 1000, id := "DEL00001", svend := 1010, svt := "DEL",
        gt0 := 2, gt1 := 5 } [] = some [r] :=
  ⟨(variant_row_iff defaultConfig
    { chrom := "X", pos := 1000, id := "DEL00001", svend := 1010, svt := "DEL",
      gt0 := 2, gt1 := 5 } [] (by unfold gtEncoded; decide) (by unfold gtEncoded; decide)).2.2.2.1
    (Or.inl rfl),
   (variant_row_iff defaultConfig
    { chrom := "1", pos := 1000, id := "DEL00001", svend := 1010, svt := "DEL",
      gt0 := 2, gt1 := 5 } [] (by unfold gtEncoded; decide) (by unfold gtEncoded; decide)).2.2.2.2
    (by decide) (by decide) (by decide) (by decide) (by decide) (by decide)
    (by intro r hr; cases hr)⟩

end GenoDEL
